import Mathlib

/-!
# MiniVSFS: image builder and file injector

A shallow embedding of `mkfs_builder_skeleton.c` (the Builder) and
`mkfs_adder_skeleton.c` (the Injector).  Files and memory buffers are lists of
bytes (`List Nat`, every element meant to be `< 256`); C integers are naturals
reduced modulo `2 ^ w` where the C type wraps.  Multi-byte fields are
little-endian and records are packed, as in the `#pragma pack(push, 1)` structs.
-/

namespace MiniVSFS

/-! ## Constants and machine integers -/

/-- Block size, `#define BS 4096u`. -/
def BS : Nat := 4096

/-- Size of one inode record, `#define INODE_SIZE 128u`. -/
def INODE_SIZE : Nat := 128

/-- Inode number of the root directory, `#define ROOT_INO 1u`. -/
def ROOT_INO : Nat := 1

/-- Number of direct pointers, `#define DIRECT_MAX 12`. -/
def DIRECT_MAX : Nat := 12

/-- Conversion to `uint8_t`. -/
def u8 (x : Nat) : Nat := x % 2 ^ 8

/-- Conversion to `uint16_t`. -/
def u16 (x : Nat) : Nat := x % 2 ^ 16

/-- Conversion to `uint32_t` / `unsigned`. -/
def u32 (x : Nat) : Nat := x % 2 ^ 32

/-- Conversion to `uint64_t`. -/
def u64 (x : Nat) : Nat := x % 2 ^ 64

/-- Subtraction of `uint64_t` values, wrapping. -/
def sub64 (a b : Nat) : Nat := (a % 2 ^ 64 + (2 ^ 64 - b % 2 ^ 64)) % 2 ^ 64

/-- Conversion of an unsigned value to `int` (two's complement, 32 bits). -/
def to_int (x : Nat) : Int :=
  if x % 2 ^ 32 < 2 ^ 31 then ((x % 2 ^ 32 : Nat) : Int) else ((x % 2 ^ 32 : Nat) : Int) - 2 ^ 32

/-- Conversion of an `int` to `unsigned` / `uint32_t`. -/
def int_to_u32 (x : Int) : Nat := (x % 2 ^ 32).toNat

/-! ## Bytes -/

/-- The `n` little-endian bytes of `v` (the low `8 * n` bits). -/
def le_bytes : Nat → Nat → List Nat
  | 0, _ => []
  | n + 1, v => v % 256 :: le_bytes n (v / 256)

/-- The value of a little-endian byte string. -/
def le_val : List Nat → Nat
  | [] => 0
  | b :: bs => b + 256 * le_val bs

/-- The bytes `buf[off .. off + n)`. -/
def slice (buf : List Nat) (off n : Nat) : List Nat := (buf.drop off).take n

/-- The little-endian field of `n` bytes at offset `off` of a buffer. -/
def rd (buf : List Nat) (off n : Nat) : Nat := le_val (slice buf off n)

/-- Store `bytes` at offset `off` of a memory buffer (the buffer keeps its length when the
store is inside it). -/
def patch (buf : List Nat) (off : Nat) (bytes : List Nat) : List Nat :=
  buf.take off ++ (bytes ++ buf.drop (off + bytes.length))

/-- The first `n` elements of a list, zero-filled when the list is shorter. -/
def take_pad : Nat → List Nat → List Nat
  | 0, _ => []
  | n + 1, [] => 0 :: take_pad n []
  | n + 1, b :: bs => b :: take_pad n bs

/-- The `n` bytes found in a region of memory whose contents the program did not set. -/
def residue (mem : Nat → Nat) (n : Nat) : List Nat := (List.range n).map (fun i => mem i % 256)

/-- Every element is a byte. -/
def IsBytes (l : List Nat) : Prop := ∀ b ∈ l, b < 256

/-! ## Checksums -/

/-- One iteration of the inner loop of `crc32_init`:
`c = (c&1) ? (0xEDB88320u ^ (c>>1)) : (c>>1)`. -/
def crc_step (c : Nat) : Nat :=
  if c &&& 1 = 1 then 0xEDB88320 ^^^ (c >>> 1) else c >>> 1

/-- The inner loop of `crc32_init`, `j` iterations. -/
def crc_iter : Nat → Nat → Nat
  | 0, c => c
  | j + 1, c => crc_iter j (crc_step c)

/-- The table `CRC32_TAB` after `crc32_init()`. -/
def crc32_init : List Nat := (List.range 256).map (fun i => crc_iter 8 i)

/-- The loop of `crc32`: `c = CRC32_TAB[(c^p[i])&0xFF] ^ (c>>8)`. -/
def crc32_loop (tab : List Nat) : List Nat → Nat → Nat
  | [], c => c
  | b :: p, c => crc32_loop tab p (tab.getD ((c ^^^ b) &&& 0xFF) 0 ^^^ (c >>> 8))

/-- Function `crc32(data, n)`, on the `n` bytes it is given. -/
def crc32 (data : List Nat) : Nat := crc32_loop crc32_init data 0xFFFFFFFF ^^^ 0xFFFFFFFF

/-- The bit-at-a-time reflected CRC-32 register update for one byte: the byte is XORed into
the low 8 bits, then 8 shift steps with conditional XOR of `0xEDB88320`. -/
def crc32_ref_byte (c b : Nat) : Nat := crc_iter 8 (c ^^^ b)

/-- The bit-at-a-time reference CRC-32: register initialised to `0xFFFFFFFF`, final result
inverted. -/
def crc32_ref (data : List Nat) : Nat := data.foldl crc32_ref_byte 0xFFFFFFFF ^^^ 0xFFFFFFFF

/-- Function `superblock_crc_finalize`, on the 116 bytes of the struct followed in memory by
`beyond`: the checksum field (offset 112) is zeroed, `crc32` runs over `BS - 4` bytes
starting at the struct, and the result is stored in the field. -/
def superblock_crc_finalize (sb : List Nat) (beyond : List Nat) : List Nat :=
  let sb0 := patch sb 112 (le_bytes 4 0)
  let s := crc32 ((sb0 ++ beyond).take (BS - 4))
  patch sb0 112 (le_bytes 4 s)

/-- Function `inode_crc_finalize`, on the 128 bytes of the record. -/
def inode_crc_finalize (ino : List Nat) : List Nat :=
  let tmp := patch (ino.take INODE_SIZE) 120 (List.replicate 8 0)
  let c := crc32 (tmp.take 120)
  patch ino 120 (le_bytes 8 c)

/-- The loop of `dirent_checksum_finalize`: `x ^= p[i]` on a `uint8_t`. -/
def xor8 (p : List Nat) : Nat := p.foldl (fun x b => u8 (x ^^^ b)) 0

/-- Function `dirent_checksum_finalize`, on the 64 bytes of the entry. -/
def dirent_checksum_finalize (de : List Nat) : List Nat :=
  patch de 63 [xor8 (de.take 63)]

/-! ## Records -/

/-- The struct `superblock_t`. -/
structure superblock_t where
  magic : Nat
  version : Nat
  block_size : Nat
  total_blocks : Nat
  inode_count : Nat
  inode_bitmap_start : Nat
  inode_bitmap_blocks : Nat
  data_bitmap_start : Nat
  data_bitmap_blocks : Nat
  inode_table_start : Nat
  inode_table_blocks : Nat
  data_region_start : Nat
  data_region_blocks : Nat
  root_inode : Nat
  mtime_epoch : Nat
  flags : Nat
  checksum : Nat
  deriving DecidableEq, Repr

/-- The 116 bytes of a packed `superblock_t`. -/
def sb_bytes (sb : superblock_t) : List Nat :=
  List.flatten
    [le_bytes 4 sb.magic, le_bytes 4 sb.version, le_bytes 4 sb.block_size,
     le_bytes 8 sb.total_blocks, le_bytes 8 sb.inode_count,
     le_bytes 8 sb.inode_bitmap_start, le_bytes 8 sb.inode_bitmap_blocks,
     le_bytes 8 sb.data_bitmap_start, le_bytes 8 sb.data_bitmap_blocks,
     le_bytes 8 sb.inode_table_start, le_bytes 8 sb.inode_table_blocks,
     le_bytes 8 sb.data_region_start, le_bytes 8 sb.data_region_blocks,
     le_bytes 8 sb.root_inode, le_bytes 8 sb.mtime_epoch,
     le_bytes 4 sb.flags, le_bytes 4 sb.checksum]

/-- The struct `inode_t`. -/
structure inode_t where
  mode : Nat
  links : Nat
  uid : Nat
  gid : Nat
  size_bytes : Nat
  atime : Nat
  mtime : Nat
  ctime : Nat
  direct : List Nat
  reserved_0 : Nat
  reserved_1 : Nat
  reserved_2 : Nat
  proj_id : Nat
  uid16_gid16 : Nat
  xattr_ptr : Nat
  inode_crc : Nat
  deriving DecidableEq, Repr

/-- The 128 bytes of a packed `inode_t` (`direct` has `DIRECT_MAX` elements). -/
def inode_bytes (ino : inode_t) : List Nat :=
  List.flatten
    [le_bytes 2 ino.mode, le_bytes 2 ino.links, le_bytes 4 ino.uid, le_bytes 4 ino.gid,
     le_bytes 8 ino.size_bytes, le_bytes 8 ino.atime, le_bytes 8 ino.mtime,
     le_bytes 8 ino.ctime,
     List.flatten ((List.range DIRECT_MAX).map (fun i => le_bytes 4 (ino.direct.getD i 0))),
     le_bytes 4 ino.reserved_0, le_bytes 4 ino.reserved_1, le_bytes 4 ino.reserved_2,
     le_bytes 4 ino.proj_id, le_bytes 4 ino.uid16_gid16, le_bytes 8 ino.xattr_ptr,
     le_bytes 8 ino.inode_crc]

/-- The struct `dirent64_t`; `name` holds the characters before the terminator. -/
structure dirent64_t where
  inode_no : Nat
  type : Nat
  name : List Nat
  checksum : Nat
  deriving DecidableEq, Repr

/-- The 64 bytes of a packed `dirent64_t` whose `name` array is initialised from a string
literal (the rest of the array is zero). -/
def dirent_bytes (de : dirent64_t) : List Nat :=
  le_bytes 4 de.inode_no ++ (le_bytes 1 de.type ++ (take_pad 58 de.name ++ le_bytes 1 de.checksum))

/-! ## The Builder (`mkfs_builder_skeleton.c`) -/

/-- The superblock initialiser of the Builder's `main`; `t` is the value of `time(NULL)`. -/
def builder_superblock (size_kib inode_count t : Nat) : superblock_t :=
  let total_blocks := u64 (size_kib * 1024) / BS
  let inode_table_blocks := u64 (inode_count * INODE_SIZE + BS - 1) / BS
  { magic := 0x4D565346
    version := 1
    block_size := BS
    total_blocks := total_blocks
    inode_count := inode_count
    inode_bitmap_start := 1
    inode_bitmap_blocks := 1
    data_bitmap_start := 2
    data_bitmap_blocks := 1
    inode_table_start := 3
    inode_table_blocks := inode_table_blocks
    data_region_start := u64 (3 + inode_table_blocks)
    data_region_blocks := sub64 (sub64 total_blocks 3) inode_table_blocks
    root_inode := ROOT_INO
    mtime_epoch := u64 t
    flags := 0
    checksum := 0 }

/-- The root inode initialiser of the Builder's `main`, before `inode_crc_finalize`;
`ta`, `tm`, `tc` are the values of the three calls of `time(NULL)`. -/
def builder_root_inode (sb : superblock_t) (ta tm tc : Nat) : inode_t :=
  { mode := 0o040000
    links := 2
    uid := 0
    gid := 0
    size_bytes := BS
    atime := u64 ta
    mtime := u64 tm
    ctime := u64 tc
    direct := [u32 sb.data_region_start]
    reserved_0 := 0
    reserved_1 := 0
    reserved_2 := 0
    proj_id := 6
    uid16_gid16 := 0
    xattr_ptr := 0
    inode_crc := 0 }

/-- The entry `dot_entry` of the Builder, finalised. -/
def builder_dot_entry : List Nat :=
  dirent_checksum_finalize
    (dirent_bytes { inode_no := ROOT_INO, type := 2, name := [0x2E], checksum := 0 })

/-- The entry `dotdot_entry` of the Builder, finalised. -/
def builder_dotdot_entry : List Nat :=
  dirent_checksum_finalize
    (dirent_bytes { inode_no := ROOT_INO, type := 2, name := [0x2E, 0x2E], checksum := 0 })

/-- The buffer `inode_bitmap` of the Builder: `{0}` then `inode_bitmap[0] = 0x80`. -/
def builder_inode_bitmap : List Nat := (List.replicate BS 0).set 0 0x80

/-- The buffer `data_bitmap` of the Builder: `{0}` then `data_bitmap[0] = 0x80`. -/
def builder_data_bitmap : List Nat := (List.replicate BS 0).set 0 0x80

/-- The bytes written by the inode-table loop of the Builder: record `i = 0` is the root
inode, every other one the zeroed `empty_inode`. -/
def builder_inode_table (root_inode : List Nat) (inode_count : Nat) : List Nat :=
  List.flatten ((List.range inode_count).map
    (fun i => if i = 0 then root_inode else List.replicate INODE_SIZE 0))

/-- The buffer `data_block` of the Builder: zeroes, then the two entries copied to its
start. -/
def builder_data_block : List Nat :=
  patch (patch (List.replicate BS 0) 0 builder_dot_entry) 64 builder_dotdot_entry

/-- The Builder's clock readings (`time(NULL)` at lines 175, 188, 189, 190) and the stack
bytes that follow `sb` in memory, which `superblock_crc_finalize` reads. -/
structure BuilderEnv where
  t_sb : Nat
  t_atime : Nat
  t_mtime : Nat
  t_ctime : Nat
  past_sb : Nat → Nat

/-- The finalised superblock record of the Builder (116 bytes). -/
def builder_sb_record (size_kib inode_count : Nat) (env : BuilderEnv) : List Nat :=
  superblock_crc_finalize (sb_bytes (builder_superblock size_kib inode_count env.t_sb))
    (residue env.past_sb (BS - 116))

/-- The finalised root inode record of the Builder (128 bytes). -/
def builder_root_record (size_kib inode_count : Nat) (env : BuilderEnv) : List Nat :=
  inode_crc_finalize (inode_bytes
    (builder_root_inode (builder_superblock size_kib inode_count env.t_sb)
      env.t_atime env.t_mtime env.t_ctime))

/-- The writes of the Builder's `main`, in order, each `fwrite` (or loop of `fwrite`s) one
element: the superblock, the two bitmaps, the inode table, the first data block, the
remaining data blocks. -/
def builder_writes (size_kib inode_count : Nat) (env : BuilderEnv) : List (List Nat) :=
  let sb := builder_superblock size_kib inode_count env.t_sb
  [ builder_sb_record size_kib inode_count env,
    builder_inode_bitmap,
    builder_data_bitmap,
    builder_inode_table (builder_root_record size_kib inode_count env) inode_count,
    builder_data_block,
    List.flatten (List.replicate (sub64 sb.data_region_blocks 1) (List.replicate BS 0)) ]

/-- The Builder's `main` after argument parsing: `none` is the usage exit
(`size_kib == 0 || inode_count == 0`), otherwise the contents of the image file, the
writes one after the other from offset 0. -/
def builder_main (size_kib inode_count : Nat) (env : BuilderEnv) : Option (List Nat) :=
  if size_kib = 0 ∨ inode_count = 0 then none
  else some (List.flatten (builder_writes size_kib inode_count env))

/-- The arguments the Builder's contract covers: both positive, the products within 64
bits, and room for the superblock, the bitmaps, the inode table and one data block. -/
def ValidArgs (size_kib inode_count : Nat) : Prop :=
  0 < size_kib ∧ 0 < inode_count ∧ size_kib * 1024 < 2 ^ 64 ∧
  inode_count * INODE_SIZE + BS - 1 < 2 ^ 64 ∧
  4 + (inode_count * INODE_SIZE + BS - 1) / BS ≤ size_kib * 1024 / BS

/-! ## Files (`FILE *`, as far as the two programs use it) -/

/-- An open stream: the file's bytes and the file position. -/
structure FILE where
  data : List Nat
  pos : Nat

/-- Call `fseek(fp, off, SEEK_SET)` where `off` is a `uint64_t` expression converted to
`off_t` (64 bits): a value of `2 ^ 63` or more is negative, the call fails and the position
stays. -/
def fseek (fp : FILE) (off : Nat) : FILE :=
  if off < 2 ^ 63 then { fp with pos := off } else fp

/-- The bytes a read of `n` bytes at the file position delivers (fewer at end of file). -/
def fread_bytes (fp : FILE) (n : Nat) : List Nat := slice fp.data fp.pos n

/-- The stream after a read of `n` bytes. -/
def fread_next (fp : FILE) (n : Nat) : FILE :=
  { fp with pos := fp.pos + (fread_bytes fp n).length }

/-- The object `fread(buf, n, 1, fp)` leaves in `buf`: the `n` bytes of the file when they
are all there, otherwise (a partial element) what the C standard calls indeterminate, here
`junk`. -/
def fread_object (fp : FILE) (n : Nat) (junk : Nat → Nat) : List Nat :=
  if (fread_bytes fp n).length = n then fread_bytes fp n else residue junk n

/-- File contents after storing `bytes` at offset `pos`: a position past the end leaves a
gap of zero bytes. -/
def pwrite (data : List Nat) (pos : Nat) (bytes : List Nat) : List Nat :=
  take_pad pos data ++ (bytes ++ data.drop (pos + bytes.length))

/-- Call `fwrite(bytes, n, 1, fp)` with `n` the length of `bytes`; nothing happens when
`n = 0`. -/
def fwrite (fp : FILE) (bytes : List Nat) : FILE :=
  if bytes.length = 0 then fp
  else { data := pwrite fp.data fp.pos bytes, pos := fp.pos + bytes.length }

/-! ## The Injector (`mkfs_adder_skeleton.c`) -/

/-- The inner loop of `find_free_inode` / `find_free_data_block`: the first `j < 8` with
`!(b & (1 << j))`. -/
def first_clear_bit (b : Nat) : Option Nat :=
  (List.range 8).find? (fun j => b &&& (1 <<< j) = 0)

/-- The outer loop of `find_free_inode` / `find_free_data_block` from byte `i` on, with
`left` iterations to go.  The result is `none` when the loop reads `bitmap[i]` outside the
buffer, `some none` when the loop ends, `some (some (i, j))` at the `return`. -/
def bitmap_scan (bitmap : List Nat) : Nat → Nat → Option (Option (Nat × Nat))
  | 0, _ => some none
  | left + 1, i =>
    match bitmap.get? i with
    | none => none
    | some b =>
      if b ≠ 0xFF then
        match first_clear_bit b with
        | some j => some (some (i, j))
        | none => bitmap_scan bitmap left (i + 1)
      else bitmap_scan bitmap left (i + 1)

/-- Function `find_free_inode`; `none` when it reads outside `inode_bitmap`. -/
def find_free_inode (inode_bitmap : List Nat) (inode_count : Nat) : Option Int :=
  match bitmap_scan inode_bitmap (u64 (inode_count + 7) / 8) 0 with
  | none => none
  | some none => some (-1)
  | some (some (i, j)) => some (to_int (u64 (i * 8 + j + 1)))

/-- Function `find_free_data_block`; `none` when it reads outside `data_bitmap`. -/
def find_free_data_block (data_bitmap : List Nat) (data_blocks : Nat) : Option Int :=
  match bitmap_scan data_bitmap (u64 (data_blocks + 7) / 8) 0 with
  | none => none
  | some none => some (-1)
  | some (some (i, j)) => some (to_int (u64 (i * 8 + j)))

/-- How a run of the Injector ends. -/
inductive Outcome
  | success (free_inode : Int)
  | io_error
  | invalid_magic
  | no_free_inodes
  | file_too_large
  | no_free_data_blocks
  | directory_full
  | undefined
  deriving DecidableEq, Repr

/-- Store `bitmap[k / 8] |= (1 << (k % 8))`. -/
def set_bit (bitmap : List Nat) (k : Nat) : List Nat :=
  bitmap.set (k / 8) (u8 (bitmap.getD (k / 8) 0 ||| (1 <<< (k % 8))))

/-- The allocation loop of `main` (lines 244-256) from iteration `i` on, with `left`
iterations to go; the state is the in-memory data bitmap and the array `data_blocks`. -/
def alloc_loop (data_region_blocks : Nat) :
    Nat → Nat → List Nat → List Nat → Except Outcome (List Nat × List Nat)
  | 0, _, data_bitmap, data_blocks => .ok (data_bitmap, data_blocks)
  | left + 1, i, data_bitmap, data_blocks =>
    match find_free_data_block data_bitmap data_region_blocks with
    | none => .error .undefined
    | some free_block =>
      if free_block = -1 then .error .no_free_data_blocks
      else if free_block < 0 ∨ (data_bitmap.length : Int) ≤ free_block / 8 then .error .undefined
      else
        alloc_loop data_region_blocks left (i + 1)
          (set_bit data_bitmap free_block.toNat)
          (data_blocks.set i (u32 free_block.toNat))

/-- The search for a free directory entry (lines 269-275): the first `i < 64` whose
`inode_no` is 0. -/
def find_free_entry (root_entries : List Nat) : Option Nat :=
  (List.range (BS / 64)).find? (fun i => rd root_entries (64 * i) 4 = 0)

/-- What the Injector does not get from its files: the clock, and the prior contents of the
buffers it reads into and of the stack behind `superblock`. -/
structure AdderEnv where
  now : Nat
  junk_inode_bitmap : Nat → Nat
  junk_data_bitmap : Nat → Nat
  junk_root_inode : Nat → Nat
  junk_root_entries : Nat → Nat
  past_superblock : Nat → Nat

/-- The values `main` holds when it has passed every check (line 285). -/
structure Plan where
  superblock : List Nat
  inode_bitmap : List Nat
  data_bitmap : List Nat
  free_inode : Int
  file_size : Nat
  blocks_needed : Nat
  data_blocks : List Nat
  root_inode : List Nat
  root_off : Nat
  root_entries : List Nat
  free_entry : Nat
  deriving DecidableEq, Repr

/-- Field `inode_count` of a superblock record. -/
def sb_inode_count (sb : List Nat) : Nat := rd sb 20 8

/-- Field `inode_bitmap_start` of a superblock record. -/
def sb_inode_bitmap_start (sb : List Nat) : Nat := rd sb 28 8

/-- Field `data_bitmap_start` of a superblock record. -/
def sb_data_bitmap_start (sb : List Nat) : Nat := rd sb 44 8

/-- Field `inode_table_start` of a superblock record. -/
def sb_inode_table_start (sb : List Nat) : Nat := rd sb 60 8

/-- Field `data_region_start` of a superblock record. -/
def sb_data_region_start (sb : List Nat) : Nat := rd sb 76 8

/-- Field `data_region_blocks` of a superblock record. -/
def sb_data_region_blocks (sb : List Nat) : Nat := rd sb 84 8

/-- The offset `superblock.data_region_start * BS + blk * BS` with `blk` a `uint32_t`: the
second product is computed in 32 bits. -/
def data_off (sb : List Nat) (blk : Nat) : Nat :=
  u64 (u64 (sb_data_region_start sb * BS) + u32 (blk * BS))

/-- The offset `superblock.inode_table_start * BS + (ino - 1) * INODE_SIZE` with `ino` an
`int`: the second product is computed in 32 bits. -/
def inode_off (sb : List Nat) (ino : Int) : Nat :=
  u64 (u64 (sb_inode_table_start sb * BS) + u32 (int_to_u32 (ino - 1) * INODE_SIZE))

/-- The buffers `main` holds after lines 182-204. -/
structure Loaded where
  superblock : List Nat
  inode_bitmap : List Nat
  data_bitmap : List Nat
  deriving DecidableEq, Repr

/-- Lines 182-204 of `main`: the superblock is read and its magic checked, then the two
bitmap blocks are read. -/
def adder_load (image : List Nat) (env : AdderEnv) : Except Outcome Loaded × FILE :=
  let fp0 : FILE := { data := image, pos := 0 }
  let superblock := fread_bytes fp0 116
  let fp1 := fread_next fp0 116
  if superblock.length ≠ 116 then (.error .io_error, fp1)
  else if rd superblock 0 4 ≠ 0x4D565346 then (.error .invalid_magic, fp1)
  else
    let fp2 := fseek fp1 (u64 (sb_inode_bitmap_start superblock * BS))
    let inode_bitmap := fread_object fp2 BS env.junk_inode_bitmap
    let fp3 := fread_next fp2 BS
    let fp4 := fseek fp3 (u64 (sb_data_bitmap_start superblock * BS))
    let data_bitmap := fread_object fp4 BS env.junk_data_bitmap
    (.ok { superblock := superblock, inode_bitmap := inode_bitmap, data_bitmap := data_bitmap },
      fread_next fp4 BS)

/-- The root directory as `main` holds it after lines 258-266. -/
structure RootDir where
  root_inode : List Nat
  root_off : Nat
  root_entries : List Nat
  deriving DecidableEq, Repr

/-- Lines 258-266 of `main`: the root inode is read from slot `ROOT_INO - 1` of the inode
table, then the block at `data_region_start * BS + root_inode.direct[0] * BS`. -/
def adder_load_root (superblock : List Nat) (env : AdderEnv) (fp : FILE) : RootDir × FILE :=
  let fp1 := fseek fp (inode_off superblock ROOT_INO)
  let root_inode := fread_object fp1 INODE_SIZE env.junk_root_inode
  let fp2 := fread_next fp1 INODE_SIZE
  let root_off := data_off superblock (rd root_inode 44 4)
  let fp3 := fseek fp2 root_off
  ({ root_inode := root_inode, root_off := root_off,
     root_entries := fread_object fp3 BS env.junk_root_entries }, fread_next fp3 BS)

/-- The number `blocks_needed` of line 232. -/
def blocks_needed (file : List Nat) : Nat := u64 (u64 file.length + BS - 1) / BS

/-- Lines 182-284 of `main`: everything up to the last check.  The stream is passed along;
no step writes to it. -/
def adder_prepare (image file : List Nat) (env : AdderEnv) : Except Outcome Plan × FILE :=
  match (adder_load image env).1 with
  | .error e => (.error e, (adder_load image env).2)
  | .ok l =>
    let fp := (adder_load image env).2
    match find_free_inode l.inode_bitmap (sb_inode_count l.superblock) with
    | none => (.error .undefined, fp)
    | some free_inode =>
      if free_inode = -1 then (.error .no_free_inodes, fp)
      else if blocks_needed file > DIRECT_MAX then (.error .file_too_large, fp)
      else
        match alloc_loop (sb_data_region_blocks l.superblock) (blocks_needed file) 0
            l.data_bitmap (List.replicate DIRECT_MAX 0) with
        | .error e => (.error e, fp)
        | .ok (data_bitmap, data_blocks) =>
          let r := (adder_load_root l.superblock env fp).1
          let fp1 := (adder_load_root l.superblock env fp).2
          match find_free_entry r.root_entries with
          | none => (.error .directory_full, fp1)
          | some free_entry =>
            (.ok { superblock := l.superblock
                   inode_bitmap := l.inode_bitmap
                   data_bitmap := data_bitmap
                   free_inode := free_inode
                   file_size := u64 file.length
                   blocks_needed := blocks_needed file
                   data_blocks := data_blocks
                   root_inode := r.root_inode
                   root_off := r.root_off
                   root_entries := r.root_entries
                   free_entry := free_entry }, fp1)

/-- The record `new_inode` (lines 287-301), finalised. -/
def new_inode_record (p : Plan) (now : Nat) : List Nat :=
  inode_crc_finalize (inode_bytes
    { mode := 0x8000
      links := 1
      uid := 0
      gid := 0
      size_bytes := p.file_size
      atime := u64 now
      mtime := u64 now
      ctime := u64 now
      direct := (List.range DIRECT_MAX).map
        (fun i => if i < p.blocks_needed then p.data_blocks.getD i 0 else 0)
      reserved_0 := 0
      reserved_1 := 0
      reserved_2 := 0
      proj_id := 1234
      uid16_gid16 := 0
      xattr_ptr := 0
      inode_crc := 0 })

/-- The characters of the C string `file_to_add`: those before the first zero byte. -/
def c_string (name : List Nat) : List Nat := name.takeWhile (fun c => c ≠ 0)

/-- The directory entry the Injector builds in place (lines 332-336), from the 64 bytes
`old` of the free slot: `inode_no`, `type`, `strncpy` of 57 characters, the terminator in
`name[57]`, then the checksum. -/
def new_dirent (old : List Nat) (free_inode : Int) (name : List Nat) : List Nat :=
  let e1 := patch old 0 (le_bytes 4 (int_to_u32 free_inode))
  let e2 := patch e1 4 [1]
  let e3 := patch e2 5 (take_pad 57 (c_string name))
  let e4 := patch e3 62 [0]
  dirent_checksum_finalize e4

/-- The array `root_entries` when it is written back (line 339). -/
def new_root_entries (p : Plan) (name : List Nat) : List Nat :=
  patch p.root_entries (64 * p.free_entry)
    (new_dirent (slice p.root_entries (64 * p.free_entry) 64) p.free_inode name)

/-- The record `root_inode` when it is written back (lines 342-344): `links++` on a
`uint16_t`, `mtime = now`, checksum. -/
def new_root_inode (root_inode : List Nat) (now : Nat) : List Nat :=
  let r1 := patch root_inode 2 (le_bytes 2 (u16 (rd root_inode 2 2 + 1)))
  let r2 := patch r1 28 (le_bytes 8 (u64 now))
  inode_crc_finalize r2

/-- The record `superblock` when it is written back (lines 349-350). -/
def new_superblock (superblock : List Nat) (env : AdderEnv) : List Nat :=
  superblock_crc_finalize (patch superblock 100 (le_bytes 8 (u64 env.now)))
    (residue env.past_superblock (BS - 116))

/-- The payload loop (lines 318-327) from iteration `i` on, with `left` iterations to go;
`rest` is what `file_fp` has not delivered yet. -/
def write_payload (sb data_blocks : List Nat) : Nat → Nat → List Nat → FILE → FILE
  | 0, _, _, fp => fp
  | left + 1, i, rest, fp =>
    let buffer := rest.take BS
    let fp1 := fseek fp (data_off sb (data_blocks.getD i 0))
    let fp2 := fwrite fp1 buffer
    let fp3 := if buffer.length < BS then fwrite fp2 (List.replicate (BS - buffer.length) 0)
               else fp2
    write_payload sb data_blocks left (i + 1) (rest.drop BS) fp3

/-- The stream after the write of the new inode record (lines 304-305). -/
def commit_inode (p : Plan) (env : AdderEnv) (fp : FILE) : FILE :=
  fwrite (fseek fp (inode_off p.superblock p.free_inode)) (new_inode_record p env.now)

/-- The stream after the writes of the two bitmaps (lines 308-314); `k` is
`free_inode - 1`. -/
def commit_bitmaps (p : Plan) (k : Nat) (fp : FILE) : FILE :=
  let fp1 := fwrite (fseek fp (u64 (sb_inode_bitmap_start p.superblock * BS)))
    (set_bit p.inode_bitmap k)
  fwrite (fseek fp1 (u64 (sb_data_bitmap_start p.superblock * BS))) p.data_bitmap

/-- The stream after the writes of the root directory block, the root inode and the
superblock (lines 338-352). -/
def commit_metadata (p : Plan) (name : List Nat) (env : AdderEnv) (fp : FILE) : FILE :=
  let fp1 := fwrite (fseek fp p.root_off) (new_root_entries p name)
  let fp2 := fwrite (fseek fp1 (inode_off p.superblock ROOT_INO))
    (new_root_inode p.root_inode env.now)
  fwrite (fseek fp2 0) (new_superblock p.superblock env)

/-- Lines 286-352 of `main`: the writes, in the order of the source.  The store into
`inode_bitmap` at index `(free_inode - 1) / 8` is defined when `free_inode >= 1` and the
index is inside the buffer. -/
def adder_commit (p : Plan) (file name : List Nat) (env : AdderEnv) (fp : FILE) :
    Outcome × FILE :=
  let fp1 := commit_inode p env fp
  if p.free_inode < 1 ∨ (p.inode_bitmap.length : Int) ≤ (p.free_inode - 1) / 8 then
    (.undefined, fp1)
  else
    let fp2 := commit_bitmaps p (p.free_inode - 1).toNat fp1
    let fp3 := write_payload p.superblock p.data_blocks p.blocks_needed 0 file fp2
    (.success p.free_inode, commit_metadata p name env fp3)

/-- The Injector's `main` after argument parsing, on the bytes of the input image, the
bytes of the file to add and its name: how the run ends, and the image file afterwards. -/
def adder_main (image file name : List Nat) (env : AdderEnv) : Outcome × List Nat :=
  match (adder_prepare image file env).1 with
  | .error e => (e, (adder_prepare image file env).2.data)
  | .ok p =>
    ((adder_commit p file name env (adder_prepare image file env).2).1,
     (adder_commit p file name env (adder_prepare image file env).2).2.data)

/-- Bit `i` of a bitmap as the allocator tests it: byte `i / 8`, mask `1 << (i % 8)`. -/
def bit_set (bitmap : List Nat) (i : Nat) : Bool :=
  bitmap.getD (i / 8) 0 &&& (1 <<< (i % 8)) != 0

/-! ## Concrete inputs -/

/-- The superblock of `sample_image`: 7 blocks, 32 inodes, the regions where the layout
calculator puts them. -/
def sample_superblock : superblock_t :=
  { magic := 0x4D565346
    version := 1
    block_size := 4096
    total_blocks := 7
    inode_count := 32
    inode_bitmap_start := 1
    inode_bitmap_blocks := 1
    data_bitmap_start := 2
    data_bitmap_blocks := 1
    inode_table_start := 3
    inode_table_blocks := 1
    data_region_start := 4
    data_region_blocks := 3
    root_inode := 1
    mtime_epoch := 0
    flags := 0
    checksum := 0 }

/-- The root inode of `sample_image`: a directory with two links whose block is data block 0
of the data region; the checksum field is left zero. -/
def sample_root_inode : inode_t :=
  { mode := 0o040000
    links := 2
    uid := 0
    gid := 0
    size_bytes := 4096
    atime := 0
    mtime := 0
    ctime := 0
    direct := [0]
    reserved_0 := 0
    reserved_1 := 0
    reserved_2 := 0
    proj_id := 6
    uid16_gid16 := 0
    xattr_ptr := 0
    inode_crc := 0 }

/-- An image of 7 blocks with every region at its block: the superblock padded to a block,
two bitmaps with bit 0 set, an inode table holding the root inode, the root directory block
with `.` and `..`, and two free data blocks. -/
def sample_image : List Nat :=
  take_pad 4096 (sb_bytes sample_superblock) ++
    ((0x01 :: List.replicate 4095 0) ++
      ((0x01 :: List.replicate 4095 0) ++
        (take_pad 4096 (inode_bytes sample_root_inode) ++
          (builder_data_block ++ List.replicate 8192 0))))

/-- The environment of the concrete runs: clock 0, zeroed memory. -/
def sample_env : AdderEnv := ⟨0, fun _ => 0, fun _ => 0, fun _ => 0, fun _ => 0, fun _ => 0⟩

/-- The image of Scenario A: the Builder run with `--size-kib 1024 --inodes 128`, clock 0,
zeroed memory. -/
def fresh_image : List Nat := (builder_main 1024 128 ⟨0, 0, 0, 0, fun _ => 0⟩).getD []

/-- The file of Scenario B: 5000 bytes. -/
def sample_file : List Nat := List.replicate 5000 0x41

/-- The image of the Builder run with `--size-kib 24 --inodes 32`, clock 0, zeroed
memory. -/
def small_image : List Nat := (builder_main 24 32 ⟨0, 0, 0, 0, fun _ => 0⟩).getD []

/-! ## Theorems -/

/-! ### The layout calculator -/

theorem ceil_div_BS (n : Nat) : ⌈(n : ℚ) / 4096⌉₊ = (n + 4095) / 4096 := by
  apply le_antisymm
  · rw [Nat.ceil_le, div_le_iff₀ (by norm_num)]
    have h : n ≤ (n + 4095) / 4096 * 4096 := by omega
    exact_mod_cast h
  · rcases Nat.eq_zero_or_pos ((n + 4095) / 4096) with h0 | hpos
    · rw [h0]; exact Nat.zero_le _
    · obtain ⟨k, hk⟩ : ∃ k, (n + 4095) / 4096 = k + 1 := ⟨_, (Nat.succ_pred_eq_of_pos hpos).symm⟩
      rw [hk, Nat.add_one_le_ceil_iff, lt_div_iff₀ (by norm_num)]
      have h : k * 4096 < n := by omega
      exact_mod_cast h

/-- Claim C1: for valid arguments (both positive, no 64-bit overflow, room for the
metadata and one data block) the Builder's superblock has `total_blocks = size_kib*1024/4096`,
the inode bitmap at block 1 (1 block), the data bitmap at block 2 (1 block), the inode table
at block 3 spanning `ceil(inode_count*128/4096)` blocks, the data region right after it
spanning the remaining blocks, and `data_region_start + data_region_blocks = total_blocks`. -/
theorem builder_layout (size_kib inode_count t : Nat) (h : ValidArgs size_kib inode_count) :
    (builder_superblock size_kib inode_count t).total_blocks = size_kib * 1024 / 4096 ∧
    (builder_superblock size_kib inode_count t).inode_bitmap_start = 1 ∧
    (builder_superblock size_kib inode_count t).inode_bitmap_blocks = 1 ∧
    (builder_superblock size_kib inode_count t).data_bitmap_start = 2 ∧
    (builder_superblock size_kib inode_count t).data_bitmap_blocks = 1 ∧
    (builder_superblock size_kib inode_count t).inode_table_start = 3 ∧
    (builder_superblock size_kib inode_count t).inode_table_blocks
      = ⌈((inode_count * 128 : Nat) : ℚ) / 4096⌉₊ ∧
    (builder_superblock size_kib inode_count t).data_region_start
      = 3 + (builder_superblock size_kib inode_count t).inode_table_blocks ∧
    (builder_superblock size_kib inode_count t).data_region_blocks
      = (builder_superblock size_kib inode_count t).total_blocks - 3
        - (builder_superblock size_kib inode_count t).inode_table_blocks ∧
    (builder_superblock size_kib inode_count t).data_region_start
      + (builder_superblock size_kib inode_count t).data_region_blocks
      = (builder_superblock size_kib inode_count t).total_blocks := by
  obtain ⟨hs, hi, h1, h2, h3⟩ := h
  simp only [INODE_SIZE, BS] at h2 h3
  have h3' : 4 + (inode_count * 128 + 4095) / 4096 ≤ size_kib * 1024 / 4096 := by omega
  have e1 : u64 (size_kib * 1024) / BS = size_kib * 1024 / 4096 := by
    unfold u64 BS; rw [Nat.mod_eq_of_lt h1]
  have e2 : u64 (inode_count * INODE_SIZE + BS - 1) / BS = (inode_count * 128 + 4095) / 4096 := by
    unfold u64 INODE_SIZE BS; rw [Nat.mod_eq_of_lt h2]; omega
  have e3 : u64 (3 + (inode_count * 128 + 4095) / 4096) = 3 + (inode_count * 128 + 4095) / 4096 := by
    unfold u64; apply Nat.mod_eq_of_lt; omega
  have e4 : sub64 (sub64 (size_kib * 1024 / 4096) 3) ((inode_count * 128 + 4095) / 4096)
      = size_kib * 1024 / 4096 - 3 - (inode_count * 128 + 4095) / 4096 := by
    unfold sub64; omega
  simp only [builder_superblock, e1, e2, e3, e4, ceil_div_BS]
  refine ⟨trivial, trivial, trivial, trivial, trivial, trivial, trivial, trivial, trivial, ?_⟩
  omega

theorem validArgs_1024_128 : ValidArgs 1024 128 := by
  unfold ValidArgs INODE_SIZE BS; norm_num

/-- Scenario A, from `builder_layout`: `size_kib = 1024`, `inode_count = 128` are valid
arguments and give `total_blocks = 256`, `inode_table_blocks = 4`, `data_region_start = 7`,
`data_region_blocks = 249`, which add up as the layout invariant says. -/
theorem builder_layout_witness :
    ValidArgs 1024 128 ∧
    (builder_superblock 1024 128 0).total_blocks = 256 ∧
    (builder_superblock 1024 128 0).inode_table_blocks = 4 ∧
    (builder_superblock 1024 128 0).data_region_start = 7 ∧
    (builder_superblock 1024 128 0).data_region_blocks = 249 ∧
    (builder_superblock 1024 128 0).data_region_start
      + (builder_superblock 1024 128 0).data_region_blocks
      = (builder_superblock 1024 128 0).total_blocks :=
  ⟨validArgs_1024_128, by decide, by decide, by decide, by decide,
    (builder_layout 1024 128 0 validArgs_1024_128).2.2.2.2.2.2.2.2.2⟩

/-! ### CRC-32 -/


theorem crc_step_eq (c : Nat) :
    crc_step c = (c / 2) ^^^ (if c % 2 = 1 then 0xEDB88320 else 0) := by
  unfold crc_step
  rw [Nat.and_one_is_mod, Nat.shiftRight_eq_div_pow]
  split <;> simp [Nat.xor_comm]

theorem xor_mod_two (a b : Nat) : (a ^^^ b) % 2 = (a % 2 + b % 2) % 2 := by
  have := Nat.xor_mod_two_eq_one (a := a) (b := b)
  rcases Nat.mod_two_eq_zero_or_one a with ha | ha <;>
  rcases Nat.mod_two_eq_zero_or_one b with hb | hb <;>
  rcases Nat.mod_two_eq_zero_or_one (a ^^^ b) with hab | hab <;> simp_all

theorem crc_step_xor (a b : Nat) : crc_step (a ^^^ b) = crc_step a ^^^ crc_step b := by
  simp only [crc_step_eq, Nat.xor_div_two, xor_mod_two]
  rcases Nat.mod_two_eq_zero_or_one a with ha | ha <;>
  rcases Nat.mod_two_eq_zero_or_one b with hb | hb <;>
  simp [ha, hb]
  · ac_rfl
  · ac_rfl
  · rw [show a / 2 ^^^ 3988292384 ^^^ (b / 2 ^^^ 3988292384)
        = 3988292384 ^^^ (3988292384 ^^^ (a / 2 ^^^ b / 2)) by ac_rfl, Nat.xor_cancel_left]

theorem crc_iter_xor (k a b : Nat) : crc_iter k (a ^^^ b) = crc_iter k a ^^^ crc_iter k b := by
  induction k generalizing a b with
  | zero => rfl
  | succ k ih => simp only [crc_iter, crc_step_xor, ih]

theorem crc_step_double (y : Nat) : crc_step (2 * y) = y := by
  rw [crc_step_eq]; simp

theorem crc_iter_shift (k y : Nat) : crc_iter k (2 ^ k * y) = y := by
  induction k generalizing y with
  | zero => simp [crc_iter]
  | succ k ih =>
    rw [crc_iter, show 2 ^ (k + 1) * y = 2 * (2 ^ k * y) by ring, crc_step_double, ih]

theorem split_low8 (x : Nat) : x = (x &&& 0xFF) ^^^ (2 ^ 8 * (x >>> 8)) := by
  apply Nat.eq_of_testBit_eq
  intro i
  have h255 : (255 : Nat) = 2 ^ 8 - 1 := by norm_num
  rw [Nat.testBit_xor, h255, Nat.and_pow_two_sub_one_eq_mod, Nat.testBit_mod_two_pow,
    Nat.testBit_mul_pow_two, Nat.testBit_shiftRight]
  by_cases h : i < 8
  · simp [h, Nat.not_le.mpr h]
  · have h' : 8 ≤ i := Nat.not_lt.mp h
    simp [h, h', Nat.add_sub_cancel' h']

theorem crc_iter_table (x : Nat) :
    crc_iter 8 x = crc_iter 8 (x &&& 0xFF) ^^^ (x >>> 8) := by
  conv_lhs => rw [split_low8 x]
  rw [crc_iter_xor, crc_iter_shift]

theorem crc32_init_getD (i : Nat) (h : i < 256) : crc32_init.getD i 0 = crc_iter 8 i := by
  unfold crc32_init
  rw [List.getD_eq_getElem _ _ (by simpa using h)]
  simp

theorem xor_shiftRight8 (c b : Nat) (hb : b < 256) : (c ^^^ b) >>> 8 = c >>> 8 := by
  apply Nat.eq_of_testBit_eq
  intro i
  rw [Nat.testBit_shiftRight, Nat.testBit_xor, Nat.testBit_shiftRight]
  have : b.testBit (8 + i) = false :=
    Nat.testBit_lt_two_pow (lt_of_lt_of_le hb (by
      calc 256 = 2 ^ 8 := by norm_num
        _ ≤ 2 ^ (8 + i) := Nat.pow_le_pow_right (by norm_num) (by omega)))
  simp [this]

theorem crc32_loop_eq_foldl (data : List Nat) (c : Nat) (h : IsBytes data) :
    crc32_loop crc32_init data c = data.foldl crc32_ref_byte c := by
  induction data generalizing c with
  | nil => rfl
  | cons b p ih =>
    have hb : b < 256 := h b (by simp)
    have hp : IsBytes p := fun x hx => h x (by simp [hx])
    rw [crc32_loop, List.foldl_cons, ih _ hp]
    congr 1
    have hidx : (c ^^^ b) &&& 0xFF < 256 :=
      lt_of_le_of_lt Nat.and_le_right (by norm_num)
    rw [crc32_init_getD _ hidx, crc32_ref_byte, crc_iter_table (c ^^^ b), xor_shiftRight8 c b hb]


/-- Claim C10: after `crc32_init`, the table-driven `crc32` equals the bit-at-a-time
reflected CRC-32 (register initialised to `0xFFFFFFFF`, each byte XORed into the low 8 bits,
8 shift steps with conditional XOR of `0xEDB88320`, result inverted) on every byte sequence;
`crc32` of the empty sequence is 0 and of the ASCII bytes `123456789` is `0xCBF43926`. -/
theorem crc32_eq_ref :
    (∀ data : List Nat, IsBytes data → crc32 data = crc32_ref data) ∧
    crc32 [] = 0 ∧
    crc32 [0x31, 0x32, 0x33, 0x34, 0x35, 0x36, 0x37, 0x38, 0x39] = 0xCBF43926 := by
  refine ⟨fun data h => ?_, by decide, by decide⟩
  unfold crc32 crc32_ref
  rw [crc32_loop_eq_foldl data _ h]

/-- The refinement of `crc32_eq_ref` at a concrete byte sequence. -/
theorem crc32_eq_ref_witness :
    IsBytes [0x61, 0x62, 0x63] ∧ crc32 [0x61, 0x62, 0x63] = crc32_ref [0x61, 0x62, 0x63] :=
  ⟨by unfold IsBytes; decide, crc32_eq_ref.1 _ (by unfold IsBytes; decide)⟩

/-! ### The bitmap allocator -/

theorem find_range_some (p : Nat → Bool) (s n j : Nat)
    (h : (List.range' s n).find? p = some j) :
    s ≤ j ∧ j < s + n ∧ p j = true ∧ ∀ k, s ≤ k → k < j → p k = false := by
  induction n generalizing s with
  | zero => simp at h
  | succ n ih =>
    rw [List.range'_succ, List.find?_cons] at h
    cases hp : p s with
    | true =>
      rw [hp] at h
      injection h with h
      subst h
      exact ⟨le_refl _, by omega, hp, fun k h1 h2 => by omega⟩
    | false =>
      rw [hp] at h
      obtain ⟨h1, h2, h3, h4⟩ := ih (s + 1) h
      refine ⟨by omega, by omega, h3, fun k hk1 hk2 => ?_⟩
      rcases Nat.eq_or_lt_of_le hk1 with e | e
      · subst e; exact hp
      · exact h4 k e hk2

theorem first_clear_bit_some (b j : Nat) (h : first_clear_bit b = some j) :
    j < 8 ∧ b &&& (1 <<< j) = 0 ∧ ∀ k, k < j → b &&& (1 <<< k) ≠ 0 := by
  unfold first_clear_bit at h
  rw [List.range_eq_range'] at h
  obtain ⟨_, h2, h3, h4⟩ := find_range_some _ 0 8 j h
  refine ⟨by omega, by simpa using h3, fun k hk => ?_⟩
  have := h4 k (Nat.zero_le _) hk
  simpa using this

set_option maxRecDepth 100000 in
theorem first_clear_bit_none_iff : ∀ b, b < 256 → (first_clear_bit b = none ↔ b = 255) := by
  decide

theorem bit_set_at (bitmap : List Nat) (a t : Nat) (ht : t < 8) :
    bit_set bitmap (a * 8 + t) = (bitmap.getD a 0 &&& (1 <<< t) != 0) := by
  unfold bit_set
  have h1 : (a * 8 + t) / 8 = a := by omega
  have h2 : (a * 8 + t) % 8 = t := by omega
  rw [h1, h2]

theorem byte_255_bits : ∀ t, t < 8 → (255 &&& (1 <<< t) != 0) = true := by decide

theorem bitmap_scan_spec (bitmap : List Nat) (hb : IsBytes bitmap) :
    ∀ left i, i + left ≤ bitmap.length →
      (bitmap_scan bitmap left i = some none ∧
        ∀ k, i ≤ k → k < i + left → bitmap.getD k 0 = 255) ∨
      (∃ a j, bitmap_scan bitmap left i = some (some (a, j)) ∧ i ≤ a ∧ a < i + left ∧ j < 8 ∧
        bit_set bitmap (a * 8 + j) = false ∧
        ∀ m, i * 8 ≤ m → m < a * 8 + j → bit_set bitmap m = true) := by
  intro left
  induction left with
  | zero =>
    intro i _
    left
    exact ⟨rfl, fun k h1 h2 => by omega⟩
  | succ left ih =>
    intro i hlen
    have hi : i < bitmap.length := by omega
    have hget : bitmap.get? i = some (bitmap.getD i 0) := by
      rw [List.getD_eq_getElem _ _ hi]; simp [hi]
    have hbyte : bitmap.getD i 0 < 256 := by
      rw [List.getD_eq_getElem _ _ hi]; exact hb _ (List.getElem_mem _)
    have hrest := ih (i + 1) (by omega)
    -- what the recursive call gives, once byte `i` is known to be saturated
    have hsat : bitmap.getD i 0 = 255 →
        (bitmap_scan bitmap left (i + 1) = some none ∧
          ∀ k, i ≤ k → k < i + (left + 1) → bitmap.getD k 0 = 255) ∨
        (∃ a j, bitmap_scan bitmap left (i + 1) = some (some (a, j)) ∧ i ≤ a ∧
          a < i + (left + 1) ∧ j < 8 ∧ bit_set bitmap (a * 8 + j) = false ∧
          ∀ m, i * 8 ≤ m → m < a * 8 + j → bit_set bitmap m = true) := by
      intro h255
      rcases hrest with ⟨h1, h2⟩ | ⟨a, j, h1, h2, h3, h4, h5, h6⟩
      · left
        refine ⟨h1, fun k hk1 hk2 => ?_⟩
        rcases Nat.eq_or_lt_of_le hk1 with e | e
        · subst e; exact h255
        · exact h2 k e (by omega)
      · right
        refine ⟨a, j, h1, by omega, by omega, h4, h5, fun m hm1 hm2 => ?_⟩
        by_cases hm : (i + 1) * 8 ≤ m
        · exact h6 m hm hm2
        · have e : m = i * 8 + (m - i * 8) := by omega
          rw [e, bit_set_at _ _ _ (by omega), h255]
          exact byte_255_bits _ (by omega)
    rw [bitmap_scan, hget]
    by_cases h255 : bitmap.getD i 0 = 255
    · simp only [h255, ne_eq, not_true_eq_false, ↓reduceIte]
      exact hsat h255
    · simp only [ne_eq, h255, not_false_eq_true, ↓reduceIte]
      cases hf : first_clear_bit (bitmap.getD i 0) with
      | none => exact absurd ((first_clear_bit_none_iff _ hbyte).mp hf) h255
      | some j =>
        obtain ⟨hj, hc, hs⟩ := first_clear_bit_some _ _ hf
        right
        refine ⟨i, j, rfl, le_refl _, by omega, hj, ?_, fun m hm1 hm2 => ?_⟩
        · rw [bit_set_at _ _ _ hj, hc]; rfl
        · have e : m = i * 8 + (m - i * 8) := by omega
          rw [e, bit_set_at _ _ _ (by omega), bne_iff_ne]
          exact hs (m - i * 8) (by omega)

theorem to_int_small (x : Nat) (h : x < 2 ^ 31) : to_int x = (x : Int) := by
  unfold to_int
  have h1 : x % 2 ^ 32 = x := Nat.mod_eq_of_lt (by omega)
  rw [h1, if_pos h]

theorem u64_small (x : Nat) (h : x < 2 ^ 64) : u64 x = x := Nat.mod_eq_of_lt h

/-- The two results of a scan; every other statement about `find_free_inode` and
`find_free_data_block` follows from this one. -/
theorem find_free_cases (bitmap : List Nat) (capacity : Nat) (hb : IsBytes bitmap)
    (hin : (capacity + 7) / 8 ≤ bitmap.length) (hcap : capacity + 7 < 2 ^ 31) :
    ((∀ k, k < (capacity + 7) / 8 → bitmap.getD k 0 = 255) ∧
      find_free_data_block bitmap capacity = some (-1) ∧
      find_free_inode bitmap capacity = some (-1)) ∨
    (∃ n, n < 8 * ((capacity + 7) / 8) ∧ bit_set bitmap n = false ∧
      (∀ m, m < n → bit_set bitmap m = true) ∧
      find_free_data_block bitmap capacity = some (n : Int) ∧
      find_free_inode bitmap capacity = some ((n : Int) + 1)) := by
  have hu : u64 (capacity + 7) = capacity + 7 := u64_small _ (by omega)
  rcases bitmap_scan_spec bitmap hb ((capacity + 7) / 8) 0 (by omega) with
    ⟨h1, h2⟩ | ⟨a, j, h1, _, h3, h4, h5, h6⟩
  · left
    refine ⟨fun k hk => h2 k (Nat.zero_le _) (by omega), ?_, ?_⟩
    · unfold find_free_data_block; rw [hu, h1]
    · unfold find_free_inode; rw [hu, h1]
  · right
    have hlt : a * 8 + j < 8 * ((capacity + 7) / 8) := by omega
    refine ⟨a * 8 + j, hlt, h5, fun m hm => h6 m (by omega) hm, ?_, ?_⟩
    · unfold find_free_data_block
      rw [hu, h1]
      simp only []
      rw [u64_small _ (by omega), to_int_small _ (by omega)]
    · unfold find_free_inode
      rw [hu, h1]
      simp only []
      rw [u64_small _ (by omega), to_int_small _ (by omega)]
      push_cast; rfl

theorem bit_set_of_byte_255 (bitmap : List Nat) (n : Nat) (h : bitmap.getD (n / 8) 0 = 255) :
    bit_set bitmap n = true := by
  unfold bit_set
  rw [h]
  exact byte_255_bits _ (Nat.mod_lt _ (by norm_num))

/-- C17: first-fit scan.  For a bitmap of bytes that holds the `⌈capacity / 8⌉` scanned
bytes (and a capacity whose indices fit `int`), `find_free_data_block` returns the smallest
bit index that is clear within those bytes (bit `i` = byte `i / 8`, mask `1 << (i % 8)`) and
`find_free_inode` returns that index plus one; each returns `-1` exactly when all the
scanned bytes equal `0xFF`. -/
theorem find_free_first_fit (bitmap : List Nat) (capacity : Nat) (hb : IsBytes bitmap)
    (hin : (capacity + 7) / 8 ≤ bitmap.length) (hcap : capacity + 7 < 2 ^ 31) :
    (∀ i, i < 8 * ((capacity + 7) / 8) → bit_set bitmap i = false →
      (∀ k, k < i → bit_set bitmap k = true) →
      find_free_data_block bitmap capacity = some (i : Int) ∧
      find_free_inode bitmap capacity = some ((i : Int) + 1)) ∧
    ((∀ k, k < (capacity + 7) / 8 → bitmap.getD k 0 = 0xFF) ↔
      find_free_data_block bitmap capacity = some (-1)) ∧
    ((∀ k, k < (capacity + 7) / 8 → bitmap.getD k 0 = 0xFF) ↔
      find_free_inode bitmap capacity = some (-1)) := by
  rcases find_free_cases bitmap capacity hb hin hcap with ⟨hall, hd, hi⟩ | ⟨n, hn, hc, hs, hd, hi⟩
  · refine ⟨fun i hi1 hi2 _ => ?_, ⟨fun _ => hd, fun _ => hall⟩, ⟨fun _ => hi, fun _ => hall⟩⟩
    have := bit_set_of_byte_255 bitmap i (hall _ (by omega))
    rw [hi2] at this
    exact absurd this (by decide)
  · refine ⟨fun i hi1 hi2 hi3 => ?_, ⟨fun hall => ?_, fun h => ?_⟩, ⟨fun hall => ?_, fun h => ?_⟩⟩
    · have e : i = n := by
        rcases Nat.lt_trichotomy i n with h | h | h
        · have := hs i h; rw [hi2] at this; exact absurd this (by decide)
        · exact h
        · have := hi3 n h; rw [hc] at this; exact absurd this (by decide)
      subst e
      exact ⟨hd, hi⟩
    · have := bit_set_of_byte_255 bitmap n (hall _ (by omega))
      rw [hc] at this
      exact absurd this (by decide)
    · rw [hd] at h
      injection h with h
      omega
    · have := bit_set_of_byte_255 bitmap n (hall _ (by omega))
      rw [hc] at this
      exact absurd this (by decide)
    · rw [hi] at h
      injection h with h
      omega

theorem find_free_first_fit_witness :
    find_free_data_block [1, 0] 16 = some 1 ∧ find_free_inode [1, 0] 16 = some (1 + 1) :=
  (find_free_first_fit [1, 0] 16 (by unfold IsBytes; decide) (by decide) (by decide)).1 1
    (by decide) (by decide) (by decide)

/-! ### Fresh bitmaps -/

theorem replicate_set_getD (n v k : Nat) :
    ((List.replicate n 0).set 0 v).getD (k + 1) 0 = 0 := by
  rw [List.getD_eq_getElem?_getD, List.getElem?_set_ne (by omega), List.getElem?_replicate]
  split <;> rfl

theorem builder_bitmap_getD (k : Nat) :
    builder_inode_bitmap.getD k 0 = if k = 0 then 0x80 else 0 := by
  unfold builder_inode_bitmap
  rcases k with _ | k
  · rfl
  · rw [replicate_set_getD, if_neg (by omega)]

theorem bitmap_scan_builder (left : Nat) :
    bitmap_scan builder_inode_bitmap (left + 1) 0 = some (some (0, 0)) := by
  have h : builder_inode_bitmap.get? 0 = some 0x80 := by
    unfold builder_inode_bitmap BS
    rfl
  rw [bitmap_scan, h]
  rfl

/-- C6 (divergence): in the bitmaps the Builder writes, the bit the allocator tests as
bit 7 is the set one and bit 0 is clear; on these bitmaps, for every capacity from 1 on,
`find_free_inode` returns inode number 1 (the root's) and `find_free_data_block` returns
index 0 (the root directory's). -/
theorem builder_bitmaps_bit7 :
    builder_data_bitmap = builder_inode_bitmap ∧
    (∀ i, bit_set builder_inode_bitmap i = decide (i = 7)) ∧
    (∀ n, 0 < n → n + 7 < 2 ^ 64 → find_free_inode builder_inode_bitmap n = some 1) ∧
    (∀ n, 0 < n → n + 7 < 2 ^ 64 → find_free_data_block builder_data_bitmap n = some 0) := by
  have hscan : ∀ n, 0 < n → n + 7 < 2 ^ 64 →
      bitmap_scan builder_inode_bitmap (u64 (n + 7) / 8) 0 = some (some (0, 0)) := by
    intro n h1 h2
    rw [u64_small _ h2]
    obtain ⟨k, hk⟩ : ∃ k, (n + 7) / 8 = k + 1 := ⟨(n + 7) / 8 - 1, by omega⟩
    rw [hk]
    exact bitmap_scan_builder k
  refine ⟨rfl, fun i => ?_, fun n h1 h2 => ?_, fun n h1 h2 => ?_⟩
  · unfold bit_set
    rw [builder_bitmap_getD]
    by_cases h : i / 8 = 0
    · rw [if_pos h]
      have hi : i < 8 := by omega
      interval_cases i <;> decide
    · rw [if_neg h]
      have : i ≠ 7 := by omega
      simp [this]
  · unfold find_free_inode
    rw [hscan n h1 h2]
    rfl
  · have e : builder_data_bitmap = builder_inode_bitmap := rfl
    unfold find_free_data_block
    rw [e, hscan n h1 h2]
    rfl

theorem builder_bitmaps_bit7_witness :
    find_free_inode builder_inode_bitmap 128 = some 1 ∧
    find_free_data_block builder_data_bitmap 249 = some 0 :=
  ⟨builder_bitmaps_bit7.2.2.1 128 (by decide) (by decide),
   builder_bitmaps_bit7.2.2.2 249 (by decide) (by decide)⟩

/-- C9 (divergence): with `inode_count = 1` and bit 0 of the bitmap set (every inode in
use), `find_free_inode` returns 2, not -1: the scan covers the whole byte.  Likewise
`find_free_data_block` with one data block returns index 1. -/
theorem find_free_beyond_count :
    (∀ i, i < 1 → bit_set (0x01 :: List.replicate 4095 0) i = true) ∧
    find_free_inode (0x01 :: List.replicate 4095 0) 1 = some 2 ∧
    find_free_data_block (0x01 :: List.replicate 4095 0) 1 = some 1 := by
  refine ⟨fun i hi => ?_, rfl, rfl⟩
  have : i = 0 := by omega
  subst this
  rfl

/-! ### Bytes and records -/

theorem length_le_bytes (n v : Nat) : (le_bytes n v).length = n := by
  induction n generalizing v with
  | zero => rfl
  | succ n ih => simp [le_bytes, ih]

theorem le_val_le_bytes (n v : Nat) : le_val (le_bytes n v) = v % 256 ^ n := by
  induction n generalizing v with
  | zero => simp [le_bytes, le_val, Nat.mod_one]
  | succ n ih =>
    simp only [le_bytes, le_val, ih]
    rw [pow_succ, Nat.mul_comm (256 ^ n) 256, Nat.mod_mul]

theorem isBytes_le_bytes (n v : Nat) : IsBytes (le_bytes n v) := by
  induction n generalizing v with
  | zero => intro b hb; simp [le_bytes] at hb
  | succ n ih =>
    intro b hb
    simp only [le_bytes, List.mem_cons] at hb
    rcases hb with h | h
    · subst h; exact Nat.mod_lt _ (by norm_num)
    · exact ih _ b h

theorem le_bytes_add (m n v : Nat) :
    le_bytes (m + n) v = le_bytes m v ++ le_bytes n (v / 256 ^ m) := by
  induction m generalizing v with
  | zero => simp [le_bytes]
  | succ m ih =>
    rw [show m + 1 + n = (m + n) + 1 by omega]
    simp only [le_bytes, ih, List.cons_append]
    rw [Nat.div_div_eq_div_mul, pow_succ, Nat.mul_comm]

theorem length_patch (buf : List Nat) (off : Nat) (bytes : List Nat)
    (h : off + bytes.length ≤ buf.length) : (patch buf off bytes).length = buf.length := by
  unfold patch
  simp only [List.length_append, List.length_take, List.length_drop]
  omega

theorem take_patch (buf : List Nat) (off k : Nat) (bytes : List Nat)
    (h : off ≤ buf.length) (hk : k ≤ off) : (patch buf off bytes).take k = buf.take k := by
  unfold patch
  rw [List.take_append_of_le_length (by rw [List.length_take]; omega), List.take_take,
    Nat.min_eq_left hk]

theorem drop_patch (buf : List Nat) (off : Nat) (bytes : List Nat) (h : off ≤ buf.length) :
    (patch buf off bytes).drop off = bytes ++ buf.drop (off + bytes.length) := by
  unfold patch
  rw [List.drop_append_of_le_length (by rw [List.length_take]; omega)]
  rw [List.drop_of_length_le (by rw [List.length_take]; omega), List.nil_append]

theorem slice_patch (buf : List Nat) (off : Nat) (bytes : List Nat) (h : off ≤ buf.length) :
    slice (patch buf off bytes) off bytes.length = bytes := by
  unfold slice
  rw [drop_patch _ _ _ h, List.take_left']
  rfl

theorem slice_patch_head (buf : List Nat) (off n : Nat) (bytes : List Nat)
    (h : off ≤ buf.length) (hn : n ≤ bytes.length) :
    slice (patch buf off bytes) off n = bytes.take n := by
  unfold slice
  rw [drop_patch _ _ _ h, List.take_append_of_le_length hn]

theorem crc_step_lt (c : Nat) (h : c < 2 ^ 32) : crc_step c < 2 ^ 32 := by
  unfold crc_step
  have h1 : c >>> 1 < 2 ^ 32 := by
    rw [Nat.shiftRight_eq_div_pow]
    exact lt_of_le_of_lt (Nat.div_le_self _ _) h
  split
  · exact Nat.xor_lt_two_pow (by norm_num) h1
  · exact h1

theorem crc_iter_lt (k c : Nat) (h : c < 2 ^ 32) : crc_iter k c < 2 ^ 32 := by
  induction k generalizing c with
  | zero => exact h
  | succ k ih => exact ih _ (crc_step_lt c h)

theorem crc32_init_lt (i : Nat) : crc32_init.getD i 0 < 2 ^ 32 := by
  by_cases h : i < 256
  · rw [crc32_init_getD i h]
    exact crc_iter_lt 8 i (by omega)
  · unfold crc32_init
    rw [List.getD_eq_getElem?_getD, List.getElem?_eq_none (by simp; omega)]
    simp

theorem crc32_loop_lt (data : List Nat) (c : Nat) (h : c < 2 ^ 32) :
    crc32_loop crc32_init data c < 2 ^ 32 := by
  induction data generalizing c with
  | nil => exact h
  | cons b p ih =>
    rw [crc32_loop]
    apply ih
    apply Nat.xor_lt_two_pow (crc32_init_lt _)
    rw [Nat.shiftRight_eq_div_pow]
    exact lt_of_le_of_lt (Nat.div_le_self _ _) h

theorem crc32_lt (data : List Nat) : crc32 data < 2 ^ 32 := by
  unfold crc32
  exact Nat.xor_lt_two_pow (crc32_loop_lt data _ (by norm_num)) (by norm_num)

/-! ### Record checksums -/

theorem inode_crc_finalize_eq (ino : List Nat) (h : ino.length = 128) :
    inode_crc_finalize ino = ino.take 120 ++ le_bytes 8 (crc32 (ino.take 120)) := by
  unfold inode_crc_finalize INODE_SIZE
  have e1 : ino.take 128 = ino := List.take_of_length_le (by omega)
  simp only []
  rw [e1, take_patch ino 120 120 _ (by omega) (le_refl _)]
  unfold patch
  rw [length_le_bytes, List.drop_of_length_le (by omega), List.append_nil]

theorem xor8_lt (p : List Nat) : xor8 p < 256 := by
  unfold xor8
  have : ∀ (l : List Nat) (x : Nat), x < 256 → l.foldl (fun x b => u8 (x ^^^ b)) x < 256 := by
    intro l
    induction l with
    | nil => intro x hx; exact hx
    | cons b l ih =>
      intro x _
      rw [List.foldl_cons]
      exact ih _ (Nat.mod_lt _ (by norm_num))
  exact this p 0 (by norm_num)

theorem xor8_eq_foldl (p : List Nat) (h : IsBytes p) :
    xor8 p = p.foldl (fun x b => x ^^^ b) 0 := by
  unfold xor8
  have : ∀ (l : List Nat) (x : Nat), IsBytes l → x < 256 →
      l.foldl (fun x b => u8 (x ^^^ b)) x = l.foldl (fun x b => x ^^^ b) x := by
    intro l
    induction l with
    | nil => intro x _ _; rfl
    | cons b l ih =>
      intro x hl hx
      rw [List.foldl_cons, List.foldl_cons]
      have hb : b < 256 := hl b (List.mem_cons_self _ _)
      have hxb : x ^^^ b < 2 ^ 8 := Nat.xor_lt_two_pow (by simpa using hx) (by simpa using hb)
      have e : u8 (x ^^^ b) = x ^^^ b := Nat.mod_eq_of_lt hxb
      rw [e]
      exact ih _ (fun c hc => hl c (List.mem_cons_of_mem _ hc)) (by simpa using hxb)
  exact this p 0 h (by norm_num)

theorem dirent_checksum_finalize_eq (de : List Nat) (h : de.length = 64) :
    dirent_checksum_finalize de = de.take 63 ++ [xor8 (de.take 63)] := by
  unfold dirent_checksum_finalize patch
  rw [List.drop_of_length_le (by simp; omega), List.append_nil]

/-- C13: record checksum round trip.  On a 128-byte inode record `inode_crc_finalize`
keeps bytes 0..119, stores `crc32` of bytes 0..119 in the low 32 bits of the checksum field
and zero in the high 32 bits, does not depend on the old bytes 120..127, and is idempotent;
on a 64-byte directory entry `dirent_checksum_finalize` keeps bytes 0..62, stores in byte
63 the XOR of bytes 0..62, and is idempotent. -/
theorem record_checksum_round_trip :
    (∀ ino : List Nat, ino.length = 128 →
      (inode_crc_finalize ino).length = 128 ∧
      (inode_crc_finalize ino).take 120 = ino.take 120 ∧
      rd (inode_crc_finalize ino) 120 4 = crc32 (ino.take 120) ∧
      rd (inode_crc_finalize ino) 124 4 = 0 ∧
      rd (inode_crc_finalize ino) 120 8 = crc32 ((inode_crc_finalize ino).take 120) ∧
      (∀ other : List Nat, other.length = 128 → other.take 120 = ino.take 120 →
        inode_crc_finalize other = inode_crc_finalize ino) ∧
      inode_crc_finalize (inode_crc_finalize ino) = inode_crc_finalize ino) ∧
    (∀ de : List Nat, de.length = 64 →
      (dirent_checksum_finalize de).length = 64 ∧
      (dirent_checksum_finalize de).take 63 = de.take 63 ∧
      (dirent_checksum_finalize de).getD 63 0 = xor8 (de.take 63) ∧
      (IsBytes de → xor8 (de.take 63) = (de.take 63).foldl (fun x b => x ^^^ b) 0) ∧
      (dirent_checksum_finalize de).getD 63 0 = xor8 ((dirent_checksum_finalize de).take 63) ∧
      dirent_checksum_finalize (dirent_checksum_finalize de) = dirent_checksum_finalize de) := by
  constructor
  · intro ino h
    have hlen : (ino.take 120).length = 120 := by rw [List.length_take]; omega
    have e := inode_crc_finalize_eq ino h
    have hl : (inode_crc_finalize ino).length = 128 := by
      rw [e, List.length_append, hlen, length_le_bytes]
    have ht : (inode_crc_finalize ino).take 120 = ino.take 120 := by
      rw [e, List.take_left' hlen]
    have hc := crc32_lt (ino.take 120)
    have hd : (inode_crc_finalize ino).drop 120 = le_bytes 8 (crc32 (ino.take 120)) := by
      rw [e, List.drop_left' hlen]
    have h8 : rd (inode_crc_finalize ino) 120 8 = crc32 (ino.take 120) := by
      unfold rd slice
      rw [hd, List.take_of_length_le (by rw [length_le_bytes]), le_val_le_bytes]
      exact Nat.mod_eq_of_lt (by omega)
    refine ⟨hl, ht, ?_, ?_, ?_, ?_, ?_⟩
    · unfold rd slice
      rw [hd, le_bytes_add 4 4, List.take_left' (length_le_bytes 4 _), le_val_le_bytes]
      exact Nat.mod_eq_of_lt hc
    · unfold rd slice
      rw [show 124 = 120 + 4 from rfl, ← List.drop_drop, hd, le_bytes_add 4 4, List.drop_left' (length_le_bytes 4 _),
        List.take_of_length_le (by rw [length_le_bytes]), le_val_le_bytes]
      have : crc32 (List.take 120 ino) / 256 ^ 4 = 0 := Nat.div_eq_of_lt hc
      rw [this]
      rfl
    · rw [h8, ht]
    · intro other ho hto
      rw [inode_crc_finalize_eq other ho, e, hto]
    · rw [inode_crc_finalize_eq _ hl, ht, ← e]
  · intro de h
    have hlen : (de.take 63).length = 63 := by rw [List.length_take]; omega
    have e := dirent_checksum_finalize_eq de h
    have hl : (dirent_checksum_finalize de).length = 64 := by
      rw [e, List.length_append, hlen]; rfl
    have ht : (dirent_checksum_finalize de).take 63 = de.take 63 := by
      rw [e, List.take_left' hlen]
    have hg : (dirent_checksum_finalize de).getD 63 0 = xor8 (de.take 63) := by
      rw [e, List.getD_eq_getElem?_getD, List.getElem?_append_right (by omega), hlen]
      rfl
    refine ⟨hl, ht, hg, fun hb => ?_, ?_, ?_⟩
    · exact xor8_eq_foldl _ (fun b hb' => hb b (List.mem_of_mem_take hb'))
    · rw [hg, ht]
    · rw [dirent_checksum_finalize_eq _ hl, ht, ← e]

theorem record_checksum_round_trip_witness :
    rd (inode_crc_finalize (List.replicate 128 0)) 124 4 = 0 ∧
    (dirent_checksum_finalize (List.replicate 64 0)).length = 64 :=
  ⟨(record_checksum_round_trip.1 (List.replicate 128 0) (by simp)).2.2.2.1,
   (record_checksum_round_trip.2 (List.replicate 64 0) (by simp)).1⟩

/-! ### The image the Builder writes -/

theorem length_take_pad (n : Nat) (l : List Nat) : (take_pad n l).length = n := by
  induction n generalizing l with
  | zero => rfl
  | succ n ih => cases l <;> simp [take_pad, ih]

theorem length_sb_bytes (sb : superblock_t) : (sb_bytes sb).length = 116 := by
  simp [sb_bytes, length_le_bytes]

theorem length_inode_bytes (ino : inode_t) : (inode_bytes ino).length = 128 := by
  simp [inode_bytes, length_le_bytes, DIRECT_MAX, List.range, List.range.loop]

theorem length_dirent_bytes (de : dirent64_t) : (dirent_bytes de).length = 64 := by
  simp [dirent_bytes, length_le_bytes, length_take_pad]

theorem length_superblock_crc_finalize (sb beyond : List Nat) (h : sb.length = 116) :
    (superblock_crc_finalize sb beyond).length = 116 := by
  unfold superblock_crc_finalize
  simp only []
  have h0 : (patch sb 112 (le_bytes 4 0)).length = 116 := by
    rw [length_patch _ _ _ (by rw [length_le_bytes]; omega), h]
  rw [length_patch _ _ _ (by rw [length_le_bytes]; omega), h0]

theorem length_inode_crc_finalize (ino : List Nat) (h : ino.length = 128) :
    (inode_crc_finalize ino).length = 128 := by
  unfold inode_crc_finalize
  simp only []
  rw [length_patch _ _ _ (by rw [length_le_bytes]; omega), h]

theorem length_builder_sb_record (size_kib inode_count : Nat) (env : BuilderEnv) :
    (builder_sb_record size_kib inode_count env).length = 116 :=
  length_superblock_crc_finalize _ _ (length_sb_bytes _)

theorem length_builder_root_record (size_kib inode_count : Nat) (env : BuilderEnv) :
    (builder_root_record size_kib inode_count env).length = 128 :=
  length_inode_crc_finalize _ (length_inode_bytes _)

theorem length_flatten_uniform (L : List (List Nat)) (m : Nat) (h : ∀ x ∈ L, x.length = m) :
    L.flatten.length = m * L.length := by
  induction L with
  | nil => rfl
  | cons a L ih =>
    rw [List.flatten_cons, List.length_append, h a (List.mem_cons_self _ _),
      ih (fun x hx => h x (List.mem_cons_of_mem _ hx)), List.length_cons]
    ring

theorem length_builder_inode_table (root : List Nat) (n : Nat) (h : root.length = 128) :
    (builder_inode_table root n).length = 128 * n := by
  unfold builder_inode_table
  rw [length_flatten_uniform _ 128, List.length_map, List.length_range]
  intro x hx
  rw [List.mem_map] at hx
  obtain ⟨i, _, rfl⟩ := hx
  split
  · exact h
  · simp [INODE_SIZE]

theorem length_builder_bitmap : builder_inode_bitmap.length = 4096 := by
  unfold builder_inode_bitmap
  rw [List.length_set, List.length_replicate]
  rfl

theorem length_builder_dot_entry : builder_dot_entry.length = 64 := by decide

theorem length_builder_dotdot_entry : builder_dotdot_entry.length = 64 := by decide

theorem length_builder_data_block : builder_data_block.length = 4096 := by
  unfold builder_data_block
  have h0 : (patch (List.replicate BS 0) 0 builder_dot_entry).length = 4096 := by
    rw [length_patch _ _ _ (by rw [length_builder_dot_entry, List.length_replicate]; decide),
      List.length_replicate]
    rfl
  rw [length_patch _ _ _ (by rw [length_builder_dotdot_entry, h0]; decide), h0]

/-- The numbers of the Builder's superblock for valid arguments, without wrapping. -/
theorem builder_sb_numbers (size_kib inode_count t : Nat) (h : ValidArgs size_kib inode_count) :
    (builder_superblock size_kib inode_count t).total_blocks = size_kib * 1024 / 4096 ∧
    (builder_superblock size_kib inode_count t).inode_table_blocks
      = (inode_count * 128 + 4095) / 4096 ∧
    (builder_superblock size_kib inode_count t).data_region_start
      = 3 + (inode_count * 128 + 4095) / 4096 ∧
    (builder_superblock size_kib inode_count t).data_region_blocks
      = size_kib * 1024 / 4096 - 3 - (inode_count * 128 + 4095) / 4096 ∧
    sub64 (builder_superblock size_kib inode_count t).data_region_blocks 1
      = size_kib * 1024 / 4096 - 4 - (inode_count * 128 + 4095) / 4096 := by
  obtain ⟨hs, hi, h1, h2, h3⟩ := h
  simp only [INODE_SIZE, BS] at h2 h3
  have h3' : 4 + (inode_count * 128 + 4095) / 4096 ≤ size_kib * 1024 / 4096 := by omega
  have e1 : u64 (size_kib * 1024) / BS = size_kib * 1024 / 4096 := by
    unfold u64 BS; rw [Nat.mod_eq_of_lt h1]
  have e2 : u64 (inode_count * INODE_SIZE + BS - 1) / BS = (inode_count * 128 + 4095) / 4096 := by
    unfold u64 INODE_SIZE BS; rw [Nat.mod_eq_of_lt h2]; omega
  have e3 : u64 (3 + (inode_count * 128 + 4095) / 4096) = 3 + (inode_count * 128 + 4095) / 4096 := by
    unfold u64; apply Nat.mod_eq_of_lt; omega
  have e4 : sub64 (sub64 (size_kib * 1024 / 4096) 3) ((inode_count * 128 + 4095) / 4096)
      = size_kib * 1024 / 4096 - 3 - (inode_count * 128 + 4095) / 4096 := by
    unfold sub64; omega
  have e5 : sub64 (size_kib * 1024 / 4096 - 3 - (inode_count * 128 + 4095) / 4096) 1
      = size_kib * 1024 / 4096 - 4 - (inode_count * 128 + 4095) / 4096 := by
    unfold sub64; omega
  simp only [builder_superblock, e1, e2, e3, e4, e5]
  exact ⟨trivial, trivial, trivial, trivial, trivial⟩

/-- The image as the concatenation of the six writes. -/
theorem builder_main_eq (size_kib inode_count : Nat) (env : BuilderEnv)
    (h : ValidArgs size_kib inode_count) :
    builder_main size_kib inode_count env = some
      (builder_sb_record size_kib inode_count env ++ (builder_inode_bitmap ++
        (builder_data_bitmap ++
          (builder_inode_table (builder_root_record size_kib inode_count env) inode_count ++
            (builder_data_block ++ List.flatten (List.replicate
              (sub64 (builder_superblock size_kib inode_count env.t_sb).data_region_blocks 1)
              (List.replicate BS 0))))))) := by
  unfold builder_main
  rw [if_neg (by obtain ⟨h1, h2, _⟩ := h; omega)]
  simp [builder_writes]

theorem slice_append_left (a b : List Nat) (n : Nat) (h : n = a.length) :
    slice (a ++ b) 0 n = a := by
  subst h
  unfold slice
  rw [List.drop_zero, List.take_left']
  rfl

theorem slice_append_right (a b : List Nat) (k off n : Nat) (h : k = a.length + off) :
    slice (a ++ b) k n = slice b off n := by
  subst h
  unfold slice
  rw [← List.drop_drop, List.drop_left' rfl]

theorem getD_append_right (a b : List Nat) (k i : Nat) (h : k = a.length + i) :
    (a ++ b).getD k 0 = b.getD i 0 := by
  subst h
  rw [List.getD_eq_getElem?_getD, List.getD_eq_getElem?_getD,
    List.getElem?_append_right (by omega)]
  congr 2
  omega

theorem getD_append_left (a b : List Nat) (k : Nat) (h : k < a.length) :
    (a ++ b).getD k 0 = a.getD k 0 := by
  rw [List.getD_eq_getElem?_getD, List.getD_eq_getElem?_getD, List.getElem?_append_left h]

/-- The image the Builder writes, region by region. -/
theorem builder_image_layout (size_kib inode_count : Nat) (env : BuilderEnv)
    (h : ValidArgs size_kib inode_count) :
    ∃ img, builder_main size_kib inode_count env = some img ∧
      img.length = 116 + 2 * 4096 + 128 * inode_count
        + 4096 * (builder_superblock size_kib inode_count env.t_sb).data_region_blocks ∧
      img.length < (builder_superblock size_kib inode_count env.t_sb).total_blocks * 4096 ∧
      slice img 0 116 = builder_sb_record size_kib inode_count env ∧
      slice img 116 4096 = builder_inode_bitmap ∧
      slice img (116 + 4096) 4096 = builder_data_bitmap ∧
      slice img (116 + 2 * 4096 + 128 * inode_count) 4096 = builder_data_block ∧
      img.getD 116 0 = 0x80 ∧ img.getD 4096 0 = 0 := by
  refine ⟨_, builder_main_eq size_kib inode_count env h, ?_⟩
  obtain ⟨n1, n2, n3, n4, n5⟩ := builder_sb_numbers size_kib inode_count env.t_sb h
  have hv := h
  obtain ⟨hs, hi, h1, h2, h3⟩ := hv
  simp only [INODE_SIZE, BS] at h2 h3
  have h3' : 4 + (inode_count * 128 + 4095) / 4096 ≤ size_kib * 1024 / 4096 := by omega
  have lrec := length_builder_sb_record size_kib inode_count env
  have lbm := length_builder_bitmap
  have ldm : builder_data_bitmap.length = 4096 := length_builder_bitmap
  have ltab := length_builder_inode_table (builder_root_record size_kib inode_count env)
    inode_count (length_builder_root_record size_kib inode_count env)
  have lblk := length_builder_data_block
  have lrest : (List.flatten (List.replicate
      (sub64 (builder_superblock size_kib inode_count env.t_sb).data_region_blocks 1)
      (List.replicate BS 0))).length
      = 4096 * (size_kib * 1024 / 4096 - 4 - (inode_count * 128 + 4095) / 4096) := by
    rw [length_flatten_uniform _ 4096, List.length_replicate, n5]
    intro x hx
    rw [List.eq_of_mem_replicate hx, List.length_replicate]
    rfl
  refine ⟨?_, ?_, ?_, ?_, ?_, ?_, ?_, ?_⟩
  · simp only [List.length_append, lrec, lbm, ldm, ltab, lblk, lrest]
    rw [n4]
    omega
  · simp only [List.length_append, lrec, lbm, ldm, ltab, lblk, lrest]
    rw [n1]
    omega
  · exact slice_append_left _ _ _ lrec.symm
  · rw [slice_append_right _ _ 116 0 4096 (by omega)]
    exact slice_append_left _ _ _ lbm.symm
  · rw [slice_append_right _ _ _ 4096 4096 (by omega),
      slice_append_right _ _ _ 0 4096 (by omega)]
    exact slice_append_left _ _ _ ldm.symm
  · rw [slice_append_right _ _ _ (2 * 4096 + 128 * inode_count) 4096 (by omega),
      slice_append_right _ _ _ (4096 + 128 * inode_count) 4096 (by omega),
      slice_append_right _ _ _ (128 * inode_count) 4096 (by omega),
      slice_append_right _ _ _ 0 4096 (by omega)]
    exact slice_append_left _ _ _ lblk.symm
  · rw [getD_append_right _ _ 116 0 (by omega), getD_append_left _ _ 0 (by omega)]
    exact builder_bitmap_getD 0
  · rw [getD_append_right _ _ 4096 3980 (by omega),
      getD_append_left _ _ 3980 (by omega)]
    exact builder_bitmap_getD 3980

/-- C5 (divergence): for valid arguments the image the Builder writes is
`116 + 2 * 4096 + 128 * inode_count + 4096 * data_region_blocks` bytes long, which is less
than `total_blocks * 4096`: the superblock takes the first 116 bytes, not a block, so the
inode bitmap starts at byte 116 (where the byte `0x80` is, while byte 4096 is 0), the data
bitmap at byte 4212 and the inode table, `128 * inode_count` bytes, at byte 8308. -/
theorem builder_image_size (size_kib inode_count : Nat) (env : BuilderEnv)
    (h : ValidArgs size_kib inode_count) :
    ∃ img, builder_main size_kib inode_count env = some img ∧
      img.length = 116 + 2 * 4096 + 128 * inode_count
        + 4096 * (builder_superblock size_kib inode_count env.t_sb).data_region_blocks ∧
      img.length < (builder_superblock size_kib inode_count env.t_sb).total_blocks * 4096 ∧
      slice img 0 116 = builder_sb_record size_kib inode_count env ∧
      slice img 116 4096 = builder_inode_bitmap ∧
      slice img (116 + 4096) 4096 = builder_data_bitmap ∧
      slice img (116 + 2 * 4096 + 128 * inode_count) 4096 = builder_data_block ∧
      img.getD 116 0 = 0x80 ∧ img.getD 4096 0 = 0 :=
  builder_image_layout size_kib inode_count env h

theorem builder_image_size_witness :
    ValidArgs 1024 128 ∧
    ∃ img, builder_main 1024 128 ⟨0, 0, 0, 0, fun _ => 0⟩ = some img ∧
      img.length = 1044596 ∧
      (builder_superblock 1024 128 0).total_blocks * 4096 = 1048576 := by
  obtain ⟨img, h1, h2, _⟩ := builder_image_size 1024 128 ⟨0, 0, 0, 0, fun _ => 0⟩
    validArgs_1024_128
  exact ⟨validArgs_1024_128, img, h1, h2, by decide⟩

/-! ### The seeded root directory -/

theorem slice_take_eq (a b : List Nat) (k off n : Nat) (h : a.take k = b.take k)
    (hk : off + n ≤ k) : slice a off n = slice b off n := by
  have key : ∀ l : List Nat, slice l off n = slice (l.take k) off n := by
    intro l
    unfold slice
    rw [List.drop_take, List.take_take, Nat.min_eq_left (by omega)]
  rw [key a, key b, h]

theorem slice_flatten_uniform (L : List (List Nat)) (m k : Nat)
    (h : ∀ x ∈ L, x.length = m) (hk : k < L.length) :
    slice L.flatten (m * k) m = L.getD k [] := by
  induction L generalizing k with
  | nil => simp at hk
  | cons a L ih =>
    have ha : a.length = m := h a (List.mem_cons_self _ _)
    rcases k with _ | k
    · rw [List.flatten_cons, Nat.mul_zero]
      exact slice_append_left _ _ _ ha.symm
    · rw [List.flatten_cons, slice_append_right a _ _ (m * k) m (by rw [ha]; ring)]
      rw [ih k (fun x hx => h x (List.mem_cons_of_mem _ hx)) (by simpa using hk)]
      rfl

theorem slice_inode_direct (ino : inode_t) (i : Nat) (h : i < 12) :
    slice (inode_bytes ino) (44 + 4 * i) 4 = le_bytes 4 (ino.direct.getD i 0) := by
  interval_cases i <;> rfl
theorem slice_inode_head (ino : inode_t) :
    slice (inode_bytes ino) 0 2 = le_bytes 2 ino.mode ∧
    slice (inode_bytes ino) 2 2 = le_bytes 2 ino.links ∧
    slice (inode_bytes ino) 4 4 = le_bytes 4 ino.uid ∧
    slice (inode_bytes ino) 8 4 = le_bytes 4 ino.gid ∧
    slice (inode_bytes ino) 12 8 = le_bytes 8 ino.size_bytes ∧
    slice (inode_bytes ino) 20 8 = le_bytes 8 ino.atime ∧
    slice (inode_bytes ino) 28 8 = le_bytes 8 ino.mtime ∧
    slice (inode_bytes ino) 36 8 = le_bytes 8 ino.ctime ∧
    slice (inode_bytes ino) 104 4 = le_bytes 4 ino.proj_id ∧
    slice (inode_bytes ino) 112 8 = le_bytes 8 ino.xattr_ptr :=
  ⟨rfl, rfl, rfl, rfl, rfl, rfl, rfl, rfl, rfl, rfl⟩

theorem take_inode_crc_finalize (ino : List Nat) (h : ino.length = 128) :
    (inode_crc_finalize ino).take 120 = ino.take 120 := by
  rw [inode_crc_finalize_eq ino h, List.take_left' (by rw [List.length_take]; omega)]

theorem rd_inode_crc_finalize (ino : List Nat) (h : ino.length = 128) :
    rd (inode_crc_finalize ino) 120 8 = crc32 ((inode_crc_finalize ino).take 120) := by
  rw [take_inode_crc_finalize ino h]
  unfold rd slice
  rw [inode_crc_finalize_eq ino h, List.drop_left' (by rw [List.length_take]; omega),
    List.take_of_length_le (by rw [length_le_bytes]), le_val_le_bytes]
  exact Nat.mod_eq_of_lt (lt_trans (crc32_lt _) (by norm_num))

theorem rd_inode_record (ino : inode_t) (off n : Nat) (bytes : List Nat) (h : off + n ≤ 120)
    (hs : slice (inode_bytes ino) off n = bytes) :
    rd (inode_crc_finalize (inode_bytes ino)) off n = le_val bytes := by
  unfold rd
  rw [slice_take_eq _ _ 120 off n (take_inode_crc_finalize _ (length_inode_bytes ino)) h, hs]

theorem builder_data_block_slot0 :
    rd builder_data_block 0 4 = 1 ∧ rd builder_data_block 4 1 = 2 ∧
      slice builder_data_block 5 58 = 0x2E :: List.replicate 57 0 ∧
      rd builder_data_block 63 1 = xor8 (slice builder_data_block 0 63) := by
  decide!
theorem builder_data_block_slot1 :
    rd builder_data_block 64 4 = 1 ∧ rd builder_data_block 68 1 = 2 ∧
      slice builder_data_block 69 58 = 0x2E :: 0x2E :: List.replicate 56 0 ∧
      rd builder_data_block 127 1 = xor8 (slice builder_data_block 64 63) := by
  decide!
theorem builder_data_block_rest :
    slice builder_data_block 128 3968 = List.replicate 3968 0 := by
  decide!

/-- C7: the seeded root directory.  For valid arguments (with `inode_count` a value `atoi`
returns, below `2 ^ 31`) record 0 of the inode table the Builder writes is a directory
inode: mode `0o040000`, links 2, size 4096, `direct[0] = data_region_start`, `direct[1..11]`
zero, checksum the CRC32 of its first 120 bytes; every other record is 128 zero bytes; the
data block written after the table holds `.` in slot 0 and `..` in slot 1, both with inode
number 1, type 2 and the XOR of bytes 0..62 in byte 63, and slots 2..63 are zero. -/
theorem builder_seeded_root (size_kib inode_count : Nat) (env : BuilderEnv)
    (h : ValidArgs size_kib inode_count) (hi : inode_count < 2 ^ 31) :
    (builder_writes size_kib inode_count env).getD 3 []
      = builder_inode_table (builder_root_record size_kib inode_count env) inode_count ∧
    (builder_writes size_kib inode_count env).getD 4 [] = builder_data_block ∧
    slice (builder_inode_table (builder_root_record size_kib inode_count env) inode_count) 0 128
      = builder_root_record size_kib inode_count env ∧
    rd (builder_root_record size_kib inode_count env) 0 2 = 0o040000 ∧
    rd (builder_root_record size_kib inode_count env) 2 2 = 2 ∧
    rd (builder_root_record size_kib inode_count env) 12 8 = 4096 ∧
    rd (builder_root_record size_kib inode_count env) 44 4
      = (builder_superblock size_kib inode_count env.t_sb).data_region_start ∧
    (∀ i, 1 ≤ i → i < 12 → rd (builder_root_record size_kib inode_count env) (44 + 4 * i) 4 = 0) ∧
    rd (builder_root_record size_kib inode_count env) 120 8
      = crc32 ((builder_root_record size_kib inode_count env).take 120) ∧
    (∀ k, 1 ≤ k → k < inode_count →
      slice (builder_inode_table (builder_root_record size_kib inode_count env) inode_count)
        (128 * k) 128 = List.replicate 128 0) ∧
    (rd builder_data_block 0 4 = 1 ∧ rd builder_data_block 4 1 = 2 ∧
      slice builder_data_block 5 58 = 0x2E :: List.replicate 57 0 ∧
      rd builder_data_block 63 1 = xor8 (slice builder_data_block 0 63)) ∧
    (rd builder_data_block 64 4 = 1 ∧ rd builder_data_block 68 1 = 2 ∧
      slice builder_data_block 69 58 = 0x2E :: 0x2E :: List.replicate 56 0 ∧
      rd builder_data_block 127 1 = xor8 (slice builder_data_block 64 63)) ∧
    slice builder_data_block 128 3968 = List.replicate 3968 0 := by
  obtain ⟨_, _, n3, _, _⟩ := builder_sb_numbers size_kib inode_count env.t_sb h
  have hlen : ∀ x ∈ (List.range inode_count).map
      (fun i => if i = 0 then builder_root_record size_kib inode_count env
        else List.replicate INODE_SIZE 0), x.length = 128 := by
    intro x hx
    rw [List.mem_map] at hx
    obtain ⟨i, _, rfl⟩ := hx
    split
    · exact length_builder_root_record _ _ _
    · simp [INODE_SIZE]
  have htab : ∀ k, k < inode_count →
      slice (builder_inode_table (builder_root_record size_kib inode_count env) inode_count)
        (128 * k) 128 = if k = 0 then builder_root_record size_kib inode_count env
          else List.replicate INODE_SIZE 0 := by
    intro k hk
    unfold builder_inode_table
    rw [slice_flatten_uniform _ 128 k hlen (by simpa using hk)]
    rw [List.getD_eq_getElem?_getD, List.getElem?_map, List.getElem?_range hk]
    rfl
  have hf := slice_inode_head (builder_root_inode
    (builder_superblock size_kib inode_count env.t_sb) env.t_atime env.t_mtime env.t_ctime)
  have hd := slice_inode_direct (builder_root_inode
    (builder_superblock size_kib inode_count env.t_sb) env.t_atime env.t_mtime env.t_ctime)
  refine ⟨rfl, rfl, ?_, ?_, ?_, ?_, ?_, ?_, ?_, ?_, ?_, ?_, ?_⟩
  · have := htab 0 h.2.1
    rw [Nat.mul_zero, if_pos rfl] at this
    exact this
  · unfold builder_root_record
    rw [rd_inode_record _ 0 2 _ (by norm_num) hf.1, le_val_le_bytes]
    show (0o040000 : Nat) % 256 ^ 2 = 0o040000
    norm_num
  · unfold builder_root_record
    rw [rd_inode_record _ 2 2 _ (by norm_num) hf.2.1, le_val_le_bytes]
    show (2 : Nat) % 256 ^ 2 = 2
    norm_num
  · unfold builder_root_record
    rw [rd_inode_record _ 12 8 _ (by norm_num) hf.2.2.2.2.1, le_val_le_bytes]
    show BS % 256 ^ 8 = 4096
    unfold BS
    norm_num
  · unfold builder_root_record
    rw [rd_inode_record _ 44 4 _ (by norm_num) (hd 0 (by norm_num)), le_val_le_bytes]
    show u32 (builder_superblock size_kib inode_count env.t_sb).data_region_start % 256 ^ 4 = _
    rw [n3]
    unfold u32
    omega
  · intro i h1 h2
    unfold builder_root_record
    rw [rd_inode_record _ (44 + 4 * i) 4 _ (by omega) (hd i h2), le_val_le_bytes]
    obtain ⟨j, rfl⟩ : ∃ j, i = j + 1 := ⟨i - 1, by omega⟩
    show ([u32 (builder_superblock size_kib inode_count env.t_sb).data_region_start].getD
      (j + 1) 0) % 256 ^ 4 = 0
    rw [List.getD_cons_succ, List.getD_nil]
    rfl
  · exact rd_inode_crc_finalize _ (length_inode_bytes _)
  · intro k h1 h2
    rw [htab k h2, if_neg (by omega)]
    rfl
  · exact builder_data_block_slot0
  · exact builder_data_block_slot1
  · exact builder_data_block_rest

theorem builder_seeded_root_witness :
    ValidArgs 1024 128 ∧
    rd (builder_root_record 1024 128 ⟨0, 0, 0, 0, fun _ => 0⟩) 44 4 = 7 ∧
    rd (builder_root_record 1024 128 ⟨0, 0, 0, 0, fun _ => 0⟩) 2 2 = 2 :=
  ⟨validArgs_1024_128,
   (builder_seeded_root 1024 128 ⟨0, 0, 0, 0, fun _ => 0⟩ validArgs_1024_128
      (by decide)).2.2.2.2.2.2.1,
   (builder_seeded_root 1024 128 ⟨0, 0, 0, 0, fun _ => 0⟩ validArgs_1024_128
      (by decide)).2.2.2.2.1⟩

/-! ### The superblock checksum -/

theorem crc_step_eq_zero (z : Nat) (hz : z < 2 ^ 32) (h : crc_step z = 0) : z = 0 := by
  unfold crc_step at h
  rw [Nat.shiftRight_eq_div_pow, Nat.and_one_is_mod] at h
  split at h
  · rw [Nat.xor_eq_zero] at h
    omega
  · omega

theorem crc_iter_eq_zero (k z : Nat) (hz : z < 2 ^ 32) (h : crc_iter k z = 0) : z = 0 := by
  induction k generalizing z with
  | zero => exact h
  | succ k ih => exact crc_step_eq_zero z hz (ih _ (crc_step_lt z hz) h)

theorem crc32_ref_byte_lt (c b : Nat) (hc : c < 2 ^ 32) (hb : b < 256) :
    crc32_ref_byte c b < 2 ^ 32 :=
  crc_iter_lt 8 _ (Nat.xor_lt_two_pow hc (lt_trans hb (by norm_num)))

theorem crc32_ref_byte_inj (c d b : Nat) (hc : c < 2 ^ 32) (hd : d < 2 ^ 32)
    (h : crc32_ref_byte c b = crc32_ref_byte d b) : c = d := by
  unfold crc32_ref_byte at h
  rw [crc_iter_xor, crc_iter_xor] at h
  have h1 : crc_iter 8 c = crc_iter 8 d := Nat.xor_left_injective h
  have h2 : crc_iter 8 (c ^^^ d) = 0 := by rw [crc_iter_xor, h1, Nat.xor_self]
  have h3 := crc_iter_eq_zero 8 _ (Nat.xor_lt_two_pow hc hd) h2
  exact Nat.xor_eq_zero.mp h3

theorem foldl_crc_lt (q : List Nat) (c : Nat) (hq : IsBytes q) (hc : c < 2 ^ 32) :
    q.foldl crc32_ref_byte c < 2 ^ 32 := by
  induction q generalizing c with
  | nil => exact hc
  | cons b q ih =>
    rw [List.foldl_cons]
    exact ih _ (fun x hx => hq x (List.mem_cons_of_mem _ hx))
      (crc32_ref_byte_lt c b hc (hq b (List.mem_cons_self _ _)))

theorem foldl_crc_inj (q : List Nat) (c d : Nat) (hq : IsBytes q) (hc : c < 2 ^ 32)
    (hd : d < 2 ^ 32) (h : q.foldl crc32_ref_byte c = q.foldl crc32_ref_byte d) : c = d := by
  induction q generalizing c d with
  | nil => exact h
  | cons b q ih =>
    rw [List.foldl_cons, List.foldl_cons] at h
    have hb := hq b (List.mem_cons_self _ _)
    exact crc32_ref_byte_inj c d b hc hd
      (ih _ _ (fun x hx => hq x (List.mem_cons_of_mem _ hx))
        (crc32_ref_byte_lt c b hc hb) (crc32_ref_byte_lt d b hd hb) h)

theorem isBytes_append (a b : List Nat) (ha : IsBytes a) (hb : IsBytes b) : IsBytes (a ++ b) := by
  intro x hx
  rcases List.mem_append.mp hx with h | h
  · exact ha x h
  · exact hb x h

/-- A single differing byte changes the CRC. -/
theorem crc32_one_byte (p q : List Nat) (x y : Nat) (hp : IsBytes p) (hq : IsBytes q)
    (hx : x < 256) (hy : y < 256) (hxy : x ≠ y) :
    crc32 (p ++ x :: q) ≠ crc32 (p ++ y :: q) := by
  intro h
  have bx : IsBytes (p ++ x :: q) := isBytes_append _ _ hp (by
    intro b hb
    rcases List.mem_cons.mp hb with e | e
    · rw [e]; exact hx
    · exact hq b e)
  have byy : IsBytes (p ++ y :: q) := isBytes_append _ _ hp (by
    intro b hb
    rcases List.mem_cons.mp hb with e | e
    · rw [e]; exact hy
    · exact hq b e)
  unfold crc32 at h
  rw [crc32_loop_eq_foldl _ _ bx, crc32_loop_eq_foldl _ _ byy] at h
  have h1 := Nat.xor_left_injective h
  rw [List.foldl_append, List.foldl_append, List.foldl_cons, List.foldl_cons] at h1
  have hc := foldl_crc_lt p 0xFFFFFFFF hp (by norm_num)
  have h2 := foldl_crc_inj q _ _ hq (crc32_ref_byte_lt _ x hc hx) (crc32_ref_byte_lt _ y hc hy) h1
  unfold crc32_ref_byte at h2
  rw [crc_iter_xor, crc_iter_xor] at h2
  have h3 : crc_iter 8 x = crc_iter 8 y := Nat.xor_right_injective h2
  have h4 : crc_iter 8 (x ^^^ y) = 0 := by rw [crc_iter_xor, h3, Nat.xor_self]
  have h5 := crc_iter_eq_zero 8 _
    (Nat.xor_lt_two_pow (lt_trans hx (by norm_num)) (lt_trans hy (by norm_num))) h4
  exact hxy (Nat.xor_eq_zero.mp h5)

theorem length_residue (f : Nat → Nat) (n : Nat) : (residue f n).length = n := by
  simp [residue]

theorem isBytes_residue (f : Nat → Nat) (n : Nat) : IsBytes (residue f n) := by
  intro b hb
  unfold residue at hb
  rw [List.mem_map] at hb
  obtain ⟨i, _, rfl⟩ := hb
  exact Nat.mod_lt _ (by norm_num)

theorem getD_residue (f : Nat → Nat) (n i : Nat) (h : i < n) :
    (residue f n).getD i 0 = f i % 256 := by
  unfold residue
  rw [List.getD_eq_getElem?_getD, List.getElem?_map, List.getElem?_range h]
  rfl

theorem getD_take (l : List Nat) (n i : Nat) (h : i < n) : (l.take n).getD i 0 = l.getD i 0 := by
  rw [List.getD_eq_getElem?_getD, List.getD_eq_getElem?_getD, List.getElem?_take_of_lt h]

theorem isBytes_take (l : List Nat) (n : Nat) (h : IsBytes l) : IsBytes (l.take n) :=
  fun b hb => h b (List.mem_of_mem_take hb)

theorem isBytes_drop (l : List Nat) (n : Nat) (h : IsBytes l) : IsBytes (l.drop n) :=
  fun b hb => h b (List.mem_of_mem_drop hb)

theorem isBytes_getD (l : List Nat) (i : Nat) (h : IsBytes l) : l.getD i 0 < 256 := by
  rw [List.getD_eq_getElem?_getD]
  by_cases hi : i < l.length
  · rw [List.getElem?_eq_getElem hi]
    exact h _ (List.getElem_mem _)
  · rw [List.getElem?_eq_none (by omega)]
    exact (by norm_num : (0 : Nat) < 256)

theorem list_ext_getD (a b : List Nat) (hl : a.length = b.length)
    (h : ∀ i, i < a.length → a.getD i 0 = b.getD i 0) : a = b := by
  apply List.ext_getElem hl
  intro i h1 h2
  have := h i h1
  rw [List.getD_eq_getElem?_getD, List.getD_eq_getElem?_getD, List.getElem?_eq_getElem h1,
    List.getElem?_eq_getElem h2] at this
  exact this

theorem split_at (l : List Nat) (k : Nat) (h : k < l.length) :
    l = l.take k ++ l.getD k 0 :: l.drop (k + 1) := by
  rw [List.getD_eq_getElem?_getD, List.getElem?_eq_getElem h]
  simp

/-- Two byte strings of equal length that differ in exactly one place have different
CRCs. -/
theorem crc32_differ_at (a b : List Nat) (k : Nat) (hl : a.length = b.length)
    (hk : k < a.length) (ha : IsBytes a) (hb : IsBytes b) (hne : a.getD k 0 ≠ b.getD k 0)
    (heq : ∀ i, i < a.length → i ≠ k → a.getD i 0 = b.getD i 0) : crc32 a ≠ crc32 b := by
  have e1 : b.take k = a.take k := by
    apply list_ext_getD
    · rw [List.length_take, List.length_take, hl]
    · intro i hi
      rw [List.length_take] at hi
      rw [getD_take _ _ _ (by omega), getD_take _ _ _ (by omega)]
      exact (heq i (by omega) (by omega)).symm
  have e2 : b.drop (k + 1) = a.drop (k + 1) := by
    apply list_ext_getD
    · rw [List.length_drop, List.length_drop, hl]
    · intro i hi
      rw [List.length_drop] at hi
      rw [List.getD_eq_getElem?_getD, List.getD_eq_getElem?_getD, List.getElem?_drop,
        List.getElem?_drop, ← List.getD_eq_getElem?_getD, ← List.getD_eq_getElem?_getD]
      exact (heq (k + 1 + i) (by omega) (by omega)).symm
  rw [split_at a k hk, split_at b k (by omega), e1, e2]
  exact crc32_one_byte _ _ _ _ (isBytes_take _ _ ha) (isBytes_drop _ _ ha)
    (isBytes_getD _ _ ha) (isBytes_getD _ _ hb) hne

theorem isBytes_sb_bytes (s : superblock_t) : IsBytes (sb_bytes s) := by
  intro b hb
  unfold sb_bytes at hb
  rw [List.mem_flatten] at hb
  obtain ⟨l, hl, hbl⟩ := hb
  simp only [List.mem_cons, List.mem_singleton, List.not_mem_nil, or_false] at hl
  rcases hl with h | h | h | h | h | h | h | h | h | h | h | h | h | h | h | h | h <;>
    (rw [h] at hbl; exact isBytes_le_bytes _ _ b hbl)

theorem isBytes_patch (buf bytes : List Nat) (off : Nat) (h1 : IsBytes buf) (h2 : IsBytes bytes) :
    IsBytes (patch buf off bytes) :=
  isBytes_append _ _ (isBytes_take _ _ h1) (isBytes_append _ _ h2 (isBytes_drop _ _ h1))

theorem slice_superblock_crc_finalize (sb beyond : List Nat) (h : sb.length = 116) :
    slice (superblock_crc_finalize sb beyond) 112 4
      = le_bytes 4 (crc32 ((patch sb 112 (le_bytes 4 0) ++ beyond).take (BS - 4))) := by
  unfold superblock_crc_finalize
  simp only []
  have h0 : (patch sb 112 (le_bytes 4 0)).length = 116 := by
    rw [length_patch _ _ _ (by rw [length_le_bytes]; omega), h]
  have := slice_patch (patch sb 112 (le_bytes 4 0)) 112
    (le_bytes 4 (crc32 ((patch sb 112 (le_bytes 4 0) ++ beyond).take (BS - 4)))) (by omega)
  rw [length_le_bytes] at this
  exact this

theorem le_bytes_inj (n a b : Nat) (ha : a < 256 ^ n) (hb : b < 256 ^ n)
    (h : le_bytes n a = le_bytes n b) : a = b := by
  have := congrArg le_val h
  rw [le_val_le_bytes, le_val_le_bytes, Nat.mod_eq_of_lt ha, Nat.mod_eq_of_lt hb] at this
  exact this

/-- The checksum `superblock_crc_finalize` stores changes with any single byte of the
3976 bytes that follow the struct in memory. -/
theorem superblock_crc_reads_beyond (sb : List Nat) (f g : Nat → Nat) (k : Nat)
    (hsb : sb.length = 116) (hbytes : IsBytes sb) (hk : k < 3976)
    (hne : f k % 256 ≠ g k % 256) (heq : ∀ i, i < 3976 → i ≠ k → f i % 256 = g i % 256) :
    superblock_crc_finalize sb (residue f (BS - 116))
      ≠ superblock_crc_finalize sb (residue g (BS - 116)) := by
  intro h
  have h1 := congrArg (fun l => slice l 112 4) h
  simp only [] at h1
  rw [slice_superblock_crc_finalize _ _ hsb, slice_superblock_crc_finalize _ _ hsb] at h1
  have h2 := le_bytes_inj 4 _ _ (crc32_lt _) (crc32_lt _) h1
  have h0 : (patch sb 112 (le_bytes 4 0)).length = 116 := by
    rw [length_patch _ _ _ (by rw [length_le_bytes]; omega), hsb]
  have hb0 : IsBytes (patch sb 112 (le_bytes 4 0)) :=
    isBytes_patch _ _ _ hbytes (isBytes_le_bytes _ _)
  have hget : ∀ (u : Nat → Nat) (i : Nat), i < 4092 →
      ((patch sb 112 (le_bytes 4 0) ++ residue u (BS - 116)).take (BS - 4)).getD i 0
        = if i < 116 then (patch sb 112 (le_bytes 4 0)).getD i 0 else u (i - 116) % 256 := by
    intro u i hi
    rw [getD_take _ _ _ (by unfold BS; omega)]
    split
    · rw [getD_append_left _ _ _ (by omega)]
    · rw [getD_append_right _ _ i (i - 116) (by omega), getD_residue _ _ _ (by unfold BS; omega)]
  have hlen : ∀ u : Nat → Nat,
      ((patch sb 112 (le_bytes 4 0) ++ residue u (BS - 116)).take (BS - 4)).length = 4092 := by
    intro u
    rw [List.length_take, List.length_append, h0, length_residue]
    rfl
  refine crc32_differ_at _ _ (116 + k) ?_ ?_ ?_ ?_ ?_ ?_ h2
  · rw [hlen, hlen]
  · rw [hlen]; omega
  · exact isBytes_take _ _ (isBytes_append _ _ hb0 (isBytes_residue _ _))
  · exact isBytes_take _ _ (isBytes_append _ _ hb0 (isBytes_residue _ _))
  · rw [hget f _ (by omega), hget g _ (by omega), if_neg (by omega), if_neg (by omega)]
    rw [show 116 + k - 116 = k by omega]
    exact hne
  · intro i hi hik
    rw [hlen] at hi
    rw [hget f _ hi, hget g _ hi]
    split
    · rfl
    · exact heq _ (by omega) (by omega)

theorem slice_append_of_le (a b : List Nat) (off n : Nat) (h : off + n ≤ a.length) :
    slice (a ++ b) off n = slice a off n := by
  unfold slice
  rw [List.drop_append_of_le_length (by omega),
    List.take_append_of_le_length (by rw [List.length_drop]; omega)]

theorem builder_bitmap_tail : slice builder_inode_bitmap 3976 4 = [0, 0, 0, 0] := by
  decide!

/-- C11 (divergence): the Builder's image holds the checksum in bytes 112..115, the last
field of the 116-byte record, and bytes 4092..4095 of the image are zero bytes of the inode
bitmap; the stored value is the CRC32 of 4092 bytes of memory starting at the struct, that
is the struct with a zero checksum field followed by 3976 bytes the program never set, and
it changes with every single one of those bytes.  The record the Injector writes back is
116 bytes with the checksum at the same place, computed the same way. -/
theorem superblock_checksum_placement :
    (∀ (size_kib inode_count : Nat) (env : BuilderEnv), ValidArgs size_kib inode_count →
      ∃ img, builder_main size_kib inode_count env = some img ∧
        slice img 112 4 = le_bytes 4 (crc32
          ((patch (sb_bytes (builder_superblock size_kib inode_count env.t_sb)) 112 (le_bytes 4 0)
            ++ residue env.past_sb (BS - 116)).take (BS - 4))) ∧
        slice img 4092 4 = [0, 0, 0, 0]) ∧
    (∀ (s : superblock_t) (f g : Nat → Nat) (k : Nat), k < 3976 → f k % 256 ≠ g k % 256 →
      (∀ i, i < 3976 → i ≠ k → f i % 256 = g i % 256) →
      superblock_crc_finalize (sb_bytes s) (residue f (BS - 116))
        ≠ superblock_crc_finalize (sb_bytes s) (residue g (BS - 116))) ∧
    (∀ (superblock : List Nat) (env : AdderEnv), superblock.length = 116 →
      (new_superblock superblock env).length = 116 ∧
      slice (new_superblock superblock env) 112 4 = le_bytes 4 (crc32
        ((patch (patch superblock 100 (le_bytes 8 (u64 env.now))) 112 (le_bytes 4 0)
          ++ residue env.past_superblock (BS - 116)).take (BS - 4)))) := by
  refine ⟨fun size_kib inode_count env h => ?_, fun s f g k hk hne heq => ?_,
    fun superblock env h => ?_⟩
  · refine ⟨_, builder_main_eq size_kib inode_count env h, ?_, ?_⟩
    · rw [slice_append_of_le _ _ _ _ (by rw [length_builder_sb_record])]
      exact slice_superblock_crc_finalize _ _ (length_sb_bytes _)
    · rw [slice_append_right _ _ 4092 3976 4 (by rw [length_builder_sb_record]),
        slice_append_of_le _ _ _ _ (by rw [length_builder_bitmap]; norm_num)]
      exact builder_bitmap_tail
  · exact superblock_crc_reads_beyond _ f g k (length_sb_bytes s) (isBytes_sb_bytes s) hk hne heq
  · have h1 : (patch superblock 100 (le_bytes 8 (u64 env.now))).length = 116 := by
      rw [length_patch _ _ _ (by rw [length_le_bytes]; omega), h]
    exact ⟨length_superblock_crc_finalize _ _ h1, slice_superblock_crc_finalize _ _ h1⟩

theorem superblock_checksum_placement_witness :
    ValidArgs 1024 128 ∧
    ∃ img, builder_main 1024 128 ⟨0, 0, 0, 0, fun _ => 0⟩ = some img ∧
      slice img 4092 4 = [0, 0, 0, 0] := by
  obtain ⟨img, h1, _, h3⟩ := superblock_checksum_placement.1 1024 128 ⟨0, 0, 0, 0, fun _ => 0⟩
    validArgs_1024_128
  exact ⟨validArgs_1024_128, img, h1, h3⟩

/-! ### The checks of the Injector -/

theorem fseek_data (fp : FILE) (off : Nat) : (fseek fp off).data = fp.data := by
  unfold fseek
  split <;> rfl

theorem fread_next_data (fp : FILE) (n : Nat) : (fread_next fp n).data = fp.data := rfl

theorem adder_load_data (image : List Nat) (env : AdderEnv) :
    (adder_load image env).2.data = image := by
  unfold adder_load
  lift_lets
  intro fp0 superblock fp1 fp2 inode_bitmap fp3 fp4 data_bitmap
  split
  · rfl
  · split
    · rfl
    · show (fread_next (fseek (fread_next (fseek (fread_next _ _) _) _) _) _).data = image
      rw [fread_next_data, fseek_data, fread_next_data, fseek_data, fread_next_data]

theorem adder_load_root_data (sb : List Nat) (env : AdderEnv) (fp : FILE) :
    (adder_load_root sb env fp).2.data = fp.data := by
  show (fread_next (fseek (fread_next (fseek fp _) _) _) _).data = fp.data
  rw [fread_next_data, fseek_data, fread_next_data, fseek_data]

theorem adder_prepare_data (image file : List Nat) (env : AdderEnv) :
    (adder_prepare image file env).2.data = image := by
  unfold adder_prepare
  split
  · exact adder_load_data image env
  · split
    · exact adder_load_data image env
    · split
      · exact adder_load_data image env
      · split
        · exact adder_load_data image env
        · split
          · exact adder_load_data image env
          · dsimp only
            split
            · exact (adder_load_root_data _ env _).trans (adder_load_data image env)
            · exact (adder_load_root_data _ env _).trans (adder_load_data image env)

theorem adder_commit_outcome (p : Plan) (file name : List Nat) (env : AdderEnv) (fp : FILE) :
    (adder_commit p file name env fp).1 = .success p.free_inode ∨
    (adder_commit p file name env fp).1 = .undefined := by
  unfold adder_commit
  simp only []
  split
  · right; rfl
  · left; rfl

/-- C2: rejection is atomic.  When the Injector ends at one of its checks (short
superblock, bad magic, no free inode, file too large, no free data blocks, root directory
full) the image file holds the bytes it held before the call. -/
theorem rejection_is_atomic (image file name : List Nat) (env : AdderEnv)
    (h : (adder_main image file name env).1 = .io_error ∨
      (adder_main image file name env).1 = .invalid_magic ∨
      (adder_main image file name env).1 = .no_free_inodes ∨
      (adder_main image file name env).1 = .file_too_large ∨
      (adder_main image file name env).1 = .no_free_data_blocks ∨
      (adder_main image file name env).1 = .directory_full) :
    (adder_main image file name env).2 = image := by
  unfold adder_main at h ⊢
  split at h
  · rename_i e he
    exact adder_prepare_data image file env
  · rename_i p hp
    exfalso
    simp only [] at h
    rcases adder_commit_outcome p file name env (adder_prepare image file env).2 with e | e <;>
      rw [e] at h <;> simp at h

theorem rejection_is_atomic_witness :
    (adder_main (List.replicate 116 0) [1] [97]
      ⟨0, fun _ => 0, fun _ => 0, fun _ => 0, fun _ => 0, fun _ => 0⟩).1 = .invalid_magic ∧
    (adder_main (List.replicate 116 0) [1] [97]
      ⟨0, fun _ => 0, fun _ => 0, fun _ => 0, fun _ => 0, fun _ => 0⟩).2 = List.replicate 116 0 :=
  ⟨by decide, rejection_is_atomic _ _ _ _ (Or.inr (Or.inl (by decide)))⟩

/-! ### The steps of `adder_prepare` -/

theorem prepare_load_error (image file : List Nat) (env : AdderEnv) (e : Outcome)
    (h1 : (adder_load image env).1 = .error e) :
    (adder_prepare image file env).1 = .error e := by
  unfold adder_prepare
  rw [h1]

theorem prepare_scan_undefined (image file : List Nat) (env : AdderEnv) (l : Loaded)
    (h1 : (adder_load image env).1 = .ok l)
    (h2 : find_free_inode l.inode_bitmap (sb_inode_count l.superblock) = none) :
    (adder_prepare image file env).1 = .error .undefined := by
  unfold adder_prepare
  rw [h1]
  dsimp only
  rw [h2]

theorem prepare_no_free_inodes (image file : List Nat) (env : AdderEnv) (l : Loaded)
    (h1 : (adder_load image env).1 = .ok l)
    (h2 : find_free_inode l.inode_bitmap (sb_inode_count l.superblock) = some (-1)) :
    (adder_prepare image file env).1 = .error .no_free_inodes := by
  unfold adder_prepare
  rw [h1]
  dsimp only
  rw [h2]
  dsimp only
  rw [if_pos rfl]

theorem prepare_file_too_large (image file : List Nat) (env : AdderEnv) (l : Loaded) (n : Int)
    (h1 : (adder_load image env).1 = .ok l)
    (h2 : find_free_inode l.inode_bitmap (sb_inode_count l.superblock) = some n)
    (h3 : n ≠ -1) (h4 : blocks_needed file > DIRECT_MAX) :
    (adder_prepare image file env).1 = .error .file_too_large := by
  unfold adder_prepare
  rw [h1]
  dsimp only
  rw [h2]
  dsimp only
  rw [if_neg h3, if_pos h4]

theorem prepare_alloc_error (image file : List Nat) (env : AdderEnv) (l : Loaded) (n : Int)
    (e : Outcome)
    (h1 : (adder_load image env).1 = .ok l)
    (h2 : find_free_inode l.inode_bitmap (sb_inode_count l.superblock) = some n)
    (h3 : n ≠ -1) (h4 : ¬ blocks_needed file > DIRECT_MAX)
    (h5 : alloc_loop (sb_data_region_blocks l.superblock) (blocks_needed file) 0
      l.data_bitmap (List.replicate DIRECT_MAX 0) = .error e) :
    (adder_prepare image file env).1 = .error e := by
  unfold adder_prepare
  rw [h1]
  dsimp only
  rw [h2]
  dsimp only
  rw [if_neg h3, if_neg h4, h5]

theorem prepare_directory_full (image file : List Nat) (env : AdderEnv) (l : Loaded) (n : Int)
    (db blks : List Nat)
    (h1 : (adder_load image env).1 = .ok l)
    (h2 : find_free_inode l.inode_bitmap (sb_inode_count l.superblock) = some n)
    (h3 : n ≠ -1) (h4 : ¬ blocks_needed file > DIRECT_MAX)
    (h5 : alloc_loop (sb_data_region_blocks l.superblock) (blocks_needed file) 0
      l.data_bitmap (List.replicate DIRECT_MAX 0) = .ok (db, blks))
    (h6 : find_free_entry
      (adder_load_root l.superblock env (adder_load image env).2).1.root_entries = none) :
    (adder_prepare image file env).1 = .error .directory_full := by
  unfold adder_prepare
  rw [h1]
  dsimp only
  rw [h2]
  dsimp only
  rw [if_neg h3, if_neg h4, h5]
  dsimp only
  rw [h6]

theorem prepare_ok (image file : List Nat) (env : AdderEnv) (l : Loaded) (n : Int)
    (db blks : List Nat) (k : Nat)
    (h1 : (adder_load image env).1 = .ok l)
    (h2 : find_free_inode l.inode_bitmap (sb_inode_count l.superblock) = some n)
    (h3 : n ≠ -1) (h4 : ¬ blocks_needed file > DIRECT_MAX)
    (h5 : alloc_loop (sb_data_region_blocks l.superblock) (blocks_needed file) 0
      l.data_bitmap (List.replicate DIRECT_MAX 0) = .ok (db, blks))
    (h6 : find_free_entry
      (adder_load_root l.superblock env (adder_load image env).2).1.root_entries = some k) :
    (adder_prepare image file env).1 = .ok
      { superblock := l.superblock
        inode_bitmap := l.inode_bitmap
        data_bitmap := db
        free_inode := n
        file_size := u64 file.length
        blocks_needed := blocks_needed file
        data_blocks := blks
        root_inode := (adder_load_root l.superblock env (adder_load image env).2).1.root_inode
        root_off := (adder_load_root l.superblock env (adder_load image env).2).1.root_off
        root_entries := (adder_load_root l.superblock env (adder_load image env).2).1.root_entries
        free_entry := k } := by
  unfold adder_prepare
  rw [h1]
  dsimp only
  rw [h2]
  dsimp only
  rw [if_neg h3, if_neg h4, h5]
  dsimp only
  rw [h6]

theorem prepare_ok_inv (image file : List Nat) (env : AdderEnv) (p : Plan)
    (h : (adder_prepare image file env).1 = .ok p) :
    ∃ l n db blks k,
      (adder_load image env).1 = .ok l ∧
      find_free_inode l.inode_bitmap (sb_inode_count l.superblock) = some n ∧
      n ≠ -1 ∧ ¬ blocks_needed file > DIRECT_MAX ∧
      alloc_loop (sb_data_region_blocks l.superblock) (blocks_needed file) 0
        l.data_bitmap (List.replicate DIRECT_MAX 0) = .ok (db, blks) ∧
      find_free_entry
        (adder_load_root l.superblock env (adder_load image env).2).1.root_entries = some k ∧
      p = { superblock := l.superblock
            inode_bitmap := l.inode_bitmap
            data_bitmap := db
            free_inode := n
            file_size := u64 file.length
            blocks_needed := blocks_needed file
            data_blocks := blks
            root_inode := (adder_load_root l.superblock env (adder_load image env).2).1.root_inode
            root_off := (adder_load_root l.superblock env (adder_load image env).2).1.root_off
            root_entries :=
              (adder_load_root l.superblock env (adder_load image env).2).1.root_entries
            free_entry := k } := by
  cases h1 : (adder_load image env).1 with
  | error e =>
    rw [prepare_load_error image file env e h1] at h
    cases h
  | ok l =>
    cases h2 : find_free_inode l.inode_bitmap (sb_inode_count l.superblock) with
    | none =>
      rw [prepare_scan_undefined image file env l h1 h2] at h
      cases h
    | some n =>
      by_cases h3 : n = -1
      · rw [h3] at h2
        rw [prepare_no_free_inodes image file env l h1 h2] at h
        cases h
      · by_cases h4 : blocks_needed file > DIRECT_MAX
        · rw [prepare_file_too_large image file env l n h1 h2 h3 h4] at h
          cases h
        · cases h5 : alloc_loop (sb_data_region_blocks l.superblock) (blocks_needed file) 0
              l.data_bitmap (List.replicate DIRECT_MAX 0) with
          | error e =>
            rw [prepare_alloc_error image file env l n e h1 h2 h3 h4 h5] at h
            cases h
          | ok r =>
            obtain ⟨db, blks⟩ := r
            cases h6 : find_free_entry
                (adder_load_root l.superblock env (adder_load image env).2).1.root_entries with
            | none =>
              rw [prepare_directory_full image file env l n db blks h1 h2 h3 h4 h5 h6] at h
              cases h
            | some k =>
              rw [prepare_ok image file env l n db blks k h1 h2 h3 h4 h5 h6] at h
              injection h with h
              exact ⟨l, n, db, blks, k, rfl, h2, h3, h4, h5, h6, h.symm⟩

theorem alloc_loop_error (drb left i : Nat) (bm blks : List Nat) (e : Outcome)
    (h : alloc_loop drb left i bm blks = .error e) :
    e = .no_free_data_blocks ∨ e = .undefined := by
  induction left generalizing i bm blks with
  | zero => simp [alloc_loop] at h
  | succ left ih =>
    unfold alloc_loop at h
    split at h
    · injection h with h; right; exact h.symm
    · split at h
      · injection h with h; left; exact h.symm
      · split at h
        · injection h with h; right; exact h.symm
        · exact ih _ _ _ h

theorem adder_main_error (image file name : List Nat) (env : AdderEnv) (e : Outcome)
    (h : (adder_prepare image file env).1 = .error e) :
    adder_main image file name env = (e, image) := by
  unfold adder_main
  rw [h]
  dsimp only
  rw [adder_prepare_data]

theorem adder_main_ok (image file name : List Nat) (env : AdderEnv) (p : Plan)
    (h : (adder_prepare image file env).1 = .ok p) :
    adder_main image file name env =
      ((adder_commit p file name env (adder_prepare image file env).2).1,
       (adder_commit p file name env (adder_prepare image file env).2).2.data) := by
  unfold adder_main
  rw [h]

/-! ### Writes to the image file -/

theorem getD_take_pad (n : Nat) (l : List Nat) (i : Nat) :
    (take_pad n l).getD i 0 = if i < n then l.getD i 0 else 0 := by
  induction n generalizing l i with
  | zero => simp [take_pad]
  | succ n ih =>
    cases l with
    | nil =>
      cases i with
      | zero => simp [take_pad]
      | succ i =>
        rw [take_pad, List.getD_cons_succ, ih]
        simp
    | cons b bs =>
      cases i with
      | zero => simp [take_pad]
      | succ i =>
        rw [take_pad, List.getD_cons_succ, List.getD_cons_succ, ih]
        simp

theorem getD_drop (l : List Nat) (k i : Nat) : (l.drop k).getD i 0 = l.getD (k + i) 0 := by
  rw [List.getD_eq_getElem?_getD, List.getD_eq_getElem?_getD, List.getElem?_drop]

theorem getD_of_length_le (l : List Nat) (i : Nat) (h : l.length ≤ i) : l.getD i 0 = 0 := by
  rw [List.getD_eq_getElem?_getD, List.getElem?_eq_none h]
  rfl

theorem length_pwrite (d : List Nat) (pos : Nat) (bs : List Nat) :
    (pwrite d pos bs).length = max d.length (pos + bs.length) := by
  unfold pwrite
  rw [List.length_append, List.length_append, length_take_pad, List.length_drop]
  omega

theorem getD_pwrite (d : List Nat) (pos : Nat) (bs : List Nat) (i : Nat) :
    (pwrite d pos bs).getD i 0 =
      if pos ≤ i ∧ i < pos + bs.length then bs.getD (i - pos) 0 else d.getD i 0 := by
  unfold pwrite
  by_cases h1 : i < pos
  · rw [getD_append_left _ _ _ (by rw [length_take_pad]; exact h1), getD_take_pad, if_pos h1,
      if_neg (by omega)]
  · rw [getD_append_right _ _ i (i - pos) (by rw [length_take_pad]; omega)]
    by_cases h2 : i < pos + bs.length
    · rw [getD_append_left _ _ _ (by omega), if_pos ⟨by omega, h2⟩]
    · rw [getD_append_right _ _ (i - pos) (i - pos - bs.length) (by omega), getD_drop,
        if_neg (by omega)]
      congr 1
      omega

theorem fseek_eq (fp : FILE) (off : Nat) (h : off < 2 ^ 63) :
    fseek fp off = { data := fp.data, pos := off } := by
  unfold fseek
  rw [if_pos h]

/-- The effect of `fseek` to `off` followed by `fwrite` of `bs` on the bytes of the file. -/
theorem getD_fwrite_fseek (fp : FILE) (off : Nat) (bs : List Nat) (i : Nat) (h : off < 2 ^ 63) :
    (fwrite (fseek fp off) bs).data.getD i 0 =
      if off ≤ i ∧ i < off + bs.length then bs.getD (i - off) 0 else fp.data.getD i 0 := by
  rw [fseek_eq fp off h]
  unfold fwrite
  split
  · rename_i h0
    rw [if_neg (by omega)]
  · exact getD_pwrite _ _ _ _

theorem length_fwrite_fseek (fp : FILE) (off : Nat) (bs : List Nat) (h : off < 2 ^ 63)
    (hb : bs.length ≠ 0) :
    (fwrite (fseek fp off) bs).data.length = max fp.data.length (off + bs.length) := by
  rw [fseek_eq fp off h]
  unfold fwrite
  rw [if_neg hb]
  exact length_pwrite _ _ _

theorem length_fwrite_le (fp : FILE) (bs : List Nat) :
    fp.data.length ≤ (fwrite fp bs).data.length := by
  unfold fwrite
  split
  · exact le_refl _
  · show fp.data.length ≤ (pwrite fp.data fp.pos bs).length
    rw [length_pwrite]
    exact le_max_left _ _

/-- A slice is determined by the bytes at its indices. -/
theorem slice_eq_of_getD (a b : List Nat) (off offb n : Nat) (ha : off + n ≤ a.length)
    (hb : offb + n ≤ b.length) (h : ∀ i, i < n → a.getD (off + i) 0 = b.getD (offb + i) 0) :
    slice a off n = slice b offb n := by
  apply list_ext_getD
  · unfold slice
    rw [List.length_take, List.length_take, List.length_drop, List.length_drop]
    omega
  · intro i hi
    unfold slice at hi ⊢
    rw [List.length_take, List.length_drop] at hi
    rw [getD_take _ _ _ (by omega), getD_take _ _ _ (by omega), getD_drop, getD_drop]
    exact h i (by omega)

theorem slice_full (a : List Nat) (n : Nat) (h : a.length = n) : slice a 0 n = a := by
  unfold slice
  rw [List.drop_zero, List.take_of_length_le (by omega)]

theorem length_slice (a : List Nat) (off n : Nat) (h : off + n ≤ a.length) :
    (slice a off n).length = n := by
  unfold slice
  rw [List.length_take, List.length_drop]
  omega

theorem getD_slice (a : List Nat) (off n i : Nat) (h : i < n) :
    (slice a off n).getD i 0 = a.getD (off + i) 0 := by
  unfold slice
  rw [getD_take _ _ _ h, getD_drop]

theorem getD_replicate_zero (n i : Nat) : (List.replicate n 0).getD i 0 = 0 := by
  rw [List.getD_eq_getElem?_getD, List.getElem?_replicate]
  split <;> rfl

theorem fwrite_fseek_pos (fp : FILE) (off : Nat) (bs : List Nat) (h : off < 2 ^ 63) :
    (fwrite (fseek fp off) bs).pos = off + bs.length := by
  rw [fseek_eq fp off h]
  unfold fwrite
  split
  · rename_i h0
    show off = off + bs.length
    omega
  · rfl

/-- One iteration of the payload loop writes the block `buffer` padded with zeros. -/
theorem getD_block_write (fp : FILE) (off : Nat) (buffer : List Nat) (j : Nat)
    (h : off < 2 ^ 63) (hl : buffer.length ≤ BS) :
    (if buffer.length < BS
      then fwrite (fwrite (fseek fp off) buffer) (List.replicate (BS - buffer.length) 0)
      else fwrite (fseek fp off) buffer).data.getD j 0 =
      if off ≤ j ∧ j < off + BS then buffer.getD (j - off) 0 else fp.data.getD j 0 := by
  have h2 := getD_fwrite_fseek fp off buffer
  have hp := fwrite_fseek_pos fp off buffer h
  split
  · rename_i hlt
    have hne : (List.replicate (BS - buffer.length) 0).length ≠ 0 := by
      rw [List.length_replicate]; omega
    unfold fwrite at hp ⊢
    rw [if_neg hne]
    show (pwrite _ _ _).getD j 0 = _
    rw [getD_pwrite, List.length_replicate]
    unfold fwrite at h2
    rw [hp]
    by_cases c1 : off + buffer.length ≤ j ∧ j < off + buffer.length + (BS - buffer.length)
    · rw [if_pos c1, if_pos ⟨by omega, by omega⟩, getD_replicate_zero,
        getD_of_length_le _ _ (by omega)]
    · rw [if_neg c1, h2 j h]
      by_cases c2 : off ≤ j ∧ j < off + buffer.length
      · rw [if_pos c2, if_pos ⟨by omega, by omega⟩]
      · rw [if_neg c2, if_neg (by omega)]
  · rename_i hge
    have : buffer.length = BS := by omega
    rw [h2 j h, this]

theorem length_block_write_le (fp : FILE) (off : Nat) (buffer : List Nat) :
    fp.data.length ≤ (if buffer.length < BS
      then fwrite (fwrite (fseek fp off) buffer) (List.replicate (BS - buffer.length) 0)
      else fwrite (fseek fp off) buffer).data.length := by
  have h1 : fp.data.length ≤ (fwrite (fseek fp off) buffer).data.length := by
    have := length_fwrite_le (fseek fp off) buffer
    rw [fseek_data] at this
    exact this
  split
  · exact le_trans h1 (length_fwrite_le _ _)
  · exact h1

theorem write_payload_succ (sb blks : List Nat) (left i : Nat) (rest : List Nat) (fp : FILE) :
    write_payload sb blks (left + 1) i rest fp =
      write_payload sb blks left (i + 1) (rest.drop BS)
        (if (rest.take BS).length < BS
          then fwrite (fwrite (fseek fp (data_off sb (blks.getD i 0))) (rest.take BS))
            (List.replicate (BS - (rest.take BS).length) 0)
          else fwrite (fseek fp (data_off sb (blks.getD i 0))) (rest.take BS)) := rfl

theorem length_write_payload_le (sb blks : List Nat) (left i : Nat) (rest : List Nat)
    (fp : FILE) : fp.data.length ≤ (write_payload sb blks left i rest fp).data.length := by
  induction left generalizing i rest fp with
  | zero => exact le_refl _
  | succ left ih =>
    rw [write_payload_succ]
    exact le_trans (length_block_write_le fp _ _) (ih _ _ _)

/-- The payload loop leaves every byte outside the blocks it is given. -/
theorem getD_write_payload_frame (sb blks : List Nat) (left i : Nat) (rest : List Nat)
    (fp : FILE) (j : Nat)
    (hoff : ∀ t, i ≤ t → t < i + left → data_off sb (blks.getD t 0) < 2 ^ 63)
    (hout : ∀ t, i ≤ t → t < i + left →
      ¬ (data_off sb (blks.getD t 0) ≤ j ∧ j < data_off sb (blks.getD t 0) + BS)) :
    (write_payload sb blks left i rest fp).data.getD j 0 = fp.data.getD j 0 := by
  induction left generalizing i rest fp with
  | zero => rfl
  | succ left ih =>
    rw [write_payload_succ, ih (i + 1) _ _ (fun t h1 h2 => hoff t (by omega) (by omega))
      (fun t h1 h2 => hout t (by omega) (by omega)),
      getD_block_write fp _ _ j (hoff i (le_refl _) (by omega))
        (by rw [List.length_take]; exact Nat.min_le_left _ _),
      if_neg (hout i (le_refl _) (by omega))]

/-- The payload loop stores block `t` of the file, padded with zeros, at the offset of
`data_blocks[t]`, when no later block of the loop overlaps it. -/
theorem getD_write_payload_block (sb blks : List Nat) (left i : Nat) (rest : List Nat)
    (fp : FILE) (t j : Nat) (ht1 : i ≤ t) (ht2 : t < i + left)
    (hoff : ∀ u, i ≤ u → u < i + left → data_off sb (blks.getD u 0) < 2 ^ 63)
    (hin : data_off sb (blks.getD t 0) ≤ j ∧ j < data_off sb (blks.getD t 0) + BS)
    (hlater : ∀ u, t < u → u < i + left →
      ¬ (data_off sb (blks.getD u 0) ≤ j ∧ j < data_off sb (blks.getD u 0) + BS)) :
    (write_payload sb blks left i rest fp).data.getD j 0
      = ((rest.drop (BS * (t - i))).take BS).getD (j - data_off sb (blks.getD t 0)) 0 := by
  induction left generalizing i rest fp with
  | zero => omega
  | succ left ih =>
    rw [write_payload_succ]
    by_cases e : t = i
    · subst e
      rw [getD_write_payload_frame _ _ _ _ _ _ _ (fun u h1 h2 => hoff u (by omega) (by omega))
        (fun u h1 h2 => hlater u (by omega) (by omega)),
        getD_block_write fp _ _ j (hoff t (le_refl _) (by omega))
          (by rw [List.length_take]; exact Nat.min_le_left _ _), if_pos hin]
      simp
    · rw [ih (i + 1) _ _ (by omega) (by omega) (fun u h1 h2 => hoff u (by omega) (by omega))
        (fun u h1 h2 => hlater u h1 (by omega)), List.drop_drop]
      congr 3
      have : t - i = (t - (i + 1)) + 1 := by omega
      rw [this]
      ring

/-! ### Bits of a bitmap -/

theorem mask_ne_zero_iff (x t : Nat) : (x &&& (1 <<< t) != 0) = x.testBit t := by
  rw [Nat.one_shiftLeft, Nat.and_two_pow]
  cases h : x.testBit t
  · simp
  · simp

theorem bit_set_eq_testBit (bitmap : List Nat) (i : Nat) :
    bit_set bitmap i = (bitmap.getD (i / 8) 0).testBit (i % 8) := by
  unfold bit_set
  exact mask_ne_zero_iff _ _

theorem getD_set (l : List Nat) (k v i : Nat) :
    (l.set k v).getD i 0 = if i = k ∧ k < l.length then v else l.getD i 0 := by
  rw [List.getD_eq_getElem?_getD, List.getD_eq_getElem?_getD, List.getElem?_set]
  by_cases h1 : k = i
  · subst h1
    by_cases h2 : k < l.length
    · rw [if_pos rfl, if_pos h2, if_pos ⟨rfl, h2⟩]; rfl
    · rw [if_pos rfl, if_neg h2, if_neg (by omega), List.getElem?_eq_none (by omega)]
  · rw [if_neg h1, if_neg (by omega)]

/-- Call `set_bit` sets bit `k` and keeps every other bit, when byte `k / 8` is in the
buffer. -/
theorem bit_set_set_bit (bitmap : List Nat) (k m : Nat) (hk : k / 8 < bitmap.length) :
    bit_set (set_bit bitmap k) m = (bit_set bitmap m || decide (m = k)) := by
  rw [bit_set_eq_testBit, bit_set_eq_testBit]
  unfold set_bit
  rw [getD_set]
  by_cases h : m / 8 = k / 8
  · rw [if_pos ⟨h, hk⟩]
    unfold u8
    rw [Nat.testBit_mod_two_pow, Nat.testBit_or, Nat.one_shiftLeft, Nat.testBit_two_pow, h]
    have h8 : m % 8 < 8 := Nat.mod_lt _ (by norm_num)
    have e : decide (k % 8 = m % 8) = decide (m = k) := by
      by_cases c : m = k
      · subst c; simp
      · have : ¬ k % 8 = m % 8 := by omega
        simp [c, this]
    rw [e]
    simp [h8]
  · rw [if_neg (by omega)]
    have : ¬ m = k := by
      intro c; subst c; exact h rfl
    simp [this]

theorem length_set_bit (bitmap : List Nat) (k : Nat) :
    (set_bit bitmap k).length = bitmap.length := by
  unfold set_bit
  rw [List.length_set]

theorem isBytes_set_bit (bitmap : List Nat) (k : Nat) (h : IsBytes bitmap) :
    IsBytes (set_bit bitmap k) := by
  intro b hb
  unfold set_bit at hb
  rcases List.mem_or_eq_of_mem_set hb with h1 | h1
  · exact h b h1
  · rw [h1]
    exact Nat.mod_lt _ (by norm_num)

theorem first_clear_bit_none (b : Nat) (h : first_clear_bit b = none) (t : Nat) (ht : t < 8) :
    b.testBit t = true := by
  unfold first_clear_bit at h
  rw [List.find?_eq_none] at h
  have := h t (List.mem_range.mpr ht)
  rw [← mask_ne_zero_iff]
  simpa using this

theorem first_clear_bit_found (b j : Nat) (h : first_clear_bit b = some j) :
    j < 8 ∧ b.testBit j = false ∧ ∀ t, t < j → b.testBit t = true := by
  obtain ⟨h1, h2, h3⟩ := first_clear_bit_some b j h
  refine ⟨h1, ?_, fun t ht => ?_⟩
  · rw [← mask_ne_zero_iff, h2]; rfl
  · rw [← mask_ne_zero_iff]
    simpa using h3 t ht

theorem testBit_255 (t : Nat) (ht : t < 8) : (255 : Nat).testBit t = true := by
  interval_cases t <;> rfl

/-- What a scan that returns has found: a clear bit in a byte of the buffer, every bit
before it (from the start of the scan) being set. -/
theorem bitmap_scan_found (bitmap : List Nat) (left i a j : Nat)
    (h : bitmap_scan bitmap left i = some (some (a, j))) :
    i ≤ a ∧ a < i + left ∧ a < bitmap.length ∧ j < 8 ∧ bit_set bitmap (a * 8 + j) = false ∧
      ∀ m, i * 8 ≤ m → m < a * 8 + j → bit_set bitmap m = true := by
  induction left generalizing i with
  | zero => simp [bitmap_scan] at h
  | succ left ih =>
    unfold bitmap_scan at h
    cases hg : bitmap.get? i with
    | none => rw [hg] at h; simp at h
    | some b =>
      rw [hg] at h
      dsimp only at h
      have hlen : i < bitmap.length := by
        rw [List.get?_eq_getElem?] at hg
        by_contra c
        rw [List.getElem?_eq_none (by omega)] at hg
        cases hg
      have hget : bitmap.getD i 0 = b := by
        rw [List.getD_eq_getElem?_getD, ← List.get?_eq_getElem?, hg]; rfl
      have hbyte : ∀ m, i * 8 ≤ m → m < i * 8 + 8 →
          bit_set bitmap m = b.testBit (m - i * 8) := by
        intro m h1 h2
        rw [bit_set_eq_testBit, show m / 8 = i by omega, hget, show m % 8 = m - i * 8 by omega]
      have hskip : (∀ t, t < 8 → b.testBit t = true) →
          bitmap_scan bitmap left (i + 1) = some (some (a, j)) →
          i ≤ a ∧ a < i + (left + 1) ∧ a < bitmap.length ∧ j < 8 ∧
            bit_set bitmap (a * 8 + j) = false ∧
            ∀ m, i * 8 ≤ m → m < a * 8 + j → bit_set bitmap m = true := by
        intro hall hrec
        obtain ⟨r1, r2, r3, r4, r5, r6⟩ := ih (i + 1) hrec
        refine ⟨by omega, by omega, r3, r4, r5, fun m h1 h2 => ?_⟩
        by_cases c : m < i * 8 + 8
        · rw [hbyte m h1 c]
          exact hall _ (by omega)
        · exact r6 m (by omega) h2
      by_cases hff : b = 0xFF
      · rw [if_neg (by simpa using hff)] at h
        exact hskip (fun t ht => by rw [hff]; exact testBit_255 t ht) h
      · rw [if_pos hff] at h
        cases hc : first_clear_bit b with
        | none =>
          rw [hc] at h
          exact hskip (first_clear_bit_none b hc) h
        | some j' =>
          rw [hc] at h
          dsimp only at h
          injection h with h
          injection h with h
          injection h with ha hj
          subst ha
          subst hj
          obtain ⟨c1, c2, c3⟩ := first_clear_bit_found b j' hc
          refine ⟨le_refl _, by omega, hlen, c1, ?_, fun m h1 h2 => ?_⟩
          · rw [hbyte _ (by omega) (by omega), show i * 8 + j' - i * 8 = j' by omega]
            exact c2
          · rw [hbyte m h1 (by omega)]
            exact c3 _ (by omega)

theorem bitmap_scan_in_bounds (bitmap : List Nat) (left i : Nat)
    (h : i + left ≤ bitmap.length) : bitmap_scan bitmap left i ≠ none := by
  induction left generalizing i with
  | zero => simp [bitmap_scan]
  | succ left ih =>
    unfold bitmap_scan
    have hlen : i < bitmap.length := by omega
    rw [List.get?_eq_getElem?, List.getElem?_eq_getElem hlen]
    dsimp only
    split
    · split
      · simp
      · exact ih (i + 1) (by omega)
    · exact ih (i + 1) (by omega)

/-! ### The allocator on a buffer of one block -/

theorem find_free_data_block_found (bm : List Nat) (cap : Nat) (v : Int)
    (hl : bm.length ≤ 2 ^ 27) (h : find_free_data_block bm cap = some v) :
    v = -1 ∨ ∃ k : Nat, v = (k : Int) ∧ k / 8 < bm.length ∧ bit_set bm k = false ∧
      ∀ m, m < k → bit_set bm m = true := by
  unfold find_free_data_block at h
  cases hs : bitmap_scan bm (u64 (cap + 7) / 8) 0 with
  | none => rw [hs] at h; cases h
  | some r =>
    rw [hs] at h
    cases r with
    | none =>
      dsimp only at h
      injection h with h
      left; exact h.symm
    | some aj =>
      obtain ⟨a, j⟩ := aj
      dsimp only at h
      injection h with h
      obtain ⟨_, _, r3, r4, r5, r6⟩ := bitmap_scan_found bm _ 0 a j hs
      right
      refine ⟨a * 8 + j, ?_, by omega, r5, fun m hm => r6 m (by omega) hm⟩
      rw [← h, u64_small _ (by omega), to_int_small _ (by omega)]

theorem find_free_inode_found (bm : List Nat) (cap : Nat) (v : Int)
    (hl : bm.length ≤ 2 ^ 27) (h : find_free_inode bm cap = some v) :
    v = -1 ∨ ∃ k : Nat, v = (k : Int) + 1 ∧ k / 8 < bm.length ∧ bit_set bm k = false ∧
      ∀ m, m < k → bit_set bm m = true := by
  unfold find_free_inode at h
  cases hs : bitmap_scan bm (u64 (cap + 7) / 8) 0 with
  | none => rw [hs] at h; cases h
  | some r =>
    rw [hs] at h
    cases r with
    | none =>
      dsimp only at h
      injection h with h
      left; exact h.symm
    | some aj =>
      obtain ⟨a, j⟩ := aj
      dsimp only at h
      injection h with h
      obtain ⟨_, _, r3, r4, r5, r6⟩ := bitmap_scan_found bm _ 0 a j hs
      right
      refine ⟨a * 8 + j, ?_, by omega, r5, fun m hm => r6 m (by omega) hm⟩
      rw [← h, u64_small _ (by omega), to_int_small _ (by omega)]
      push_cast
      rfl

theorem alloc_loop_succ (drb left i : Nat) (bm blks : List Nat) (k : Nat)
    (h : find_free_data_block bm drb = some (k : Int)) (hk : k / 8 < bm.length) :
    alloc_loop drb (left + 1) i bm blks =
      alloc_loop drb left (i + 1) (set_bit bm k) (blks.set i (u32 k)) := by
  rw [alloc_loop, h]
  dsimp only
  rw [if_neg (by omega), if_neg (by
    intro c
    rcases c with c | c
    · omega
    · have : ((k : Int) / 8) = ((k / 8 : Nat) : Int) := by norm_cast
      rw [this] at c
      omega)]
  rfl

/-- What the allocation loop has done when it ends without an exit. -/
theorem alloc_loop_ok (drb : Nat) (left i : Nat) (bm blks bm' blks' : List Nat)
    (hl : bm.length ≤ 2 ^ 27) (hi : i + left ≤ blks.length)
    (h : alloc_loop drb left i bm blks = .ok (bm', blks')) :
    bm'.length = bm.length ∧ blks'.length = blks.length ∧
    (∀ t, t < i ∨ i + left ≤ t → blks'.getD t 0 = blks.getD t 0) ∧
    (∀ t, i ≤ t → t < i + left →
      blks'.getD t 0 / 8 < bm.length ∧ bit_set bm (blks'.getD t 0) = false) ∧
    (∀ t u, i ≤ t → t < u → u < i + left → blks'.getD t 0 < blks'.getD u 0) ∧
    (∀ m, bit_set bm' m = true ↔
      (bit_set bm m = true ∨ ∃ t, i ≤ t ∧ t < i + left ∧ blks'.getD t 0 = m)) ∧
    (IsBytes bm → IsBytes bm') := by
  induction left generalizing i bm blks with
  | zero =>
    rw [alloc_loop] at h
    injection h with h
    injection h with h1 h2
    subst h1
    subst h2
    refine ⟨rfl, rfl, fun _ _ => rfl, fun t h1 h2 => by omega, fun t u h1 h2 h3 => by omega,
      fun m => ⟨fun hm => Or.inl hm, fun hm => ?_⟩, fun hb => hb⟩
    rcases hm with hm | ⟨t, h1, h2, _⟩
    · exact hm
    · omega
  | succ left ih =>
    cases hf : find_free_data_block bm drb with
    | none =>
      rw [alloc_loop, hf] at h
      cases h
    | some v =>
      rcases find_free_data_block_found bm drb v hl hf with hv | ⟨k, hv, k1, k2, k3⟩
      · rw [alloc_loop, hf] at h
        dsimp only at h
        rw [if_pos hv] at h
        cases h
      · subst hv
        rw [alloc_loop_succ drb left i bm blks k hf k1] at h
        have hk32 : u32 k = k := Nat.mod_eq_of_lt (by omega)
        rw [hk32] at h
        obtain ⟨r1, r2, r3, r4, r5, r6, r7⟩ := ih (i + 1) (set_bit bm k) (blks.set i k)
          (by rw [length_set_bit]; exact hl) (by rw [List.length_set]; omega) h
        rw [length_set_bit] at r1 r4
        rw [List.length_set] at r2
        have hi0 : blks'.getD i 0 = k := by
          rw [r3 i (Or.inl (by omega)), getD_set, if_pos ⟨rfl, by omega⟩]
        have hclear : ∀ t, i + 1 ≤ t → t < i + 1 + left →
            bit_set bm (blks'.getD t 0) = false ∧ k < blks'.getD t 0 := by
          intro t h1 h2
          have c := (r4 t h1 h2).2
          rw [bit_set_set_bit _ _ _ k1] at c
          have c1 : bit_set bm (blks'.getD t 0) = false := by
            cases hb : bit_set bm (blks'.getD t 0)
            · rfl
            · rw [hb] at c; simp at c
          have c2 : ¬ blks'.getD t 0 = k := by
            intro e
            rw [e] at c
            simp at c
          refine ⟨c1, ?_⟩
          by_contra c3
          have : blks'.getD t 0 < k := by omega
          rw [k3 _ this] at c1
          cases c1
        refine ⟨r1, r2, fun t ht => ?_, fun t h1 h2 => ?_, fun t u h1 h2 h3 => ?_,
          fun m => ?_, fun hb => r7 (isBytes_set_bit bm k hb)⟩
        · rw [r3 t (by omega), getD_set, if_neg (by omega)]
        · by_cases e : t = i
          · subst e
            rw [hi0]
            exact ⟨k1, k2⟩
          · exact ⟨(r4 t (by omega) (by omega)).1, (hclear t (by omega) (by omega)).1⟩
        · by_cases e : t = i
          · subst e
            rw [hi0]
            exact (hclear u (by omega) (by omega)).2
          · exact r5 t u (by omega) h2 (by omega)
        · rw [r6 m, bit_set_set_bit _ _ _ k1]
          constructor
          · intro hm
            rcases hm with hm | ⟨t, h1, h2, h3⟩
            · rcases Bool.or_eq_true _ _ ▸ hm with c | c
              · exact Or.inl c
              · exact Or.inr ⟨i, le_refl _, by omega, by rw [hi0]; exact (of_decide_eq_true c).symm⟩
            · exact Or.inr ⟨t, by omega, by omega, h3⟩
          · intro hm
            rcases hm with hm | ⟨t, h1, h2, h3⟩
            · left; rw [hm]; rfl
            · by_cases e : t = i
              · subst e
                left
                rw [hi0] at h3
                rw [← h3]
                simp
              · exact Or.inr ⟨t, by omega, by omega, h3⟩

/-! ### What `adder_load` holds -/

theorem length_fread_object (fp : FILE) (n : Nat) (junk : Nat → Nat) :
    (fread_object fp n junk).length = n := by
  unfold fread_object
  split
  · rename_i h; exact h
  · exact length_residue _ _

theorem isBytes_fread_object (fp : FILE) (n : Nat) (junk : Nat → Nat) (h : IsBytes fp.data) :
    IsBytes (fread_object fp n junk) := by
  unfold fread_object
  split
  · exact isBytes_take _ _ (isBytes_drop _ _ h)
  · exact isBytes_residue _ _

theorem fread_object_eq_slice (fp : FILE) (n : Nat) (junk : Nat → Nat)
    (h : fp.pos + n ≤ fp.data.length) : fread_object fp n junk = slice fp.data fp.pos n := by
  unfold fread_object fread_bytes
  rw [if_pos (length_slice _ _ _ h)]

theorem adder_load_fst_eq (image : List Nat) (env : AdderEnv)
    (h1 : (fread_bytes ⟨image, 0⟩ 116).length = 116)
    (h2 : rd (fread_bytes ⟨image, 0⟩ 116) 0 4 = 0x4D565346) :
    (adder_load image env).1 = .ok
      { superblock := fread_bytes ⟨image, 0⟩ 116
        inode_bitmap := fread_object
          (fseek (fread_next ⟨image, 0⟩ 116)
            (u64 (sb_inode_bitmap_start (fread_bytes ⟨image, 0⟩ 116) * BS)))
          BS env.junk_inode_bitmap
        data_bitmap := fread_object
          (fseek (fread_next (fseek (fread_next ⟨image, 0⟩ 116)
            (u64 (sb_inode_bitmap_start (fread_bytes ⟨image, 0⟩ 116) * BS))) BS)
            (u64 (sb_data_bitmap_start (fread_bytes ⟨image, 0⟩ 116) * BS)))
          BS env.junk_data_bitmap } := by
  unfold adder_load
  dsimp only
  rw [if_neg (not_not.mpr h1), if_neg (not_not.mpr h2)]

theorem adder_load_short (image : List Nat) (env : AdderEnv)
    (h1 : (fread_bytes ⟨image, 0⟩ 116).length ≠ 116) :
    (adder_load image env).1 = .error .io_error := by
  unfold adder_load
  dsimp only
  rw [if_pos h1]

theorem adder_load_bad_magic (image : List Nat) (env : AdderEnv)
    (h1 : (fread_bytes ⟨image, 0⟩ 116).length = 116)
    (h2 : rd (fread_bytes ⟨image, 0⟩ 116) 0 4 ≠ 0x4D565346) :
    (adder_load image env).1 = .error .invalid_magic := by
  unfold adder_load
  dsimp only
  rw [if_neg (not_not.mpr h1), if_pos h2]

theorem fread_bytes_superblock (image : List Nat) :
    fread_bytes ⟨image, 0⟩ 116 = image.take 116 := rfl

theorem length_fread_bytes_superblock (image : List Nat) :
    (fread_bytes ⟨image, 0⟩ 116).length = 116 ↔ 116 ≤ image.length := by
  rw [fread_bytes_superblock, List.length_take]
  omega

/-- The buffers after a successful load. -/
theorem adder_load_ok_inv (image : List Nat) (env : AdderEnv) (l : Loaded)
    (h : (adder_load image env).1 = .ok l) :
    116 ≤ image.length ∧ rd (image.take 116) 0 4 = 0x4D565346 ∧
    l = { superblock := image.take 116
          inode_bitmap := fread_object
            (fseek (fread_next ⟨image, 0⟩ 116)
              (u64 (sb_inode_bitmap_start (image.take 116) * BS)))
            BS env.junk_inode_bitmap
          data_bitmap := fread_object
            (fseek (fread_next (fseek (fread_next ⟨image, 0⟩ 116)
              (u64 (sb_inode_bitmap_start (image.take 116) * BS))) BS)
              (u64 (sb_data_bitmap_start (image.take 116) * BS)))
            BS env.junk_data_bitmap } := by
  by_cases h1 : (fread_bytes ⟨image, 0⟩ 116).length = 116
  · by_cases h2 : rd (fread_bytes ⟨image, 0⟩ 116) 0 4 = 0x4D565346
    · rw [adder_load_fst_eq image env h1 h2] at h
      injection h with h
      rw [fread_bytes_superblock] at h h2
      exact ⟨(length_fread_bytes_superblock image).mp h1, h2, h.symm⟩
    · rw [adder_load_bad_magic image env h1 h2] at h
      cases h
  · rw [adder_load_short image env h1] at h
    cases h

theorem adder_load_error_inv (image : List Nat) (env : AdderEnv) (e : Outcome)
    (h : (adder_load image env).1 = .error e) :
    (e = .io_error ∧ image.length < 116) ∨
    (e = .invalid_magic ∧ 116 ≤ image.length ∧ rd (image.take 116) 0 4 ≠ 0x4D565346) := by
  by_cases h1 : (fread_bytes ⟨image, 0⟩ 116).length = 116
  · by_cases h2 : rd (fread_bytes ⟨image, 0⟩ 116) 0 4 = 0x4D565346
    · rw [adder_load_fst_eq image env h1 h2] at h
      cases h
    · rw [adder_load_bad_magic image env h1 h2] at h
      injection h with h
      right
      exact ⟨h.symm, (length_fread_bytes_superblock image).mp h1, h2⟩
  · rw [adder_load_short image env h1] at h
    injection h with h
    left
    refine ⟨h.symm, ?_⟩
    rw [length_fread_bytes_superblock] at h1
    omega

theorem adder_load_good (image : List Nat) (env : AdderEnv) (h1 : 116 ≤ image.length)
    (h2 : rd (image.take 116) 0 4 = 0x4D565346) :
    ∃ l, (adder_load image env).1 = .ok l := by
  cases h : (adder_load image env).1 with
  | ok l => exact ⟨l, rfl⟩
  | error e =>
    rcases adder_load_error_inv image env e h with ⟨_, c⟩ | ⟨_, _, c⟩
    · omega
    · exact absurd h2 c

/-! ### Bitmap accesses -/

theorem prepare_error_cases (image file : List Nat) (env : AdderEnv) (e : Outcome)
    (h : (adder_prepare image file env).1 = .error e) :
    (adder_load image env).1 = .error e ∨
    ∃ l, (adder_load image env).1 = .ok l ∧
      ((find_free_inode l.inode_bitmap (sb_inode_count l.superblock) = none ∧ e = .undefined) ∨
       (find_free_inode l.inode_bitmap (sb_inode_count l.superblock) = some (-1) ∧
         e = .no_free_inodes) ∨
       (blocks_needed file > DIRECT_MAX ∧ e = .file_too_large) ∨
       (alloc_loop (sb_data_region_blocks l.superblock) (blocks_needed file) 0
          l.data_bitmap (List.replicate DIRECT_MAX 0) = .error e) ∨
       (find_free_entry
          (adder_load_root l.superblock env (adder_load image env).2).1.root_entries = none ∧
         e = .directory_full)) := by
  cases h1 : (adder_load image env).1 with
  | error e1 =>
    rw [prepare_load_error image file env e1 h1] at h
    injection h with h
    left; rw [h]
  | ok l =>
    right
    refine ⟨l, rfl, ?_⟩
    cases h2 : find_free_inode l.inode_bitmap (sb_inode_count l.superblock) with
    | none =>
      rw [prepare_scan_undefined image file env l h1 h2] at h
      injection h with h
      exact Or.inl ⟨rfl, h.symm⟩
    | some n =>
      by_cases h3 : n = -1
      · rw [h3] at h2
        rw [prepare_no_free_inodes image file env l h1 h2] at h
        injection h with h
        exact Or.inr (Or.inl ⟨by rw [h3], h.symm⟩)
      · by_cases h4 : blocks_needed file > DIRECT_MAX
        · rw [prepare_file_too_large image file env l n h1 h2 h3 h4] at h
          injection h with h
          exact Or.inr (Or.inr (Or.inl ⟨h4, h.symm⟩))
        · cases h5 : alloc_loop (sb_data_region_blocks l.superblock) (blocks_needed file) 0
              l.data_bitmap (List.replicate DIRECT_MAX 0) with
          | error e1 =>
            rw [prepare_alloc_error image file env l n e1 h1 h2 h3 h4 h5] at h
            injection h with h
            exact Or.inr (Or.inr (Or.inr (Or.inl (by rw [h]))))
          | ok r =>
            obtain ⟨db, blks⟩ := r
            cases h6 : find_free_entry
                (adder_load_root l.superblock env (adder_load image env).2).1.root_entries with
            | none =>
              rw [prepare_directory_full image file env l n db blks h1 h2 h3 h4 h5 h6] at h
              injection h with h
              exact Or.inr (Or.inr (Or.inr (Or.inr ⟨rfl, h.symm⟩)))
            | some k =>
              rw [prepare_ok image file env l n db blks k h1 h2 h3 h4 h5 h6] at h
              cases h

theorem find_free_data_block_defined (bm : List Nat) (cap : Nat) (hl : bm.length = 4096)
    (hc : cap ≤ 32768) : find_free_data_block bm cap ≠ none := by
  unfold find_free_data_block
  have h := bitmap_scan_in_bounds bm (u64 (cap + 7) / 8) 0
    (by rw [u64_small _ (by omega)]; omega)
  cases hs : bitmap_scan bm (u64 (cap + 7) / 8) 0 with
  | none => exact absurd hs h
  | some r => cases r <;> simp

theorem find_free_inode_defined (bm : List Nat) (cap : Nat) (hl : bm.length = 4096)
    (hc : cap ≤ 32768) : find_free_inode bm cap ≠ none := by
  unfold find_free_inode
  have h := bitmap_scan_in_bounds bm (u64 (cap + 7) / 8) 0
    (by rw [u64_small _ (by omega)]; omega)
  cases hs : bitmap_scan bm (u64 (cap + 7) / 8) 0 with
  | none => exact absurd hs h
  | some r => cases r <;> simp

theorem alloc_loop_defined (drb left i : Nat) (bm blks : List Nat) (hl : bm.length = 4096)
    (hc : drb ≤ 32768) : alloc_loop drb left i bm blks ≠ .error .undefined := by
  induction left generalizing i bm blks with
  | zero => simp [alloc_loop]
  | succ left ih =>
    cases hf : find_free_data_block bm drb with
    | none => exact absurd hf (find_free_data_block_defined bm drb hl hc)
    | some v =>
      rcases find_free_data_block_found bm drb v (by omega) hf with hv | ⟨k, hv, k1, _, _⟩
      · rw [alloc_loop, hf]
        dsimp only
        rw [if_pos hv]
        simp
      · subst hv
        rw [alloc_loop_succ drb left i bm blks k hf k1]
        exact ih _ _ _ (by rw [length_set_bit]; exact hl)

theorem adder_commit_success (p : Plan) (file name : List Nat) (env : AdderEnv) (fp : FILE)
    (h1 : 1 ≤ p.free_inode) (h2 : (p.free_inode - 1) / 8 < (p.inode_bitmap.length : Int)) :
    adder_commit p file name env fp =
      (.success p.free_inode,
        commit_metadata p name env
          (write_payload p.superblock p.data_blocks p.blocks_needed 0 file
            (commit_bitmaps p (p.free_inode - 1).toNat (commit_inode p env fp)))) := by
  unfold adder_commit
  dsimp only
  rw [if_neg (by omega)]

theorem loaded_lengths (image : List Nat) (env : AdderEnv) (l : Loaded)
    (h : (adder_load image env).1 = .ok l) :
    l.superblock = image.take 116 ∧ l.superblock.length = 116 ∧
    l.inode_bitmap.length = 4096 ∧ l.data_bitmap.length = 4096 := by
  obtain ⟨h1, _, h3⟩ := adder_load_ok_inv image env l h
  have e1 : l.superblock = image.take 116 := by rw [h3]
  have e2 : l.inode_bitmap.length = BS := by rw [h3]; exact length_fread_object _ _ _
  have e3 : l.data_bitmap.length = BS := by rw [h3]; exact length_fread_object _ _ _
  refine ⟨e1, ?_, e2, e3⟩
  rw [e1, List.length_take]
  omega

theorem bitmap_scan_all_ones (n left i : Nat) (h1 : n < i + left) (h2 : i ≤ n) :
    bitmap_scan (List.replicate n 0xFF) left i = none := by
  induction left generalizing i with
  | zero => omega
  | succ left ih =>
    unfold bitmap_scan
    by_cases c : i < n
    · rw [List.get?_eq_getElem?, List.getElem?_replicate, if_pos c]
      dsimp only
      rw [if_neg (by simp)]
      exact ih (i + 1) (by omega) (by omega)
    · rw [List.get?_eq_getElem?, List.getElem?_replicate, if_neg c]

theorem find_free_inode_none (bm : List Nat) (cap : Nat)
    (h : bitmap_scan bm (u64 (cap + 7) / 8) 0 = none) : find_free_inode bm cap = none := by
  unfold find_free_inode
  rw [h]

theorem find_free_data_block_none (bm : List Nat) (cap : Nat)
    (h : bitmap_scan bm (u64 (cap + 7) / 8) 0 = none) : find_free_data_block bm cap = none := by
  unfold find_free_data_block
  rw [h]

theorem scan_all_ones_inode : find_free_inode (List.replicate 4096 0xFF) 32769 = none :=
  find_free_inode_none _ _ (bitmap_scan_all_ones 4096 _ 0 (by decide) (by decide))

theorem scan_all_ones_data : find_free_data_block (List.replicate 4096 0xFF) 32769 = none :=
  find_free_data_block_none _ _ (bitmap_scan_all_ones 4096 _ 0 (by decide) (by decide))


/-- C21: bitmap accesses stay inside the one-block buffer.  For a 4096-byte bitmap and a
capacity of at most 32768 both scans read inside the buffer (they return a value), the
data index returned is -1 or in `0 .. 32767`, the inode number returned is -1 or one more
than a bit index in `0 .. 32767`, so that the byte of the later bit-set is below 4096; an
Injector run on an image whose `inode_count` and `data_region_blocks` are at most 32768
never accesses a bitmap outside its buffer.  With capacity 32769 and a bitmap of `0xFF`
bytes both scans read byte 4096, outside the buffer. -/
theorem bitmap_accesses_in_bounds :
    (∀ (bitmap : List Nat) (capacity : Nat), bitmap.length = 4096 → capacity ≤ 32768 →
      (∃ v, find_free_data_block bitmap capacity = some v ∧
        (v = -1 ∨ (0 ≤ v ∧ v < 32768 ∧ v / 8 < 4096))) ∧
      (∃ n, find_free_inode bitmap capacity = some n ∧
        (n = -1 ∨ (1 ≤ n ∧ n - 1 < 32768 ∧ (n - 1) / 8 < 4096)))) ∧
    (∀ (image file name : List Nat) (env : AdderEnv),
      sb_inode_count (image.take 116) ≤ 32768 →
      sb_data_region_blocks (image.take 116) ≤ 32768 →
      (adder_main image file name env).1 ≠ .undefined) ∧
    find_free_inode (List.replicate 4096 0xFF) 32769 = none ∧
    find_free_data_block (List.replicate 4096 0xFF) 32769 = none := by
  refine ⟨fun bitmap capacity hl hc => ⟨?_, ?_⟩, fun image file name env hc1 hc2 => ?_,
    scan_all_ones_inode, scan_all_ones_data⟩
  · cases hf : find_free_data_block bitmap capacity with
    | none => exact absurd hf (find_free_data_block_defined bitmap capacity hl hc)
    | some v =>
      refine ⟨v, rfl, ?_⟩
      rcases find_free_data_block_found bitmap capacity v (by omega) hf with hv | ⟨k, hv, k1, _, _⟩
      · exact Or.inl hv
      · right
        subst hv
        rw [hl] at k1
        omega
  · cases hf : find_free_inode bitmap capacity with
    | none => exact absurd hf (find_free_inode_defined bitmap capacity hl hc)
    | some v =>
      refine ⟨v, rfl, ?_⟩
      rcases find_free_inode_found bitmap capacity v (by omega) hf with hv | ⟨k, hv, k1, _, _⟩
      · exact Or.inl hv
      · right
        subst hv
        rw [hl] at k1
        omega
  · cases hp : (adder_prepare image file env).1 with
    | error e =>
      rw [adder_main_error image file name env e hp]
      show e ≠ .undefined
      rcases prepare_error_cases image file env e hp with h | ⟨l, hl, h⟩
      · rcases adder_load_error_inv image env e h with ⟨c, _⟩ | ⟨c, _⟩ <;> rw [c] <;> simp
      · obtain ⟨l1, _, l3, l4⟩ := loaded_lengths image env l hl
        rw [l1] at h
        rcases h with ⟨c, _⟩ | ⟨_, c⟩ | ⟨_, c⟩ | c | ⟨_, c⟩
        · exact absurd c (find_free_inode_defined _ _ l3 hc1)
        · rw [c]; simp
        · rw [c]; simp
        · intro ce
          rw [ce] at c
          exact alloc_loop_defined _ _ _ _ _ l4 hc2 c
        · rw [c]; simp
    | ok p =>
      rw [adder_main_ok image file name env p hp]
      obtain ⟨l, n, db, blks, k, hl, h2, h3, _, _, _, hpe⟩ := prepare_ok_inv image file env p hp
      obtain ⟨l1, _, l3, _⟩ := loaded_lengths image env l hl
      have hn : p.free_inode = n := by rw [hpe]
      have hb : p.inode_bitmap = l.inode_bitmap := by rw [hpe]
      rcases find_free_inode_found _ _ n (by omega) h2 with hv | ⟨j, hv, j1, _, _⟩
      · exact absurd hv h3
      · rw [adder_commit_success p file name env _ (by rw [hn, hv]; omega)
          (by rw [hn, hb, hv, l3]; omega)]
        simp

theorem bitmap_accesses_in_bounds_witness :
    (∃ v, find_free_data_block (List.replicate 4096 0) 128 = some v ∧
      (v = -1 ∨ (0 ≤ v ∧ v < 32768 ∧ v / 8 < 4096))) ∧
    (∃ n, find_free_inode (List.replicate 4096 0) 128 = some n ∧
      (n = -1 ∨ (1 ≤ n ∧ n - 1 < 32768 ∧ (n - 1) / 8 < 4096))) :=
  bitmap_accesses_in_bounds.1 (List.replicate 4096 0) 128 (List.length_replicate _ _)
    (by decide)

/-! ### A run on known reads -/

theorem bitmap_scan_byte0 (bm : List Nat) (left b j : Nat) (hlen : 0 < bm.length)
    (hb : bm.getD 0 0 = b) (hne : b ≠ 0xFF) (hj : first_clear_bit b = some j) :
    bitmap_scan bm (left + 1) 0 = some (some (0, j)) := by
  have h0 : bm.get? 0 = some b := by
    cases bm with
    | nil => simp at hlen
    | cons a t =>
      rw [List.getD_cons_zero] at hb
      rw [← hb]
      rfl
  unfold bitmap_scan
  rw [h0]
  dsimp only
  rw [if_pos hne, hj]

theorem find_free_inode_byte0 (bm : List Nat) (cap left b j : Nat)
    (hcap : u64 (cap + 7) / 8 = left + 1) (hlen : 0 < bm.length)
    (hb : bm.getD 0 0 = b) (hne : b ≠ 0xFF) (hj : first_clear_bit b = some j) :
    find_free_inode bm cap = some (to_int (u64 (0 * 8 + j + 1))) := by
  unfold find_free_inode
  rw [hcap, bitmap_scan_byte0 bm left b j hlen hb hne hj]

theorem find_free_data_block_byte0 (bm : List Nat) (cap left b j : Nat)
    (hcap : u64 (cap + 7) / 8 = left + 1) (hlen : 0 < bm.length)
    (hb : bm.getD 0 0 = b) (hne : b ≠ 0xFF) (hj : first_clear_bit b = some j) :
    find_free_data_block bm cap = some (to_int (u64 (0 * 8 + j))) := by
  unfold find_free_data_block
  rw [hcap, bitmap_scan_byte0 bm left b j hlen hb hne hj]

/-- The buffers `main` holds after lines 182-204 when both bitmap blocks lie inside the
image file. -/
theorem adder_load_reads (image : List Nat) (env : AdderEnv) (oI oD : Nat)
    (h116 : 116 ≤ image.length) (hm : rd (image.take 116) 0 4 = 0x4D565346)
    (hI : sb_inode_bitmap_start (image.take 116) * 4096 = oI)
    (hD : sb_data_bitmap_start (image.take 116) * 4096 = oD)
    (lI : oI < 2 ^ 63) (lD : oD < 2 ^ 63)
    (bI : oI + 4096 ≤ image.length) (bD : oD + 4096 ≤ image.length) :
    (adder_load image env).1 = .ok
      { superblock := image.take 116
        inode_bitmap := slice image oI 4096
        data_bitmap := slice image oD 4096 } := by
  obtain ⟨l, hl⟩ := adder_load_good image env h116 hm
  obtain ⟨_, _, h3⟩ := adder_load_ok_inv image env l hl
  have eB : u64 (sb_inode_bitmap_start (image.take 116) * BS) = oI := by
    unfold BS; rw [hI]; exact u64_small _ (by omega)
  have eC : u64 (sb_data_bitmap_start (image.take 116) * BS) = oD := by
    unfold BS; rw [hD]; exact u64_small _ (by omega)
  have e0 : l.superblock = image.take 116 := by rw [h3]
  have e1 : l.inode_bitmap = slice image oI 4096 := by
    have e : l.inode_bitmap = fread_object
        (fseek (fread_next ⟨image, 0⟩ 116)
          (u64 (sb_inode_bitmap_start (image.take 116) * BS)))
        BS env.junk_inode_bitmap := by rw [h3]
    rw [e, eB, fseek_eq _ _ (by omega), fread_object_eq_slice _ _ _ bI]
    rfl
  have e2 : l.data_bitmap = slice image oD 4096 := by
    have e : l.data_bitmap = fread_object
        (fseek (fread_next (fseek (fread_next ⟨image, 0⟩ 116)
          (u64 (sb_inode_bitmap_start (image.take 116) * BS))) BS)
          (u64 (sb_data_bitmap_start (image.take 116) * BS)))
        BS env.junk_data_bitmap := by rw [h3]
    rw [e, eB, eC, fseek_eq _ _ (by omega), fseek_eq _ _ (by omega),
      fread_object_eq_slice _ _ _ bD]
    rfl
  clear h3
  rw [hl]
  cases l
  dsimp only at e0 e1 e2
  rw [e0, e1, e2]

theorem inode_off_root_eq (sb : List Nat) (oT : Nat) (hT : sb_inode_table_start sb * 4096 = oT)
    (h : oT < 2 ^ 63) : inode_off sb ROOT_INO = oT := by
  unfold inode_off
  have h1 : u64 (sb_inode_table_start sb * BS) = oT := by
    unfold BS; rw [hT]; exact u64_small _ (by omega)
  have h2 : u32 (int_to_u32 (((ROOT_INO : Nat) : Int) - 1) * INODE_SIZE) = 0 := by decide
  rw [h1, h2, Nat.add_zero, u64_small _ (by omega)]

theorem data_off_eq (sb : List Nat) (oR d : Nat) (hR : sb_data_region_start sb * 4096 = oR)
    (hd : d * 4096 < 2 ^ 32) (h : oR + d * 4096 < 2 ^ 63) : data_off sb d = oR + d * 4096 := by
  unfold data_off
  have h1 : u64 (sb_data_region_start sb * BS) = oR := by
    unfold BS; rw [hR]; exact u64_small _ (by omega)
  have h2 : u32 (d * BS) = d * 4096 := by
    unfold BS u32; exact Nat.mod_eq_of_lt hd
  rw [h1, h2, u64_small _ (by omega)]

/-- The root directory `main` holds after lines 258-266 when slot 0 of the inode table and
the block `direct[0]` points to lie inside the image file. -/
theorem adder_load_root_reads (sb : List Nat) (env : AdderEnv) (fp : FILE)
    (oT oR d oE : Nat)
    (hT : sb_inode_table_start sb * 4096 = oT) (hR : sb_data_region_start sb * 4096 = oR)
    (lT : oT < 2 ^ 63) (lE : oE < 2 ^ 63) (bT : oT + 128 ≤ fp.data.length)
    (hd : rd (slice fp.data oT 128) 44 4 = d) (hd32 : d * 4096 < 2 ^ 32)
    (hE : oR + d * 4096 = oE) (bE : oE + 4096 ≤ fp.data.length) :
    (adder_load_root sb env fp).1 =
      { root_inode := slice fp.data oT 128
        root_off := oE
        root_entries := slice fp.data oE 4096 } := by
  have eI := inode_off_root_eq sb oT hT (by omega)
  have eD := data_off_eq sb oR d hR hd32 (by omega)
  have e1 : fread_object ⟨fp.data, oT⟩ INODE_SIZE env.junk_root_inode
      = slice fp.data oT 128 := by
    rw [fread_object_eq_slice _ _ _ bT]
    rfl
  unfold adder_load_root
  dsimp only
  rw [eI, fseek_eq fp oT (by omega), e1, hd, eD, hE, fseek_eq _ _ (by omega),
    fread_object_eq_slice _ _ _ bE]
  rfl

/-- The plan of a run from what it reads, when every block it reads lies inside the image
file. -/
theorem prepare_of_reads (image file : List Nat) (env : AdderEnv)
    (oI oD oT oR d oE : Nat) (n : Int) (db blks : List Nat) (k : Nat)
    (h116 : 116 ≤ image.length) (hm : rd (image.take 116) 0 4 = 0x4D565346)
    (hI : sb_inode_bitmap_start (image.take 116) * 4096 = oI)
    (hD : sb_data_bitmap_start (image.take 116) * 4096 = oD)
    (hT : sb_inode_table_start (image.take 116) * 4096 = oT)
    (hR : sb_data_region_start (image.take 116) * 4096 = oR)
    (lI : oI < 2 ^ 63) (lD : oD < 2 ^ 63) (lT : oT < 2 ^ 63) (lE : oE < 2 ^ 63)
    (bI : oI + 4096 ≤ image.length) (bD : oD + 4096 ≤ image.length)
    (bT : oT + 128 ≤ image.length)
    (h2 : find_free_inode (slice image oI 4096) (sb_inode_count (image.take 116)) = some n)
    (h3 : n ≠ -1) (h4 : blocks_needed file ≤ 12)
    (h5 : alloc_loop (sb_data_region_blocks (image.take 116)) (blocks_needed file) 0
      (slice image oD 4096) (List.replicate 12 0) = .ok (db, blks))
    (hd : rd (slice image oT 128) 44 4 = d) (hd32 : d * 4096 < 2 ^ 32)
    (hE : oR + d * 4096 = oE) (bE : oE + 4096 ≤ image.length)
    (h6 : find_free_entry (slice image oE 4096) = some k) :
    (adder_prepare image file env).1 = .ok
      { superblock := image.take 116
        inode_bitmap := slice image oI 4096
        data_bitmap := db
        free_inode := n
        file_size := u64 file.length
        blocks_needed := blocks_needed file
        data_blocks := blks
        root_inode := slice image oT 128
        root_off := oE
        root_entries := slice image oE 4096
        free_entry := k } := by
  have hl := adder_load_reads image env oI oD h116 hm hI hD lI lD bI bD
  have hdata := adder_load_data image env
  have hr := adder_load_root_reads (image.take 116) env (adder_load image env).2 oT oR d oE
    hT hR lT lE (by rw [hdata]; exact bT) (by rw [hdata]; exact hd) hd32 hE
    (by rw [hdata]; exact bE)
  rw [hdata] at hr
  have := prepare_ok image file env _ n db blks k hl h2 h3
    (by unfold DIRECT_MAX; omega) h5 (by rw [hr]; exact h6)
  rw [this, hr]

/-- The outcome of a run whose plan is known. -/
theorem run_of_plan (image file name : List Nat) (env : AdderEnv) (p : Plan)
    (hp : (adder_prepare image file env).1 = .ok p) (h1 : 1 ≤ p.free_inode)
    (h2 : (p.free_inode - 1) / 8 < (p.inode_bitmap.length : Int)) :
    (adder_main image file name env).1 = .success p.free_inode := by
  rw [adder_main_ok image file name env p hp, adder_commit_success p file name env _ h1 h2]

/-! ### The reads of a run on `sample_image` -/

theorem sample_image_length : sample_image.length = 28672 := by
  unfold sample_image
  rw [List.length_append, List.length_append, List.length_append, List.length_append,
    List.length_append, length_take_pad, length_take_pad, List.length_cons,
    List.length_replicate, length_builder_data_block, List.length_replicate]

theorem sample_image_reads :
    slice sample_image 4096 4096 = 0x01 :: List.replicate 4095 0 ∧
    slice sample_image 8192 4096 = 0x01 :: List.replicate 4095 0 ∧
    slice sample_image 12288 128 = inode_bytes sample_root_inode ∧
    slice sample_image 16384 4096 = builder_data_block := by
  have lB : ((0x01 : Nat) :: List.replicate 4095 0).length = 4096 := by
    rw [List.length_cons, List.length_replicate]
  have lP : ∀ l : List Nat, (take_pad 4096 l).length = 4096 := fun l => length_take_pad 4096 l
  have hr : slice (take_pad 4096 (inode_bytes sample_root_inode)) 0 128
      = inode_bytes sample_root_inode := by decide!
  unfold sample_image
  refine ⟨?_, ?_, ?_, ?_⟩
  · rw [slice_append_right _ _ 4096 0 4096 (by rw [lP]), slice_append_left _ _ 4096 lB.symm]
  · rw [slice_append_right _ _ 8192 4096 4096 (by rw [lP]),
      slice_append_right _ _ 4096 0 4096 (by rw [lB]), slice_append_left _ _ 4096 lB.symm]
  · rw [slice_append_right _ _ 12288 8192 128 (by rw [lP]),
      slice_append_right _ _ 8192 4096 128 (by rw [lB]),
      slice_append_right _ _ 4096 0 128 (by rw [lB]),
      slice_append_of_le _ _ 0 128 (by rw [lP]; norm_num), hr]
  · rw [slice_append_right _ _ 16384 12288 4096 (by rw [lP]),
      slice_append_right _ _ 12288 8192 4096 (by rw [lB]),
      slice_append_right _ _ 8192 4096 4096 (by rw [lB]),
      slice_append_right _ _ 4096 0 4096 (by rw [lP]),
      slice_append_left _ _ 4096 length_builder_data_block.symm]

theorem sample_image_fields :
    rd (sample_image.take 116) 0 4 = 0x4D565346 ∧
    sb_inode_count (sample_image.take 116) = 32 ∧
    sb_inode_bitmap_start (sample_image.take 116) = 1 ∧
    sb_data_bitmap_start (sample_image.take 116) = 2 ∧
    sb_inode_table_start (sample_image.take 116) = 3 ∧
    sb_data_region_start (sample_image.take 116) = 4 ∧
    sb_data_region_blocks (sample_image.take 116) = 3 := by
  decide!

theorem sample_load (env : AdderEnv) :
    (adder_load sample_image env).1 = .ok
      { superblock := sample_image.take 116
        inode_bitmap := 0x01 :: List.replicate 4095 0
        data_bitmap := 0x01 :: List.replicate 4095 0 } := by
  obtain ⟨f0, _, f2, f3, _⟩ := sample_image_fields
  have h := adder_load_reads sample_image env 4096 8192 (by rw [sample_image_length]; norm_num)
    f0 (by rw [f2]) (by rw [f3]) (by norm_num) (by norm_num)
    (by rw [sample_image_length]; norm_num) (by rw [sample_image_length]; norm_num)
  rw [sample_image_reads.1, sample_image_reads.2.1] at h
  exact h

theorem sample_free_inode :
    find_free_inode (0x01 :: List.replicate 4095 0) (sb_inode_count (sample_image.take 116))
      = some 2 := by
  rw [sample_image_fields.2.1]
  decide!

/-- The plan of a run on `sample_image` that adds a file of one block. -/
theorem sample_plan (file : List Nat) (env : AdderEnv) (hbn : blocks_needed file = 1) :
    (adder_prepare sample_image file env).1 = .ok
      { superblock := sample_image.take 116
        inode_bitmap := 0x01 :: List.replicate 4095 0
        data_bitmap := set_bit (0x01 :: List.replicate 4095 0) 1
        free_inode := 2
        file_size := u64 file.length
        blocks_needed := 1
        data_blocks := [1, 0, 0, 0, 0, 0, 0, 0, 0, 0, 0, 0]
        root_inode := inode_bytes sample_root_inode
        root_off := 16384
        root_entries := builder_data_block
        free_entry := 2 } := by
  obtain ⟨f0, f1, f2, f3, f4, f5, f6⟩ := sample_image_fields
  obtain ⟨r1, r2, r3, r4⟩ := sample_image_reads
  have hfd : find_free_data_block (0x01 :: List.replicate 4095 0) 3 = some ((1 : Nat) : Int) := by
    decide!
  have ha : alloc_loop 3 (0 + 1) 0 (0x01 :: List.replicate 4095 0) (List.replicate 12 0)
      = .ok (set_bit (0x01 :: List.replicate 4095 0) 1,
          [1, 0, 0, 0, 0, 0, 0, 0, 0, 0, 0, 0]) := by
    rw [alloc_loop_succ 3 0 0 _ _ 1 hfd
      (by rw [List.length_cons, List.length_replicate]; norm_num)]
    rfl
  have h := prepare_of_reads sample_image file env 4096 8192 12288 16384 0 16384 2
    (set_bit (0x01 :: List.replicate 4095 0) 1) [1, 0, 0, 0, 0, 0, 0, 0, 0, 0, 0, 0] 2
    (by rw [sample_image_length]; norm_num) f0
    (by rw [f2]) (by rw [f3]) (by rw [f4]) (by rw [f5])
    (by norm_num) (by norm_num) (by norm_num) (by norm_num)
    (by rw [sample_image_length]; norm_num) (by rw [sample_image_length]; norm_num)
    (by rw [sample_image_length]; norm_num)
    (by rw [r1]; exact sample_free_inode) (by decide) (by rw [hbn]; norm_num)
    (by rw [r2, f6, hbn]; exact ha)
    (by rw [r3]; decide!) (by norm_num) (by norm_num)
    (by rw [sample_image_length]; norm_num)
    (by rw [r4]; decide!)
  rw [r1, r3, r4, hbn] at h
  exact h

theorem sample_run_outcome :
    (adder_main sample_image [0x41] [0x61] sample_env).1 = .success 2 :=
  run_of_plan sample_image [0x41] [0x61] sample_env _
    (sample_plan [0x41] sample_env (by decide)) (by decide)
    (by
      show ((2 : Int) - 1) / 8 < (((0x01 : Nat) :: List.replicate 4095 0).length : Int)
      rw [List.length_cons, List.length_replicate]
      norm_num)

/-! ### The size check -/

theorem blocks_needed_eq (file : List Nat) (h : file.length < 2 ^ 63) :
    blocks_needed file = (file.length + 4095) / 4096 := by
  unfold blocks_needed BS
  rw [u64_small file.length (by omega), u64_small _ (by omega)]
  congr 1

/-- C8: the FileTooLarge check.  On an image that loads (116 bytes are there and the magic
is right) and has a free inode, for a file of `s < 2 ^ 63` bytes, `blocks_needed` is
`⌈s / 4096⌉` and the Injector ends with FileTooLarge exactly when `blocks_needed > 12`,
that is when `s > 49152`; the image is then unchanged. -/
theorem file_too_large_gate (image file name : List Nat) (env : AdderEnv) (l : Loaded) (n : Int)
    (h1 : (adder_load image env).1 = .ok l)
    (h2 : find_free_inode l.inode_bitmap (sb_inode_count l.superblock) = some n)
    (h3 : n ≠ -1) (hs : file.length < 2 ^ 63) :
    blocks_needed file = ⌈(file.length : ℚ) / 4096⌉₊ ∧
    ((adder_main image file name env).1 = .file_too_large ↔ 12 < blocks_needed file) ∧
    (12 < blocks_needed file ↔ 49152 < file.length) ∧
    ((adder_main image file name env).1 = .file_too_large →
      (adder_main image file name env).2 = image) := by
  have hb := blocks_needed_eq file hs
  have hiff : (adder_main image file name env).1 = .file_too_large ↔ 12 < blocks_needed file := by
    constructor
    · intro h
      by_contra h4
      have h4' : ¬ blocks_needed file > DIRECT_MAX := h4
      cases h5 : alloc_loop (sb_data_region_blocks l.superblock) (blocks_needed file) 0
          l.data_bitmap (List.replicate DIRECT_MAX 0) with
      | error e =>
        rw [adder_main_error image file name env e
          (prepare_alloc_error image file env l n e h1 h2 h3 h4' h5)] at h
        rcases alloc_loop_error _ _ _ _ _ _ h5 with c | c <;> rw [c] at h <;> cases h
      | ok r =>
        obtain ⟨db, blks⟩ := r
        cases h6 : find_free_entry
            (adder_load_root l.superblock env (adder_load image env).2).1.root_entries with
        | none =>
          rw [adder_main_error image file name env _
            (prepare_directory_full image file env l n db blks h1 h2 h3 h4' h5 h6)] at h
          cases h
        | some k =>
          rw [adder_main_ok image file name env _
            (prepare_ok image file env l n db blks k h1 h2 h3 h4' h5 h6)] at h
          rcases adder_commit_outcome _ file name env (adder_prepare image file env).2 with c | c
          · rw [c] at h; cases h
          · rw [c] at h; cases h
    · intro h4
      rw [adder_main_error image file name env _
        (prepare_file_too_large image file env l n h1 h2 h3 h4)]
  refine ⟨?_, hiff, ?_, fun h => ?_⟩
  · rw [hb, ceil_div_BS]
  · rw [hb]; omega
  · rw [adder_main_error image file name env _
      (prepare_file_too_large image file env l n h1 h2 h3 (hiff.mp h))]

theorem file_too_large_gate_witness :
    (adder_main sample_image (List.replicate 49153 0) [0x61] sample_env).1 = .file_too_large ∧
    (adder_main sample_image (List.replicate 49152 0) [0x61] sample_env).1 ≠ .file_too_large :=
  ⟨(file_too_large_gate sample_image (List.replicate 49153 0) [0x61] sample_env _ 2
      (sample_load sample_env) sample_free_inode (by decide)
      (by rw [List.length_replicate]; decide)).2.1.mpr
      (by rw [blocks_needed_eq _ (by rw [List.length_replicate]; decide), List.length_replicate]
          decide),
   fun h => absurd ((file_too_large_gate sample_image (List.replicate 49152 0) [0x61] sample_env
      _ 2
      (sample_load sample_env) sample_free_inode (by decide)
      (by rw [List.length_replicate]; decide)).2.1.mp h)
      (by rw [blocks_needed_eq _ (by rw [List.length_replicate]; decide), List.length_replicate]
          decide)⟩

/-! ### What the Injector checks on decode -/

set_option maxRecDepth 1000000 in
/-- C12, counterexample: in `sample_image` the root inode record stores checksum 0, which
is not the CRC32 of its first 120 bytes, and the superblock stores checksum 0; the Injector
does not fail on it: it adds the file as inode 2. -/
theorem checksums_not_verified :
    rd (slice sample_image 12288 128) 120 8 = 0 ∧
    crc32 ((slice sample_image 12288 128).take 120) ≠ 0 ∧
    (adder_main sample_image [0x41] [0x61] sample_env).1 = .success 2 :=
  ⟨by rw [sample_image_reads.2.2.1]; decide!, by rw [sample_image_reads.2.2.1]; decide!,
    sample_run_outcome⟩

/-- C12, amended: the Injector compares no checksum.  Its only check on decode is the
superblock magic: on an image of at least 116 bytes it ends with InvalidImage exactly when
the magic field differs from `0x4D565346`, and the image is then unchanged; on a shorter
image it ends with an I/O error. -/
theorem decode_checks_magic_only (image file name : List Nat) (env : AdderEnv)
    (h : 116 ≤ image.length) :
    ((adder_main image file name env).1 = .invalid_magic ↔
      rd (image.take 116) 0 4 ≠ 0x4D565346) ∧
    ((adder_main image file name env).1 = .invalid_magic →
      (adder_main image file name env).2 = image) ∧
    (adder_main image file name env).1 ≠ .io_error := by
  have hlen : (fread_bytes ⟨image, 0⟩ 116).length = 116 :=
    (length_fread_bytes_superblock image).mpr h
  have hback : rd (image.take 116) 0 4 ≠ 0x4D565346 →
      adder_main image file name env = (.invalid_magic, image) := by
    intro hm
    exact adder_main_error image file name env _
      (prepare_load_error image file env _ (adder_load_bad_magic image env hlen hm))
  have hcases : ∀ o, (adder_main image file name env).1 = o →
      (o = .invalid_magic ∧ rd (image.take 116) 0 4 ≠ 0x4D565346) ∨
      (o ≠ .invalid_magic ∧ o ≠ .io_error) := by
    intro o ho
    cases hp : (adder_prepare image file env).1 with
    | error e =>
      rw [adder_main_error image file name env e hp] at ho
      have ho' : e = o := ho
      subst ho'
      rcases prepare_error_cases image file env e hp with h1 | ⟨l, _, h1⟩
      · rcases adder_load_error_inv image env e h1 with ⟨_, c⟩ | ⟨c1, _, c2⟩
        · omega
        · exact Or.inl ⟨c1, c2⟩
      · right
        rcases h1 with ⟨_, c⟩ | ⟨_, c⟩ | ⟨_, c⟩ | c | ⟨_, c⟩
        · rw [c]; simp
        · rw [c]; simp
        · rw [c]; simp
        · rcases alloc_loop_error _ _ _ _ _ _ c with d | d <;> rw [d] <;> simp
        · rw [c]; simp
    | ok p =>
      rw [adder_main_ok image file name env p hp] at ho
      right
      rcases adder_commit_outcome p file name env (adder_prepare image file env).2 with c | c
      · rw [c] at ho; rw [← ho]; simp
      · rw [c] at ho; rw [← ho]; simp
  refine ⟨⟨fun hm => ?_, fun hm => by rw [hback hm]⟩, fun hm => ?_, fun hm => ?_⟩
  · rcases hcases _ hm with ⟨_, c⟩ | ⟨c, _⟩
    · exact c
    · exact absurd rfl c
  · rcases hcases _ hm with ⟨_, c⟩ | ⟨c, _⟩
    · rw [hback c]
    · exact absurd rfl c
  · rcases hcases _ hm with ⟨c, _⟩ | ⟨_, c⟩
    · cases c
    · exact absurd rfl c

theorem decode_checks_magic_only_witness :
    (adder_main (List.replicate 116 0) [0x41] [0x61] sample_env).1 = .invalid_magic ∧
    (adder_main (List.replicate 116 0) [0x41] [0x61] sample_env).2 = List.replicate 116 0 :=
  ⟨(decode_checks_magic_only (List.replicate 116 0) [0x41] [0x61] sample_env
      (by rw [List.length_replicate])).1.mpr (by decide),
   (decode_checks_magic_only (List.replicate 116 0) [0x41] [0x61] sample_env
      (by rw [List.length_replicate])).2.1
      ((decode_checks_magic_only (List.replicate 116 0) [0x41] [0x61] sample_env
        (by rw [List.length_replicate])).1.mpr (by decide))⟩

/-! ### The plan of a run that passed every check -/

theorem find_free_entry_some (entries : List Nat) (k : Nat) (h : find_free_entry entries = some k) :
    k < 64 ∧ rd entries (64 * k) 4 = 0 ∧ ∀ i, i < k → rd entries (64 * i) 4 ≠ 0 := by
  unfold find_free_entry at h
  rw [List.range_eq_range'] at h
  obtain ⟨_, h2, h3, h4⟩ := find_range_some _ 0 (BS / 64) k h
  refine ⟨by unfold BS at h2; omega, by simpa using h3, fun i hi => ?_⟩
  have := h4 i (Nat.zero_le _) hi
  simpa using this

theorem find_free_entry_none (entries : List Nat) (h : find_free_entry entries = none) :
    ∀ i, i < 64 → rd entries (64 * i) 4 ≠ 0 := by
  unfold find_free_entry at h
  rw [List.find?_eq_none] at h
  intro i hi
  have := h i (List.mem_range.mpr (by unfold BS; omega))
  simpa using this

theorem root_dir_lengths (sb : List Nat) (env : AdderEnv) (fp : FILE) :
    (adder_load_root sb env fp).1.root_inode.length = 128 ∧
    (adder_load_root sb env fp).1.root_entries.length = 4096 ∧
    (adder_load_root sb env fp).1.root_off
      = data_off sb (rd (adder_load_root sb env fp).1.root_inode 44 4) := by
  unfold adder_load_root
  dsimp only
  refine ⟨?_, ?_, rfl⟩
  · rw [length_fread_object]; rfl
  · rw [length_fread_object]; rfl

/-- The shape of the values `main` holds after the last check. -/
theorem prepare_shape (image file : List Nat) (env : AdderEnv) (p : Plan)
    (h : (adder_prepare image file env).1 = .ok p) :
    p.superblock = image.take 116 ∧ p.superblock.length = 116 ∧
    p.inode_bitmap.length = 4096 ∧ p.data_bitmap.length = 4096 ∧
    p.root_inode.length = 128 ∧ p.root_entries.length = 4096 ∧
    p.free_entry < 64 ∧ p.blocks_needed = blocks_needed file ∧ p.blocks_needed ≤ 12 ∧
    p.data_blocks.length = 12 ∧ p.file_size = u64 file.length ∧
    p.root_off = data_off p.superblock (rd p.root_inode 44 4) ∧
    (∃ k : Nat, p.free_inode = (k : Int) + 1 ∧ k / 8 < 4096 ∧ bit_set p.inode_bitmap k = false) ∧
    (∀ t, t < p.blocks_needed → p.data_blocks.getD t 0 < 32768) := by
  obtain ⟨l, n, db, blks, k, hl, h2, h3, h4, h5, h6, hp⟩ := prepare_ok_inv image file env p h
  obtain ⟨l1, l2, l3, l4⟩ := loaded_lengths image env l hl
  obtain ⟨r1, r2, r3⟩ := root_dir_lengths l.superblock env (adder_load image env).2
  have hbn : blocks_needed file ≤ 12 := by unfold DIRECT_MAX at h4; omega
  have hrep : 0 + blocks_needed file ≤ (List.replicate DIRECT_MAX 0).length := by
    rw [List.length_replicate]; unfold DIRECT_MAX; omega
  have hbm : l.data_bitmap.length ≤ 2 ^ 27 := by rw [l4]; norm_num
  obtain ⟨a1, a2, _, a4, _, _, _⟩ := alloc_loop_ok (sb_data_region_blocks l.superblock)
    (blocks_needed file) 0 l.data_bitmap (List.replicate DIRECT_MAX 0) db blks hbm hrep h5
  have hn : ∃ j : Nat, n = (j : Int) + 1 ∧ j / 8 < 4096 ∧ bit_set l.inode_bitmap j = false := by
    rcases find_free_inode_found _ _ n (by rw [l3]; norm_num) h2 with c | ⟨j, c1, c2, c3, _⟩
    · exact absurd c h3
    · exact ⟨j, c1, by rw [l3] at c2; exact c2, c3⟩
  have e1 : p.superblock = l.superblock := by rw [hp]
  have e2 : p.inode_bitmap = l.inode_bitmap := by rw [hp]
  have e3 : p.data_bitmap = db := by rw [hp]
  have e4 : p.root_inode
      = (adder_load_root l.superblock env (adder_load image env).2).1.root_inode := by rw [hp]
  have e5 : p.root_entries
      = (adder_load_root l.superblock env (adder_load image env).2).1.root_entries := by rw [hp]
  have e6 : p.root_off
      = (adder_load_root l.superblock env (adder_load image env).2).1.root_off := by rw [hp]
  have e7 : p.free_entry = k := by rw [hp]
  have e8 : p.blocks_needed = blocks_needed file := by rw [hp]
  have e9 : p.data_blocks = blks := by rw [hp]
  have e10 : p.file_size = u64 file.length := by rw [hp]
  have e11 : p.free_inode = n := by rw [hp]
  refine ⟨by rw [e1, l1], by rw [e1, l2], by rw [e2, l3], by rw [e3, a1, l4], by rw [e4, r1],
    by rw [e5, r2], by rw [e7]; exact (find_free_entry_some _ _ h6).1, e8, by rw [e8]; exact hbn,
    by rw [e9, a2, List.length_replicate]; rfl, e10, by rw [e6, e1, e4, r3], ?_, fun t ht => ?_⟩
  · rw [e11, e2]; exact hn
  · have := (a4 t (Nat.zero_le _) (by rw [e8] at ht; omega)).1
    rw [l4] at this
    rw [e9]
    omega

/-! ### The writes of a run, on the bytes of the file -/

theorem getD_commit_inode (p : Plan) (env : AdderEnv) (fp : FILE) (i : Nat)
    (hA : inode_off p.superblock p.free_inode < 2 ^ 63) :
    (commit_inode p env fp).data.getD i 0 =
      if inode_off p.superblock p.free_inode ≤ i ∧
          i < inode_off p.superblock p.free_inode + (new_inode_record p env.now).length
      then (new_inode_record p env.now).getD (i - inode_off p.superblock p.free_inode) 0
      else fp.data.getD i 0 := by
  unfold commit_inode
  exact getD_fwrite_fseek fp _ _ i hA

theorem getD_commit_bitmaps (p : Plan) (k : Nat) (fp : FILE) (i : Nat)
    (hB : u64 (sb_inode_bitmap_start p.superblock * BS) < 2 ^ 63)
    (hC : u64 (sb_data_bitmap_start p.superblock * BS) < 2 ^ 63) :
    (commit_bitmaps p k fp).data.getD i 0 =
      if u64 (sb_data_bitmap_start p.superblock * BS) ≤ i ∧
          i < u64 (sb_data_bitmap_start p.superblock * BS) + p.data_bitmap.length
      then p.data_bitmap.getD (i - u64 (sb_data_bitmap_start p.superblock * BS)) 0
      else if u64 (sb_inode_bitmap_start p.superblock * BS) ≤ i ∧
          i < u64 (sb_inode_bitmap_start p.superblock * BS) + (set_bit p.inode_bitmap k).length
      then (set_bit p.inode_bitmap k).getD (i - u64 (sb_inode_bitmap_start p.superblock * BS)) 0
      else fp.data.getD i 0 := by
  unfold commit_bitmaps
  dsimp only
  rw [getD_fwrite_fseek _ _ _ i hC, getD_fwrite_fseek _ _ _ i hB]

theorem getD_commit_metadata (p : Plan) (name : List Nat) (env : AdderEnv) (fp : FILE) (i : Nat)
    (hR : p.root_off < 2 ^ 63) (hI : inode_off p.superblock ROOT_INO < 2 ^ 63) :
    (commit_metadata p name env fp).data.getD i 0 =
      if 0 ≤ i ∧ i < 0 + (new_superblock p.superblock env).length
      then (new_superblock p.superblock env).getD (i - 0) 0
      else if inode_off p.superblock ROOT_INO ≤ i ∧
          i < inode_off p.superblock ROOT_INO + (new_root_inode p.root_inode env.now).length
      then (new_root_inode p.root_inode env.now).getD (i - inode_off p.superblock ROOT_INO) 0
      else if p.root_off ≤ i ∧ i < p.root_off + (new_root_entries p name).length
      then (new_root_entries p name).getD (i - p.root_off) 0
      else fp.data.getD i 0 := by
  unfold commit_metadata
  dsimp only
  rw [getD_fwrite_fseek _ _ _ i (by norm_num), getD_fwrite_fseek _ _ _ i hI,
    getD_fwrite_fseek _ _ _ i hR]

theorem length_commit_inode_le (p : Plan) (env : AdderEnv) (fp : FILE) :
    fp.data.length ≤ (commit_inode p env fp).data.length := by
  unfold commit_inode
  have := length_fwrite_le (fseek fp (inode_off p.superblock p.free_inode))
    (new_inode_record p env.now)
  rw [fseek_data] at this
  exact this

theorem length_fwrite_fseek_le (fp : FILE) (off : Nat) (bs : List Nat) :
    fp.data.length ≤ (fwrite (fseek fp off) bs).data.length := by
  have := length_fwrite_le (fseek fp off) bs
  rw [fseek_data] at this
  exact this

theorem length_commit_bitmaps (p : Plan) (k : Nat) (fp : FILE)
    (hB : u64 (sb_inode_bitmap_start p.superblock * BS) < 2 ^ 63)
    (hC : u64 (sb_data_bitmap_start p.superblock * BS) < 2 ^ 63)
    (h1 : p.inode_bitmap.length = 4096) (h2 : p.data_bitmap.length = 4096) :
    (commit_bitmaps p k fp).data.length =
      max (max fp.data.length (u64 (sb_inode_bitmap_start p.superblock * BS) + 4096))
        (u64 (sb_data_bitmap_start p.superblock * BS) + 4096) := by
  unfold commit_bitmaps
  dsimp only
  rw [length_fwrite_fseek _ _ _ hC (by rw [h2]; norm_num),
    length_fwrite_fseek _ _ _ hB (by rw [length_set_bit, h1]; norm_num), length_set_bit, h1, h2]

theorem length_commit_metadata_le (p : Plan) (name : List Nat) (env : AdderEnv) (fp : FILE) :
    fp.data.length ≤ (commit_metadata p name env fp).data.length := by
  unfold commit_metadata
  dsimp only
  exact le_trans (le_trans (length_fwrite_fseek_le _ _ _) (length_fwrite_fseek_le _ _ _))
    (length_fwrite_fseek_le _ _ _)

/-! ### The records a run writes -/

theorem patch_eq_pwrite (buf : List Nat) (off : Nat) (bytes : List Nat) (h : off ≤ buf.length) :
    patch buf off bytes = pwrite buf off bytes := by
  unfold patch pwrite
  congr 1
  apply list_ext_getD
  · rw [List.length_take, length_take_pad]; omega
  · intro i hi
    rw [List.length_take] at hi
    rw [getD_take _ _ _ (by omega), getD_take_pad, if_pos (by omega)]

theorem getD_patch (buf : List Nat) (off : Nat) (bytes : List Nat) (i : Nat)
    (h : off ≤ buf.length) :
    (patch buf off bytes).getD i 0 =
      if off ≤ i ∧ i < off + bytes.length then bytes.getD (i - off) 0 else buf.getD i 0 := by
  rw [patch_eq_pwrite _ _ _ h, getD_pwrite]

theorem length_new_inode_record (p : Plan) (now : Nat) : (new_inode_record p now).length = 128 :=
  length_inode_crc_finalize _ (length_inode_bytes _)

theorem length_new_root_inode (root_inode : List Nat) (now : Nat) (h : root_inode.length = 128) :
    (new_root_inode root_inode now).length = 128 := by
  unfold new_root_inode
  dsimp only
  apply length_inode_crc_finalize
  rw [length_patch _ _ _ (by
    rw [length_le_bytes, length_patch _ _ _ (by rw [length_le_bytes, h]; norm_num), h]
    norm_num), length_patch _ _ _ (by rw [length_le_bytes, h]; norm_num), h]

theorem length_new_superblock (superblock : List Nat) (env : AdderEnv)
    (h : superblock.length = 116) : (new_superblock superblock env).length = 116 := by
  unfold new_superblock
  apply length_superblock_crc_finalize
  rw [length_patch _ _ _ (by rw [length_le_bytes, h]; norm_num), h]

theorem length_dirent_checksum_finalize (de : List Nat) (h : de.length = 64) :
    (dirent_checksum_finalize de).length = 64 := by
  rw [dirent_checksum_finalize_eq de h, List.length_append, List.length_take, h]
  rfl

theorem length_new_dirent (old : List Nat) (n : Int) (name : List Nat) (h : old.length = 64) :
    (new_dirent old n name).length = 64 := by
  unfold new_dirent
  dsimp only
  have h1 : (patch old 0 (le_bytes 4 (int_to_u32 n))).length = 64 := by
    rw [length_patch _ _ _ (by rw [length_le_bytes, h]; norm_num), h]
  have h2 : (patch (patch old 0 (le_bytes 4 (int_to_u32 n))) 4 [1]).length = 64 := by
    rw [length_patch _ _ _ (by rw [h1]; decide), h1]
  have h3 : (patch (patch (patch old 0 (le_bytes 4 (int_to_u32 n))) 4 [1]) 5
      (take_pad 57 (c_string name))).length = 64 := by
    rw [length_patch _ _ _ (by rw [length_take_pad, h2]; norm_num), h2]
  apply length_dirent_checksum_finalize
  rw [length_patch _ _ _ (by rw [h3]; decide), h3]

theorem length_new_root_entries (p : Plan) (name : List Nat) (h1 : p.root_entries.length = 4096)
    (h2 : p.free_entry < 64) : (new_root_entries p name).length = 4096 := by
  unfold new_root_entries
  have hl : (new_dirent (slice p.root_entries (64 * p.free_entry) 64) p.free_inode name).length
      = 64 := length_new_dirent _ _ _ (length_slice _ _ _ (by omega))
  rw [length_patch _ _ _ (by rw [hl]; omega), h1]

/-- A run whose plan came out of the checks succeeds, and the image file afterwards is the
result of the writes. -/
theorem adder_main_success (image file name : List Nat) (env : AdderEnv) (p : Plan)
    (hp : (adder_prepare image file env).1 = .ok p) :
    adder_main image file name env =
      (.success p.free_inode,
        (commit_metadata p name env
          (write_payload p.superblock p.data_blocks p.blocks_needed 0 file
            (commit_bitmaps p (p.free_inode - 1).toNat
              (commit_inode p env (adder_prepare image file env).2)))).data) := by
  obtain ⟨_, _, s3, _, _, _, _, _, _, _, _, _, ⟨k, k1, k2, _⟩, _⟩ :=
    prepare_shape image file env p hp
  rw [adder_main_ok image file name env p hp,
    adder_commit_success p file name env _ (by rw [k1]; omega) (by rw [k1, s3]; omega)]

theorem adder_main_success_inv (image file name : List Nat) (env : AdderEnv) (n : Int)
    (h : (adder_main image file name env).1 = .success n) :
    ∃ p, (adder_prepare image file env).1 = .ok p ∧ p.free_inode = n := by
  cases hp : (adder_prepare image file env).1 with
  | error e =>
    rw [adder_main_error image file name env e hp] at h
    have h' : e = .success n := h
    rcases prepare_error_cases image file env e hp with h1 | ⟨l, _, h1⟩
    · rcases adder_load_error_inv image env e h1 with ⟨c, _⟩ | ⟨c, _⟩ <;> rw [c] at h' <;> cases h'
    · rcases h1 with ⟨_, c⟩ | ⟨_, c⟩ | ⟨_, c⟩ | c | ⟨_, c⟩
      · rw [c] at h'; cases h'
      · rw [c] at h'; cases h'
      · rw [c] at h'; cases h'
      · rcases alloc_loop_error _ _ _ _ _ _ c with d | d <;> rw [d] at h' <;> cases h'
      · rw [c] at h'; cases h'
  | ok p =>
    rw [adder_main_success image file name env p hp] at h
    injection h with h
    exact ⟨p, rfl, h⟩

/-! ### The new directory entry -/

theorem slice_patch_inner (buf : List Nat) (off : Nat) (bytes : List Nat) (a b : Nat)
    (h : off ≤ buf.length) (hab : a + b ≤ bytes.length) :
    slice (patch buf off bytes) (off + a) b = slice bytes a b := by
  unfold slice
  rw [← List.drop_drop, drop_patch _ _ _ h, List.drop_append_of_le_length (by omega),
    List.take_append_of_le_length (by rw [List.length_drop]; omega)]

theorem slice_patch_outside (buf : List Nat) (off : Nat) (bytes : List Nat) (o n : Nat)
    (h : off + bytes.length ≤ buf.length) (ho : o + n ≤ off ∨ off + bytes.length ≤ o)
    (hn : o + n ≤ buf.length) :
    slice (patch buf off bytes) o n = slice buf o n := by
  apply slice_eq_of_getD
  · rw [length_patch _ _ _ h]; exact hn
  · exact hn
  · intro i hi
    rw [getD_patch _ _ _ _ (by omega), if_neg (by omega)]

theorem getD_take_eq (l : List Nat) (n i : Nat) :
    (l.take n).getD i 0 = if i < n then l.getD i 0 else 0 := by
  by_cases h : i < n
  · rw [if_pos h, getD_take _ _ _ h]
  · rw [if_neg h, getD_of_length_le _ _ (by rw [List.length_take]; omega)]

/-- The bytes of the entry built in place, before the checksum byte. -/
theorem getD_new_dirent (old : List Nat) (n : Int) (name : List Nat) (i : Nat)
    (h : old.length = 64) (hi : i < 63) :
    (new_dirent old n name).getD i 0 =
      if i < 4 then (le_bytes 4 (int_to_u32 n)).getD i 0
      else if i = 4 then 1
      else if i < 62 then (c_string name).getD (i - 5) 0
      else 0 := by
  unfold new_dirent
  dsimp only
  have h1 : (patch old 0 (le_bytes 4 (int_to_u32 n))).length = 64 := by
    rw [length_patch _ _ _ (by rw [length_le_bytes, h]; norm_num), h]
  have h2 : (patch (patch old 0 (le_bytes 4 (int_to_u32 n))) 4 [1]).length = 64 := by
    rw [length_patch _ _ _ (by rw [h1]; decide), h1]
  have h3 : (patch (patch (patch old 0 (le_bytes 4 (int_to_u32 n))) 4 [1]) 5
      (take_pad 57 (c_string name))).length = 64 := by
    rw [length_patch _ _ _ (by rw [length_take_pad, h2]; norm_num), h2]
  have h4 : (patch (patch (patch (patch old 0 (le_bytes 4 (int_to_u32 n))) 4 [1]) 5
      (take_pad 57 (c_string name))) 62 [0]).length = 64 := by
    rw [length_patch _ _ _ (by rw [h3]; decide), h3]
  rw [dirent_checksum_finalize_eq _ h4, getD_append_left _ _ _ (by
    rw [List.length_take, h4]; omega), getD_take _ _ _ hi,
    getD_patch _ _ _ _ (by omega), getD_patch _ _ _ _ (by omega),
    getD_patch _ _ _ _ (by omega), getD_patch _ _ _ _ (by omega), length_take_pad,
    length_le_bytes, getD_take_pad]
  simp only [List.length_singleton]
  by_cases c1 : i < 4
  · rw [if_neg (by omega), if_neg (by omega), if_neg (by omega), if_pos ⟨by omega, by omega⟩,
      if_pos c1]
    congr 1
  · rw [if_neg c1]
    by_cases c2 : i = 4
    · subst c2
      simp
    · rw [if_neg c2]
      by_cases c3 : i < 62
      · rw [if_neg (by omega), if_pos ⟨by omega, by omega⟩, if_pos (by omega), if_pos c3]
      · rw [if_pos ⟨by omega, by omega⟩, if_neg c3]
        have : i - 62 = 0 := by omega
        rw [this]
        rfl

theorem new_dirent_checksum (old : List Nat) (n : Int) (name : List Nat) (h : old.length = 64) :
    (new_dirent old n name).getD 63 0 = xor8 ((new_dirent old n name).take 63) := by
  unfold new_dirent
  dsimp only
  have h1 : (patch old 0 (le_bytes 4 (int_to_u32 n))).length = 64 := by
    rw [length_patch _ _ _ (by rw [length_le_bytes, h]; norm_num), h]
  have h2 : (patch (patch old 0 (le_bytes 4 (int_to_u32 n))) 4 [1]).length = 64 := by
    rw [length_patch _ _ _ (by rw [h1]; decide), h1]
  have h3 : (patch (patch (patch old 0 (le_bytes 4 (int_to_u32 n))) 4 [1]) 5
      (take_pad 57 (c_string name))).length = 64 := by
    rw [length_patch _ _ _ (by rw [length_take_pad, h2]; norm_num), h2]
  have h4 : (patch (patch (patch (patch old 0 (le_bytes 4 (int_to_u32 n))) 4 [1]) 5
      (take_pad 57 (c_string name))) 62 [0]).length = 64 := by
    rw [length_patch _ _ _ (by rw [h3]; decide), h3]
  have hl : (List.take 63 (patch (patch (patch (patch old 0 (le_bytes 4 (int_to_u32 n))) 4 [1]) 5
      (take_pad 57 (c_string name))) 62 [0])).length = 63 := by
    rw [List.length_take, h4]; rfl
  rw [dirent_checksum_finalize_eq _ h4, List.take_left' hl,
    getD_append_right _ _ 63 0 (by rw [hl])]
  rfl

/-- The fields of the new entry: inode number, type 1, the name cut to 57 characters and
zero-filled to 58 bytes, and the XOR of bytes 0..62 in byte 63. -/
theorem new_dirent_fields (old : List Nat) (n : Int) (name : List Nat) (h : old.length = 64) :
    rd (new_dirent old n name) 0 4 = int_to_u32 n ∧
    rd (new_dirent old n name) 4 1 = 1 ∧
    slice (new_dirent old n name) 5 58 = take_pad 58 ((c_string name).take 57) ∧
    rd (new_dirent old n name) 63 1 = xor8 (slice (new_dirent old n name) 0 63) := by
  have hl := length_new_dirent old n name h
  have hg := getD_new_dirent old n name
  refine ⟨?_, ?_, ?_, ?_⟩
  · have e : slice (new_dirent old n name) 0 4 = le_bytes 4 (int_to_u32 n) := by
      apply list_ext_getD
      · rw [length_slice _ _ _ (by omega), length_le_bytes]
      · intro i hi
        rw [length_slice _ _ _ (by omega)] at hi
        rw [getD_slice _ _ _ _ hi, Nat.zero_add, hg i h (by omega), if_pos hi]
    unfold rd
    rw [e, le_val_le_bytes]
    apply Nat.mod_eq_of_lt
    unfold int_to_u32
    have : (n % 2 ^ 32) < 2 ^ 32 := Int.emod_lt_of_pos _ (by norm_num)
    have h0 : 0 ≤ n % 2 ^ 32 := Int.emod_nonneg _ (by norm_num)
    omega
  · have e : slice (new_dirent old n name) 4 1 = [1] := by
      apply list_ext_getD
      · rw [length_slice _ _ _ (by omega)]; rfl
      · intro i hi
        rw [length_slice _ _ _ (by omega)] at hi
        have : i = 0 := by omega
        subst this
        rw [getD_slice _ _ _ _ hi, hg 4 h (by omega)]
        rfl
    unfold rd
    rw [e]
    rfl
  · apply list_ext_getD
    · rw [length_slice _ _ _ (by omega), length_take_pad]
    · intro i hi
      rw [length_slice _ _ _ (by omega)] at hi
      rw [getD_slice _ _ _ _ hi, getD_take_pad, if_pos hi, getD_take_eq]
      by_cases c : i < 57
      · rw [hg (5 + i) h (by omega), if_neg (by omega), if_neg (by omega), if_pos (by omega),
          if_pos c]
        congr 1
        omega
      · rw [hg (5 + i) h (by omega), if_neg (by omega), if_neg (by omega), if_neg (by omega),
          if_neg c]
  · have e : slice (new_dirent old n name) 63 1 = [(new_dirent old n name).getD 63 0] := by
      apply list_ext_getD
      · rw [length_slice _ _ _ (by omega)]; rfl
      · intro i hi
        rw [length_slice _ _ _ (by omega)] at hi
        have : i = 0 := by omega
        subst this
        rw [getD_slice _ _ _ _ hi]
        rfl
    have e2 : slice (new_dirent old n name) 0 63 = (new_dirent old n name).take 63 := rfl
    unfold rd
    rw [e, e2, new_dirent_checksum old n name h]
    show xor8 _ + 256 * 0 = _
    omega

/-! ### Linking into the root directory -/

theorem int_to_u32_small (k : Nat) (h : k < 2 ^ 32) : int_to_u32 (k : Int) = k := by
  unfold int_to_u32
  have : ((k : Int) % 2 ^ 32) = (k : Int) := Int.emod_eq_of_lt (by omega) (by omega)
  rw [this]
  rfl

/-- C16: linking into the root directory.  When no earlier check ends the run (it ends
with DirectoryFull or succeeds), it ends with DirectoryFull exactly when all 64 slots of
the root directory block read from the image have a non-zero inode number.  Otherwise the
block written back has, in the lowest slot whose inode number was 0, the new inode number,
type 1, the name cut to 57 characters and zero-filled to the end of the 58-byte field, and
the XOR of the entry's bytes 0..62 in byte 63; the other 63 slots are as they were read. -/
theorem root_directory_linking (image file name : List Nat) (env : AdderEnv)
    (hg : (adder_main image file name env).1 = .directory_full ∨
      ∃ n, (adder_main image file name env).1 = .success n) :
    ((adder_main image file name env).1 = .directory_full ↔
      ∀ i, i < 64 →
        rd (adder_load_root (image.take 116) env (adder_load image env).2).1.root_entries
          (64 * i) 4 ≠ 0) ∧
    (∀ n, (adder_main image file name env).1 = .success n →
      ∃ p, (adder_prepare image file env).1 = .ok p ∧ p.free_inode = n ∧
        p.root_entries
          = (adder_load_root (image.take 116) env (adder_load image env).2).1.root_entries ∧
        p.free_entry < 64 ∧ rd p.root_entries (64 * p.free_entry) 4 = 0 ∧
        (∀ i, i < p.free_entry → rd p.root_entries (64 * i) 4 ≠ 0) ∧
        ((rd (new_root_entries p name) (64 * p.free_entry) 4 : Nat) : Int) = n ∧
        rd (new_root_entries p name) (64 * p.free_entry + 4) 1 = 1 ∧
        slice (new_root_entries p name) (64 * p.free_entry + 5) 58
          = take_pad 58 ((c_string name).take 57) ∧
        rd (new_root_entries p name) (64 * p.free_entry + 63) 1
          = xor8 (slice (new_root_entries p name) (64 * p.free_entry) 63) ∧
        (∀ i, i < 64 → i ≠ p.free_entry →
          slice (new_root_entries p name) (64 * i) 64 = slice p.root_entries (64 * i) 64) ∧
        (adder_main image file name env).2 =
          (fwrite (fseek (fwrite (fseek (fwrite (fseek
            (write_payload p.superblock p.data_blocks p.blocks_needed 0 file
              (commit_bitmaps p (p.free_inode - 1).toNat
                (commit_inode p env (adder_prepare image file env).2)))
            p.root_off) (new_root_entries p name))
            (inode_off p.superblock ROOT_INO)) (new_root_inode p.root_inode env.now))
            0) (new_superblock p.superblock env)).data) := by
  constructor
  · cases hp : (adder_prepare image file env).1 with
    | error e =>
      rw [adder_main_error image file name env e hp]
      show e = .directory_full ↔ _
      have hg' : e = .directory_full ∨ ∃ n, e = .success n := by
        rw [adder_main_error image file name env e hp] at hg
        exact hg
      rcases prepare_error_cases image file env e hp with h1 | ⟨l, hl, h1⟩
      · exfalso
        rcases adder_load_error_inv image env e h1 with ⟨c, _⟩ | ⟨c, _⟩ <;>
          (rw [c] at hg'; rcases hg' with d | ⟨_, d⟩ <;> cases d)
      · obtain ⟨l1, _, _, _⟩ := loaded_lengths image env l hl
        rcases h1 with ⟨_, c⟩ | ⟨_, c⟩ | ⟨_, c⟩ | c | ⟨c0, c⟩
        · exfalso; rw [c] at hg'; rcases hg' with d | ⟨_, d⟩ <;> cases d
        · exfalso; rw [c] at hg'; rcases hg' with d | ⟨_, d⟩ <;> cases d
        · exfalso; rw [c] at hg'; rcases hg' with d | ⟨_, d⟩ <;> cases d
        · exfalso
          rcases alloc_loop_error _ _ _ _ _ _ c with d | d <;>
            (rw [d] at hg'; rcases hg' with d | ⟨_, d⟩ <;> cases d)
        · rw [l1] at c0
          exact ⟨fun _ => find_free_entry_none _ c0, fun _ => c⟩
    | ok p =>
      rw [adder_main_success image file name env p hp]
      obtain ⟨l, n, db, blks, k, hl, _, _, _, _, h6, hpe⟩ := prepare_ok_inv image file env p hp
      obtain ⟨l1, _, _, _⟩ := loaded_lengths image env l hl
      rw [l1] at h6
      obtain ⟨k1, k2, _⟩ := find_free_entry_some _ _ h6
      constructor
      · intro h; cases h
      · intro h
        exact absurd k2 (h k k1)
  · intro n hn
    obtain ⟨p, hp, hpn⟩ := adder_main_success_inv image file name env n hn
    obtain ⟨l, n', db, blks, k, hl, _, _, _, _, h6, hpe⟩ := prepare_ok_inv image file env p hp
    obtain ⟨l1, _, _, _⟩ := loaded_lengths image env l hl
    obtain ⟨_, _, _, _, _, s6, s7, _, _, _, _, _, ⟨j, j1, j2, _⟩, _⟩ :=
      prepare_shape image file env p hp
    have e5 : p.root_entries
        = (adder_load_root (image.take 116) env (adder_load image env).2).1.root_entries := by
      rw [hpe, l1]
    have e7 : p.free_entry = k := by rw [hpe]
    rw [l1, ← e5, ← e7] at h6
    obtain ⟨k1, k2, k3⟩ := find_free_entry_some _ _ h6
    have hold : (slice p.root_entries (64 * p.free_entry) 64).length = 64 :=
      length_slice _ _ _ (by omega)
    obtain ⟨f1, f2, f3, f4⟩ := new_dirent_fields (slice p.root_entries (64 * p.free_entry) 64)
      p.free_inode name hold
    have hlen := length_new_dirent (slice p.root_entries (64 * p.free_entry) 64)
      p.free_inode name hold
    have hin : ∀ a b, a + b ≤ 64 → slice (new_root_entries p name) (64 * p.free_entry + a) b
        = slice (new_dirent (slice p.root_entries (64 * p.free_entry) 64) p.free_inode name)
          a b := by
      intro a b hab
      unfold new_root_entries
      exact slice_patch_inner _ _ _ a b (by omega) (by omega)
    refine ⟨p, hp, hpn, e5, k1, k2, k3, ?_, ?_, ?_, ?_, fun i hi hne => ?_, ?_⟩
    · have := hin 0 4 (by norm_num)
      rw [Nat.add_zero] at this
      unfold rd at f1 ⊢
      rw [this, f1, ← hpn, j1]
      have := int_to_u32_small (j + 1) (by omega)
      push_cast at this
      rw [this]
      push_cast
      rfl
    · unfold rd at f2 ⊢
      rw [hin 4 1 (by norm_num), f2]
    · rw [hin 5 58 (by norm_num), f3]
    · have := hin 0 63 (by norm_num)
      rw [Nat.add_zero] at this
      unfold rd at f4 ⊢
      rw [hin 63 1 (by norm_num), this, f4]
    · unfold new_root_entries
      apply slice_patch_outside
      · rw [hlen]; omega
      · rw [hlen]; omega
      · omega
    · rw [adder_main_success image file name env p hp]
      rfl

theorem root_directory_linking_witness :
    (adder_main sample_image [0x41] [0x61] sample_env).1 = .success 2 ∧
    ∃ p, (adder_prepare sample_image [0x41] sample_env).1 = .ok p ∧ p.free_inode = 2 ∧
      rd (new_root_entries p [0x61]) (64 * p.free_entry + 4) 1 = 1 ∧
      slice (new_root_entries p [0x61]) (64 * p.free_entry + 5) 58
        = take_pad 58 ((c_string [0x61]).take 57) := by
  obtain ⟨p, h1, h2, _, _, _, _, _, h8, h9, _⟩ :=
    (root_directory_linking sample_image [0x41] [0x61] sample_env
      (Or.inr ⟨2, sample_run_outcome⟩)).2 2 sample_run_outcome
  exact ⟨sample_run_outcome, p, h1, h2, h8, h9⟩

/-! ### Scenario B on the Builder's image -/

theorem fresh_image_eq :
    builder_main 1024 128 ⟨0, 0, 0, 0, fun _ => 0⟩ = some fresh_image := by
  unfold fresh_image
  rw [builder_main_eq 1024 128 _ validArgs_1024_128]
  rfl

theorem slice_zeros (a : List Nat) (off n : Nat) (hlen : off + n ≤ a.length)
    (h : ∀ i, i < n → a.getD (off + i) 0 = 0) : slice a off n = List.replicate n 0 := by
  refine list_ext_getD _ _ (by rw [length_slice a off n hlen, List.length_replicate]) ?_
  intro i hi
  rw [length_slice a off n hlen] at hi
  rw [getD_slice a off n i hi, h i hi, getD_replicate_zero]

theorem getD_flatten_zeros (m n i : Nat) :
    (List.flatten (List.replicate m (List.replicate n 0))).getD i 0 = 0 := by
  rw [List.getD_eq_getElem?_getD]
  cases h : (List.flatten (List.replicate m (List.replicate n 0)))[i]? with
  | none => rfl
  | some x =>
    have hx := List.getElem?_mem h
    rw [List.mem_flatten] at hx
    obtain ⟨l, hl, hxl⟩ := hx
    rw [List.eq_of_mem_replicate hl] at hxl
    rw [List.eq_of_mem_replicate hxl]
    rfl

theorem getD_builder_inode_table (root : List Nat) (n j : Nat) (hroot : root.length = 128)
    (h1 : 128 ≤ j) (h2 : j < 128 * n) : (builder_inode_table root n).getD j 0 = 0 := by
  have hlen : ∀ x ∈ (List.range n).map
      (fun i => if i = 0 then root else List.replicate INODE_SIZE 0), x.length = 128 := by
    intro x hx
    rw [List.mem_map] at hx
    obtain ⟨i, _, rfl⟩ := hx
    split
    · exact hroot
    · simp [INODE_SIZE]
  have hk : j / 128 < n := by omega
  have hs : slice (builder_inode_table root n) (128 * (j / 128)) 128
      = List.replicate 128 0 := by
    unfold builder_inode_table
    rw [slice_flatten_uniform _ 128 (j / 128) hlen (by simpa using hk)]
    rw [List.getD_eq_getElem?_getD, List.getElem?_map, List.getElem?_range hk]
    show (if j / 128 = 0 then root else List.replicate INODE_SIZE 0) = _
    rw [if_neg (by omega)]
    rfl
  have := getD_slice (builder_inode_table root n) (128 * (j / 128)) 128 (j % 128)
    (Nat.mod_lt _ (by norm_num))
  rw [hs, getD_replicate_zero, Nat.div_add_mod] at this
  exact this.symm

theorem getD_builder_data_block (j : Nat) (h : 128 ≤ j) : builder_data_block.getD j 0 = 0 := by
  by_cases hj : j < 4096
  · have := getD_slice builder_data_block 128 3968 (j - 128) (by omega)
    rw [builder_data_block_rest, getD_replicate_zero] at this
    rw [show 128 + (j - 128) = j by omega] at this
    exact this.symm
  · exact getD_of_length_le _ _ (by rw [length_builder_data_block]; omega)

/-- The image the Builder writes is zero outside the superblock record, the first byte of
each bitmap, the root inode record and the two entries of the root directory. -/
theorem builder_image_zeros (size_kib inode_count : Nat) (env : BuilderEnv)
    (h : ValidArgs size_kib inode_count) (img : List Nat)
    (himg : builder_main size_kib inode_count env = some img) (i : Nat)
    (h1 : 116 < i) (h2 : i ≠ 4212) (h3 : ¬ (8308 ≤ i ∧ i < 8436))
    (h4 : ¬ (8308 + 128 * inode_count ≤ i ∧ i < 8436 + 128 * inode_count)) :
    img.getD i 0 = 0 := by
  rw [builder_main_eq size_kib inode_count env h] at himg
  have himg := Option.some.inj himg
  rw [← himg]
  have lrec := length_builder_sb_record size_kib inode_count env
  have lbm := length_builder_bitmap
  have ldm : builder_data_bitmap.length = 4096 := length_builder_bitmap
  have ltab := length_builder_inode_table (builder_root_record size_kib inode_count env)
    inode_count (length_builder_root_record size_kib inode_count env)
  have lblk := length_builder_data_block
  rw [getD_append_right _ _ i (i - 116) (by omega)]
  by_cases c1 : i < 4212
  · rw [getD_append_left _ _ _ (by omega), builder_bitmap_getD, if_neg (by omega)]
  · rw [getD_append_right _ _ (i - 116) (i - 4212) (by omega)]
    by_cases c2 : i < 8308
    · rw [getD_append_left _ _ _ (by omega)]
      show builder_inode_bitmap.getD (i - 4212) 0 = 0
      rw [builder_bitmap_getD, if_neg (by omega)]
    · rw [getD_append_right _ _ (i - 4212) (i - 8308) (by omega)]
      by_cases c3 : i < 8308 + 128 * inode_count
      · rw [getD_append_left _ _ _ (by omega)]
        exact getD_builder_inode_table _ _ _
          (length_builder_root_record size_kib inode_count env) (by omega) (by omega)
      · rw [getD_append_right _ _ (i - 8308) (i - 8308 - 128 * inode_count) (by omega)]
        by_cases c4 : i < 8308 + 128 * inode_count + 4096
        · rw [getD_append_left _ _ _ (by omega)]
          exact getD_builder_data_block _ (by omega)
        · rw [getD_append_right _ _ _ (i - 8308 - 128 * inode_count - 4096) (by omega)]
          exact getD_flatten_zeros _ _ _

theorem alloc_two_from_zero (drb : Nat) (bm : List Nat) (hcap : 1 ≤ u64 (drb + 7) / 8)
    (hlen : 0 < bm.length) (hb : bm.getD 0 0 = 0) :
    alloc_loop drb 2 0 bm (List.replicate 12 0)
      = .ok (set_bit (set_bit bm 0) 1, [0, 1, 0, 0, 0, 0, 0, 0, 0, 0, 0, 0]) := by
  obtain ⟨left, hl⟩ : ∃ left, u64 (drb + 7) / 8 = left + 1 := ⟨u64 (drb + 7) / 8 - 1, by omega⟩
  have f1 : find_free_data_block bm drb = some ((0 : Nat) : Int) :=
    find_free_data_block_byte0 bm drb left 0 0 hl hlen hb (by decide) (by decide)
  have hb1 : (set_bit bm 0).getD 0 0 = 1 := by
    unfold set_bit
    rw [getD_set, if_pos ⟨rfl, hlen⟩, hb]
    rfl
  have f2 : find_free_data_block (set_bit bm 0) drb = some ((1 : Nat) : Int) :=
    find_free_data_block_byte0 (set_bit bm 0) drb left 1 1 hl (by rw [length_set_bit]; exact hlen)
      hb1 (by decide) (by decide)
  rw [alloc_loop_succ drb 1 0 bm _ 0 f1 (by simpa using hlen),
    alloc_loop_succ drb 0 (0 + 1) (set_bit bm 0) _ 1 f2
      (by rw [length_set_bit]; simpa using hlen)]
  rfl

/-- The plan of a run that adds a file of two blocks to an image with the Builder's region
starts whose bytes at 4096, 8192 and 12332..12335 and whose first data block are zero. -/
theorem plan_on_zero_reads (image file : List Nat) (env : AdderEnv) (oR ic drb : Nat)
    (h116 : 116 ≤ image.length) (hlt : image.length < 2 ^ 63)
    (hm : rd (image.take 116) 0 4 = 0x4D565346)
    (hic : sb_inode_count (image.take 116) = ic)
    (hI : sb_inode_bitmap_start (image.take 116) = 1)
    (hD : sb_data_bitmap_start (image.take 116) = 2)
    (hT : sb_inode_table_start (image.take 116) = 3)
    (hR : sb_data_region_start (image.take 116) * 4096 = oR)
    (hdrb : sb_data_region_blocks (image.take 116) = drb)
    (hcapI : 1 ≤ u64 (ic + 7) / 8) (hcapD : 1 ≤ u64 (drb + 7) / 8)
    (b12 : 12416 ≤ image.length) (bE : oR + 4096 ≤ image.length)
    (z1 : image.getD 4096 0 = 0) (z2 : image.getD 8192 0 = 0)
    (z3 : ∀ i, i < 4 → image.getD (12332 + i) 0 = 0)
    (z4 : ∀ i, i < 4096 → image.getD (oR + i) 0 = 0)
    (hbn : blocks_needed file = 2) :
    (adder_prepare image file env).1 = .ok
      { superblock := image.take 116
        inode_bitmap := slice image 4096 4096
        data_bitmap := set_bit (set_bit (slice image 8192 4096) 0) 1
        free_inode := 1
        file_size := u64 file.length
        blocks_needed := 2
        data_blocks := [0, 1, 0, 0, 0, 0, 0, 0, 0, 0, 0, 0]
        root_inode := slice image 12288 128
        root_off := oR
        root_entries := List.replicate 4096 0
        free_entry := 0 } := by
  obtain ⟨left, hl⟩ : ∃ left, u64 (ic + 7) / 8 = left + 1 := ⟨u64 (ic + 7) / 8 - 1, by omega⟩
  have lI : (slice image 4096 4096).length = 4096 := length_slice _ _ _ (by omega)
  have lD : (slice image 8192 4096).length = 4096 := length_slice _ _ _ (by omega)
  have gI : (slice image 4096 4096).getD 0 0 = 0 := by
    rw [getD_slice _ _ _ 0 (by norm_num)]; exact z1
  have gD : (slice image 8192 4096).getD 0 0 = 0 := by
    rw [getD_slice _ _ _ 0 (by norm_num)]; exact z2
  have hE : slice image oR 4096 = List.replicate 4096 0 := slice_zeros image oR 4096 bE z4
  have hd : rd (slice image 12288 128) 44 4 = 0 := by
    have : slice (slice image 12288 128) 44 4 = List.replicate 4 0 := by
      refine slice_zeros _ 44 4 (by rw [length_slice _ _ _ (by omega)]; norm_num)
        (fun i hi => ?_)
      rw [getD_slice _ _ _ _ (by omega), show 12288 + (44 + i) = 12332 + i by omega]
      exact z3 i hi
    show le_val (slice (slice image 12288 128) 44 4) = 0
    rw [this]
    rfl
  have h := prepare_of_reads image file env 4096 8192 12288 oR 0 oR 1
    (set_bit (set_bit (slice image 8192 4096) 0) 1) [0, 1, 0, 0, 0, 0, 0, 0, 0, 0, 0, 0] 0
    h116 hm (by rw [hI]) (by rw [hD]) (by rw [hT]) hR (by norm_num) (by norm_num)
    (by norm_num) (by omega) (by omega) (by omega) (by omega)
    (by
      rw [hic]
      exact find_free_inode_byte0 _ ic left 0 0 hl (by rw [lI]; norm_num) gI (by decide)
        (by decide))
    (by decide) (by rw [hbn]; norm_num)
    (by
      rw [hdrb, hbn]
      exact alloc_two_from_zero drb _ hcapD (by rw [lD]; norm_num) gD)
    hd (by norm_num) (by omega) bE
    (by rw [hE]; decide!)
  rw [hE, hbn] at h
  exact h

theorem fresh_image_fields :
    rd (fresh_image.take 116) 0 4 = 0x4D565346 ∧
    sb_inode_count (fresh_image.take 116) = 128 ∧
    sb_inode_bitmap_start (fresh_image.take 116) = 1 ∧
    sb_data_bitmap_start (fresh_image.take 116) = 2 ∧
    sb_inode_table_start (fresh_image.take 116) = 3 ∧
    sb_data_region_start (fresh_image.take 116) = 7 ∧
    sb_data_region_blocks (fresh_image.take 116) = 249 := by
  decide!

theorem fresh_image_length : fresh_image.length = 1044596 := by
  obtain ⟨img, h1, h2, _⟩ :=
    builder_image_layout 1024 128 ⟨0, 0, 0, 0, fun _ => 0⟩ validArgs_1024_128
  rw [fresh_image_eq] at h1
  have h1 := Option.some.inj h1
  have hb : (builder_superblock 1024 128
      (BuilderEnv.t_sb ⟨0, 0, 0, 0, fun _ => 0⟩)).data_region_blocks = 249 := by decide
  rw [hb] at h2
  exact (congrArg List.length h1).trans h2

theorem sample_file_blocks : blocks_needed sample_file = 2 := by
  rw [blocks_needed_eq _ (by unfold sample_file; rw [List.length_replicate]; norm_num)]
  unfold sample_file
  rw [List.length_replicate]

/-- The plan of the run of Scenario B on the Builder's image. -/
theorem fresh_prepare :
    ∃ p, (adder_prepare fresh_image sample_file sample_env).1 = .ok p ∧
      p.free_inode = 1 ∧ p.blocks_needed = 2 ∧
      p.data_blocks = [0, 1, 0, 0, 0, 0, 0, 0, 0, 0, 0, 0] ∧ p.root_off = 28672 ∧
      p.free_entry = 0 ∧ p.root_inode = List.replicate 128 0 ∧
      p.root_entries = List.replicate 4096 0 ∧
      sb_inode_bitmap_start p.superblock = 1 ∧ sb_data_bitmap_start p.superblock = 2 ∧
      sb_inode_table_start p.superblock = 3 ∧ sb_data_region_start p.superblock = 7 := by
  obtain ⟨f0, f1, f2, f3, f4, f5, f6⟩ := fresh_image_fields
  have hz := builder_image_zeros 1024 128 ⟨0, 0, 0, 0, fun _ => 0⟩ validArgs_1024_128
    fresh_image fresh_image_eq
  have hl := fresh_image_length
  have hp := plan_on_zero_reads fresh_image sample_file sample_env 28672 128 249
    (by rw [hl]; norm_num) (by rw [hl]; norm_num) f0 f1 f2 f3 f4 (by rw [f5]) f6
    (by decide) (by decide) (by rw [hl]; norm_num) (by rw [hl]; norm_num)
    (hz 4096 (by norm_num) (by norm_num) (by norm_num) (by norm_num))
    (hz 8192 (by norm_num) (by norm_num) (by norm_num) (by norm_num))
    (fun i hi => hz _ (by omega) (by omega) (by omega) (by omega))
    (fun i hi => hz _ (by omega) (by omega) (by omega) (by omega))
    sample_file_blocks
  have hr : slice fresh_image 12288 128 = List.replicate 128 0 :=
    slice_zeros fresh_image 12288 128 (by rw [hl]; norm_num)
      (fun i hi => hz _ (by omega) (by omega) (by omega) (by omega))
  rw [hr] at hp
  exact ⟨_, hp, rfl, rfl, rfl, rfl, rfl, rfl, rfl, f2, f3, f4, f5⟩

/-- C3 (divergence): Scenario B on the image the Builder makes for `size_kib = 1024`,
`inode_count = 128`.  The run computes `blocks_needed = 2`, but it takes data indices 0
and 1 and gives the file inode number 1, the root directory's block and the root's inode
number. -/
theorem scenario_b_allocation :
    builder_main 1024 128 ⟨0, 0, 0, 0, fun _ => 0⟩ = some fresh_image ∧
    sample_file.length = 5000 ∧
    ∃ p, (adder_prepare fresh_image sample_file sample_env).1 = .ok p ∧
      p.blocks_needed = 2 ∧ p.data_blocks.take 2 = [0, 1] ∧ p.free_inode = 1 ∧
      (adder_main fresh_image sample_file [0x61] sample_env).1 = .success 1 := by
  obtain ⟨p, hp, h1, h2, h3, _⟩ := fresh_prepare
  refine ⟨fresh_image_eq, by unfold sample_file; rw [List.length_replicate], p, hp, h2, ?_, h1, ?_⟩
  · rw [h3]; rfl
  · rw [adder_main_success fresh_image sample_file [0x61] sample_env p hp, h1]

/-! ### Where the last three writes land -/

theorem length_fwrite_fseek_ge (fp : FILE) (off : Nat) (bs : List Nat) (h : off < 2 ^ 63)
    (hb : bs.length ≠ 0) : off + bs.length ≤ (fwrite (fseek fp off) bs).data.length := by
  rw [length_fwrite_fseek fp off bs h hb]
  exact le_max_right _ _

theorem length_commit_metadata_ge (p : Plan) (name : List Nat) (env : AdderEnv) (fp : FILE)
    (hR : p.root_off < 2 ^ 63) (hI : inode_off p.superblock ROOT_INO < 2 ^ 63)
    (h1 : p.superblock.length = 116) (h2 : p.root_inode.length = 128)
    (h3 : p.root_entries.length = 4096) (h4 : p.free_entry < 64) :
    116 ≤ (commit_metadata p name env fp).data.length ∧
    inode_off p.superblock ROOT_INO + 128 ≤ (commit_metadata p name env fp).data.length ∧
    p.root_off + 4096 ≤ (commit_metadata p name env fp).data.length := by
  have l1 := length_new_superblock p.superblock env h1
  have l2 := length_new_root_inode p.root_inode env.now h2
  have l3 := length_new_root_entries p name h3 h4
  unfold commit_metadata
  dsimp only
  have a := length_fwrite_fseek_ge fp p.root_off (new_root_entries p name) hR
    (by rw [l3]; norm_num)
  have b := length_fwrite_fseek_ge (fwrite (fseek fp p.root_off) (new_root_entries p name))
    (inode_off p.superblock ROOT_INO) (new_root_inode p.root_inode env.now) hI
    (by rw [l2]; norm_num)
  have b' := length_fwrite_fseek_le (fwrite (fseek fp p.root_off) (new_root_entries p name))
    (inode_off p.superblock ROOT_INO) (new_root_inode p.root_inode env.now)
  have c := length_fwrite_fseek_ge
    (fwrite (fseek (fwrite (fseek fp p.root_off) (new_root_entries p name))
      (inode_off p.superblock ROOT_INO)) (new_root_inode p.root_inode env.now))
    0 (new_superblock p.superblock env) (by norm_num) (by rw [l1]; norm_num)
  have c' := length_fwrite_fseek_le
    (fwrite (fseek (fwrite (fseek fp p.root_off) (new_root_entries p name))
      (inode_off p.superblock ROOT_INO)) (new_root_inode p.root_inode env.now))
    0 (new_superblock p.superblock env)
  rw [l1] at c
  rw [l2] at b
  rw [l3] at a
  omega

/-- The superblock record is the last write: the file starts with it. -/
theorem slice_superblock_written (p : Plan) (name : List Nat) (env : AdderEnv) (fp : FILE)
    (hR : p.root_off < 2 ^ 63) (hI : inode_off p.superblock ROOT_INO < 2 ^ 63)
    (h1 : p.superblock.length = 116) (h2 : p.root_inode.length = 128)
    (h3 : p.root_entries.length = 4096) (h4 : p.free_entry < 64) :
    slice (commit_metadata p name env fp).data 0 116 = new_superblock p.superblock env := by
  have l1 := length_new_superblock p.superblock env h1
  obtain ⟨g1, _, _⟩ := length_commit_metadata_ge p name env fp hR hI h1 h2 h3 h4
  refine (slice_eq_of_getD _ (new_superblock p.superblock env) 0 0 116 (by omega) (by omega)
    (fun i hi => ?_)).trans (slice_full _ _ l1)
  rw [getD_commit_metadata p name env fp _ hR hI, if_pos ⟨by omega, by rw [l1]; omega⟩]
  rfl

/-- The root inode record lands in slot 0 of the inode table when that slot lies past the
superblock record. -/
theorem slice_root_inode_written (p : Plan) (name : List Nat) (env : AdderEnv) (fp : FILE)
    (hR : p.root_off < 2 ^ 63) (hI : inode_off p.superblock ROOT_INO < 2 ^ 63)
    (h1 : p.superblock.length = 116) (h2 : p.root_inode.length = 128)
    (h3 : p.root_entries.length = 4096) (h4 : p.free_entry < 64)
    (h5 : 116 ≤ inode_off p.superblock ROOT_INO) :
    slice (commit_metadata p name env fp).data (inode_off p.superblock ROOT_INO) 128
      = new_root_inode p.root_inode env.now := by
  have l1 := length_new_superblock p.superblock env h1
  have l2 := length_new_root_inode p.root_inode env.now h2
  obtain ⟨_, g2, _⟩ := length_commit_metadata_ge p name env fp hR hI h1 h2 h3 h4
  refine (slice_eq_of_getD _ (new_root_inode p.root_inode env.now) _ 0 128 (by omega)
    (by omega) (fun i hi => ?_)).trans (slice_full _ _ l2)
  rw [getD_commit_metadata p name env fp _ hR hI, if_neg (by rw [l1]; omega),
    if_pos ⟨by omega, by rw [l2]; omega⟩]
  congr 1
  omega

/-- The root directory block lands at `root_off` when that block lies past the superblock
record and apart from slot 0 of the inode table. -/
theorem slice_root_block_written (p : Plan) (name : List Nat) (env : AdderEnv) (fp : FILE)
    (hR : p.root_off < 2 ^ 63) (hI : inode_off p.superblock ROOT_INO < 2 ^ 63)
    (h1 : p.superblock.length = 116) (h2 : p.root_inode.length = 128)
    (h3 : p.root_entries.length = 4096) (h4 : p.free_entry < 64)
    (h5 : 116 ≤ p.root_off)
    (h6 : inode_off p.superblock ROOT_INO + 128 ≤ p.root_off ∨
      p.root_off + 4096 ≤ inode_off p.superblock ROOT_INO) :
    slice (commit_metadata p name env fp).data p.root_off 4096 = new_root_entries p name := by
  have l1 := length_new_superblock p.superblock env h1
  have l2 := length_new_root_inode p.root_inode env.now h2
  have l3 := length_new_root_entries p name h3 h4
  obtain ⟨_, _, g3⟩ := length_commit_metadata_ge p name env fp hR hI h1 h2 h3 h4
  refine (slice_eq_of_getD _ (new_root_entries p name) _ 0 4096 (by omega)
    (by omega) (fun i hi => ?_)).trans (slice_full _ _ l3)
  rw [getD_commit_metadata p name env fp _ hR hI, if_neg (by rw [l1]; omega),
    if_neg (by rw [l2]; omega), if_pos ⟨by omega, by rw [l3]; omega⟩]
  congr 1
  omega

/-! ### The root directory of the Builder's image, as the Injector sees it -/

theorem fresh_image_layout :
    fresh_image.length = 1044596 ∧ slice fresh_image 24692 4096 = builder_data_block := by
  obtain ⟨img, h1, h2, _, _, _, _, h7, _⟩ :=
    builder_image_layout 1024 128 ⟨0, 0, 0, 0, fun _ => 0⟩ validArgs_1024_128
  rw [fresh_image_eq] at h1
  injection h1 with h1
  subst h1
  exact ⟨h2, h7⟩

/-- The run of Scenario B on the Builder's image: the plan, the offsets it uses, and the
three records its last writes leave in the file. -/
theorem fresh_run :
    ∃ p, (adder_prepare fresh_image sample_file sample_env).1 = .ok p ∧
      (adder_main fresh_image sample_file [0x61] sample_env).1 = .success 1 ∧
      p.free_inode = 1 ∧ p.blocks_needed = 2 ∧
      p.data_blocks = [0, 1, 0, 0, 0, 0, 0, 0, 0, 0, 0, 0] ∧ p.root_off = 28672 ∧
      p.free_entry = 0 ∧ p.root_inode = List.replicate 128 0 ∧
      p.root_entries = List.replicate 4096 0 ∧
      sb_data_region_start p.superblock = 7 ∧
      inode_off p.superblock ROOT_INO = 12288 ∧
      slice (adder_main fresh_image sample_file [0x61] sample_env).2 12288 128
        = new_root_inode (List.replicate 128 0) 0 ∧
      slice (adder_main fresh_image sample_file [0x61] sample_env).2 28672 4096
        = new_root_entries p [0x61] := by
  obtain ⟨p, hp, h1, h2, h3, h4, h5, h6, h7, _, _, h10, h11⟩ := fresh_prepare
  obtain ⟨s1, s2, _, _, s5, s6, s7, _⟩ := prepare_shape fresh_image sample_file sample_env p hp
  have hI : inode_off p.superblock ROOT_INO = 12288 := by
    unfold inode_off
    rw [h10]
    decide
  have hm := adder_main_success fresh_image sample_file [0x61] sample_env p hp
  refine ⟨p, hp, by rw [hm, h1], h1, h2, h3, h4, h5, h6, h7, h11, hI, ?_, ?_⟩
  · rw [hm]
    have := slice_root_inode_written p [0x61] sample_env
      (write_payload p.superblock p.data_blocks p.blocks_needed 0 sample_file
        (commit_bitmaps p (p.free_inode - 1).toNat
          (commit_inode p sample_env (adder_prepare fresh_image sample_file sample_env).2)))
      (by rw [h4]; norm_num) (by rw [hI]; norm_num) s2 s5 s6 s7 (by rw [hI]; norm_num)
    rw [hI, h6] at this
    exact this
  · rw [hm]
    have := slice_root_block_written p [0x61] sample_env
      (write_payload p.superblock p.data_blocks p.blocks_needed 0 sample_file
        (commit_bitmaps p (p.free_inode - 1).toNat
          (commit_inode p sample_env (adder_prepare fresh_image sample_file sample_env).2)))
      (by rw [h4]; norm_num) (by rw [hI]; norm_num) s2 s5 s6 s7 (by rw [h4]; norm_num)
      (by rw [hI, h4]; norm_num)
    rw [h4] at this
    exact this

theorem fresh_new_root_entries (p : Plan) (h1 : p.free_inode = 1) (h2 : p.free_entry = 0)
    (h3 : p.root_entries = List.replicate 4096 0) :
    rd (new_root_entries p [0x61]) 0 4 = 1 ∧
    slice (new_root_entries p [0x61]) 0 8 = [1, 0, 0, 0, 1, 0x61, 0, 0] ∧
    slice (new_root_entries p [0x61]) 64 4032 = List.replicate 4032 0 := by
  unfold new_root_entries
  rw [h1, h2, h3]
  decide!

/-- C4 (divergence): on the image the Builder makes for `size_kib = 1024`,
`inode_count = 128` the Builder's root directory block (with `.` and `..`) is at byte
24692 and the root inode's `direct[0]` is the absolute block number 7; the Injector
loads and writes back as the root directory the block at byte 28672, which it finds empty:
after the injection that block has the new file's entry in slot 0 and nothing else, and
neither `.` nor `..`. -/
theorem root_directory_mismatch :
    builder_main 1024 128 ⟨0, 0, 0, 0, fun _ => 0⟩ = some fresh_image ∧
    slice fresh_image 24692 4096 = builder_data_block ∧
    rd (builder_root_record 1024 128 ⟨0, 0, 0, 0, fun _ => 0⟩) 44 4 = 7 ∧
    ∃ p, (adder_prepare fresh_image sample_file sample_env).1 = .ok p ∧
      p.root_off = 28672 ∧ p.root_entries = List.replicate 4096 0 ∧ p.free_entry = 0 ∧
      (adder_main fresh_image sample_file [0x61] sample_env).1 = .success 1 ∧
      slice (adder_main fresh_image sample_file [0x61] sample_env).2 28672 4096
        = new_root_entries p [0x61] ∧
      rd (new_root_entries p [0x61]) 0 4 = 1 ∧
      slice (new_root_entries p [0x61]) 64 4032 = List.replicate 4032 0 := by
  obtain ⟨p, hp, h0, h1, _, _, h4, h5, _, h7, _, _, _, h12⟩ := fresh_run
  obtain ⟨e1, _, e3⟩ := fresh_new_root_entries p h1 h5 h7
  exact ⟨fresh_image_eq, fresh_image_layout.2, by decide!, p, hp, h4, h7, h5, h0, h12, e1, e3⟩

/-- C15 (divergence): Scenario B on the Builder's image.  The first block of the file is
stored at byte `(data_region_start + data_blocks[0]) * 4096 = 28672`, which is also where
the run then writes the root directory block: afterwards that block starts with the new
directory entry, not with the file's bytes. -/
theorem payload_overwritten :
    ∃ p, (adder_prepare fresh_image sample_file sample_env).1 = .ok p ∧
      (adder_main fresh_image sample_file [0x61] sample_env).1 = .success 1 ∧
      p.blocks_needed = 2 ∧
      (sb_data_region_start p.superblock + p.data_blocks.getD 0 0) * 4096 = 28672 ∧
      slice (adder_main fresh_image sample_file [0x61] sample_env).2 28672 8
        = [1, 0, 0, 0, 1, 0x61, 0, 0] ∧
      sample_file.take 8 = [0x41, 0x41, 0x41, 0x41, 0x41, 0x41, 0x41, 0x41] := by
  obtain ⟨p, hp, h0, h1, h2, h3, h4, h5, _, h7, h8, _, _, h12⟩ := fresh_run
  obtain ⟨_, e2, _⟩ := fresh_new_root_entries p h1 h5 h7
  refine ⟨p, hp, h0, h2, by rw [h8, h3]; rfl, ?_, by decide⟩
  have : slice (adder_main fresh_image sample_file [0x61] sample_env).2 28672 8
      = slice (slice (adder_main fresh_image sample_file [0x61] sample_env).2 28672 4096) 0 8 := by
    unfold slice
    rw [List.drop_zero, List.take_take]
    rfl
  rw [this, h12, e2]

/-! ### The new inode record and the root inode record -/

theorem getD_map_range (f : Nat → Nat) (n i : Nat) (h : i < n) :
    ((List.range n).map f).getD i 0 = f i := by
  rw [List.getD_eq_getElem?_getD, List.getElem?_map, List.getElem?_range h]
  rfl

/-- C18 (divergence in the last part): the record built for the new inode.  For every run
that passes the checks, with a file of `s < 2 ^ 63` bytes, the record has mode `0x8000`,
links 1, `size_bytes = s ≤ 12 * 4096`, the three times equal to the clock, `direct[i]` the
`i`-th allocated index for `i < ⌈s / 4096⌉` and 0 for the rest, `xattr_ptr = 0` and the
CRC32 of its first 120 bytes as checksum.  On the Builder's image the first allocated
index is 0, so `direct[0] = 0` although the file has two blocks: the leading entries are
not all non-zero. -/
theorem new_inode_record_fields :
    (∀ (image file : List Nat) (env : AdderEnv) (p : Plan),
      (adder_prepare image file env).1 = .ok p → file.length < 2 ^ 63 →
      rd (new_inode_record p env.now) 0 2 = 0x8000 ∧
      rd (new_inode_record p env.now) 2 2 = 1 ∧
      rd (new_inode_record p env.now) 12 8 = file.length ∧ file.length ≤ 12 * 4096 ∧
      rd (new_inode_record p env.now) 20 8 = u64 env.now ∧
      rd (new_inode_record p env.now) 28 8 = u64 env.now ∧
      rd (new_inode_record p env.now) 36 8 = u64 env.now ∧
      p.blocks_needed = ⌈(file.length : ℚ) / 4096⌉₊ ∧
      (∀ i, i < 12 → rd (new_inode_record p env.now) (44 + 4 * i) 4
        = if i < p.blocks_needed then p.data_blocks.getD i 0 else 0) ∧
      rd (new_inode_record p env.now) 112 8 = 0 ∧
      rd (new_inode_record p env.now) 120 8 = crc32 ((new_inode_record p env.now).take 120)) ∧
    (∃ p, (adder_prepare fresh_image sample_file sample_env).1 = .ok p ∧
      p.blocks_needed = 2 ∧ rd (new_inode_record p sample_env.now) 44 4 = 0) := by
  have gen : ∀ (image file : List Nat) (env : AdderEnv) (p : Plan),
      (adder_prepare image file env).1 = .ok p → file.length < 2 ^ 63 →
      rd (new_inode_record p env.now) 0 2 = 0x8000 ∧
      rd (new_inode_record p env.now) 2 2 = 1 ∧
      rd (new_inode_record p env.now) 12 8 = file.length ∧ file.length ≤ 12 * 4096 ∧
      rd (new_inode_record p env.now) 20 8 = u64 env.now ∧
      rd (new_inode_record p env.now) 28 8 = u64 env.now ∧
      rd (new_inode_record p env.now) 36 8 = u64 env.now ∧
      p.blocks_needed = ⌈(file.length : ℚ) / 4096⌉₊ ∧
      (∀ i, i < 12 → rd (new_inode_record p env.now) (44 + 4 * i) 4
        = if i < p.blocks_needed then p.data_blocks.getD i 0 else 0) ∧
      rd (new_inode_record p env.now) 112 8 = 0 ∧
      rd (new_inode_record p env.now) 120 8
        = crc32 ((new_inode_record p env.now).take 120) := by
    intro image file env p hp hs
    obtain ⟨_, _, _, _, _, _, _, s8, s9, _, s11, _, _, s14⟩ := prepare_shape image file env p hp
    have hb := blocks_needed_eq file hs
    have hu : u64 env.now < 256 ^ 8 := Nat.mod_lt _ (by norm_num)
    unfold new_inode_record
    have hf := slice_inode_head
      { mode := 0x8000, links := 1, uid := 0, gid := 0, size_bytes := p.file_size,
        atime := u64 env.now, mtime := u64 env.now, ctime := u64 env.now,
        direct := (List.range DIRECT_MAX).map
          (fun i => if i < p.blocks_needed then p.data_blocks.getD i 0 else 0),
        reserved_0 := 0, reserved_1 := 0, reserved_2 := 0, proj_id := 1234,
        uid16_gid16 := 0, xattr_ptr := 0, inode_crc := 0 }
    have hd := slice_inode_direct
      { mode := 0x8000, links := 1, uid := 0, gid := 0, size_bytes := p.file_size,
        atime := u64 env.now, mtime := u64 env.now, ctime := u64 env.now,
        direct := (List.range DIRECT_MAX).map
          (fun i => if i < p.blocks_needed then p.data_blocks.getD i 0 else 0),
        reserved_0 := 0, reserved_1 := 0, reserved_2 := 0, proj_id := 1234,
        uid16_gid16 := 0, xattr_ptr := 0, inode_crc := 0 }
    obtain ⟨f1, f2, _, _, f5, f6, f7, f8, _, f10⟩ := hf
    refine ⟨?_, ?_, ?_, ?_, ?_, ?_, ?_, ?_, ?_, ?_, ?_⟩
    · rw [rd_inode_record _ 0 2 _ (by norm_num) f1, le_val_le_bytes]
      show (0x8000 : Nat) % 256 ^ 2 = 0x8000
      norm_num
    · rw [rd_inode_record _ 2 2 _ (by norm_num) f2, le_val_le_bytes]
      show (1 : Nat) % 256 ^ 2 = 1
      norm_num
    · rw [rd_inode_record _ 12 8 _ (by norm_num) f5, le_val_le_bytes]
      show p.file_size % 256 ^ 8 = _
      rw [s11, u64_small _ (by omega)]
      exact Nat.mod_eq_of_lt (by omega)
    · rw [s8, hb] at s9
      omega
    · rw [rd_inode_record _ 20 8 _ (by norm_num) f6, le_val_le_bytes]
      exact Nat.mod_eq_of_lt hu
    · rw [rd_inode_record _ 28 8 _ (by norm_num) f7, le_val_le_bytes]
      exact Nat.mod_eq_of_lt hu
    · rw [rd_inode_record _ 36 8 _ (by norm_num) f8, le_val_le_bytes]
      exact Nat.mod_eq_of_lt hu
    · rw [s8, hb, ceil_div_BS]
    · intro i hi
      rw [rd_inode_record _ (44 + 4 * i) 4 _ (by omega) (hd i hi), le_val_le_bytes]
      show ((List.range DIRECT_MAX).map
        (fun i => if i < p.blocks_needed then p.data_blocks.getD i 0 else 0)).getD i 0
          % 256 ^ 4 = _
      rw [getD_map_range _ _ _ (by unfold DIRECT_MAX; exact hi)]
      split
      · rename_i c
        exact Nat.mod_eq_of_lt (lt_trans (s14 i c) (by norm_num))
      · rfl
    · rw [rd_inode_record _ 112 8 _ (by norm_num) f10, le_val_le_bytes]
      show (0 : Nat) % 256 ^ 8 = 0
      norm_num
    · exact rd_inode_crc_finalize _ (length_inode_bytes _)
  refine ⟨gen, ?_⟩
  obtain ⟨p, hp, _, h2, h3, _⟩ := fresh_prepare
  refine ⟨p, hp, h2, ?_⟩
  have := (gen fresh_image sample_file sample_env p hp
    (by unfold sample_file; rw [List.length_replicate]; norm_num)).2.2.2.2.2.2.2.2.1 0
    (by norm_num)
  rw [Nat.mul_zero, Nat.add_zero, h2, h3] at this
  rw [this]
  rfl

theorem new_inode_record_fields_witness :
    ∃ p, (adder_prepare fresh_image sample_file sample_env).1 = .ok p ∧
      rd (new_inode_record p sample_env.now) 12 8 = 5000 ∧
      rd (new_inode_record p sample_env.now) 0 2 = 0x8000 := by
  obtain ⟨p, hp, _⟩ := fresh_prepare
  obtain ⟨h1, _, h3, _⟩ := new_inode_record_fields.1 fresh_image sample_file sample_env p hp
    (by unfold sample_file; rw [List.length_replicate]; norm_num)
  refine ⟨p, hp, ?_, h1⟩
  rw [h3]
  unfold sample_file
  rw [List.length_replicate]

theorem new_root_inode_eq (r : List Nat) (now : Nat) :
    new_root_inode r now = inode_crc_finalize
      (patch (patch r 2 (le_bytes 2 (u16 (rd r 2 2 + 1)))) 28 (le_bytes 8 (u64 now))) := rfl

/-- The fields of the root inode record written back, from the record read. -/
theorem new_root_inode_fields (r : List Nat) (now : Nat) (h : r.length = 128) :
    rd (new_root_inode r now) 2 2 = u16 (rd r 2 2 + 1) ∧
    rd (new_root_inode r now) 28 8 = u64 now ∧
    rd (new_root_inode r now) 120 8 = crc32 ((new_root_inode r now).take 120) ∧
    (∀ i, i < 120 → ¬ (2 ≤ i ∧ i < 4) → ¬ (28 ≤ i ∧ i < 36) →
      (new_root_inode r now).getD i 0 = r.getD i 0) := by
  have h1 : (patch r 2 (le_bytes 2 (u16 (rd r 2 2 + 1)))).length = 128 := by
    rw [length_patch _ _ _ (by rw [length_le_bytes, h]; norm_num), h]
  have h2 : (patch (patch r 2 (le_bytes 2 (u16 (rd r 2 2 + 1)))) 28
      (le_bytes 8 (u64 now))).length = 128 := by
    rw [length_patch _ _ _ (by rw [length_le_bytes, h1]; norm_num), h1]
  have ht := take_inode_crc_finalize _ h2
  rw [new_root_inode_eq]
  refine ⟨?_, ?_, rd_inode_crc_finalize _ h2, fun i hi c1 c2 => ?_⟩
  · have hs : slice (inode_crc_finalize (patch (patch r 2 (le_bytes 2 (u16 (rd r 2 2 + 1)))) 28
        (le_bytes 8 (u64 now)))) 2 2 = le_bytes 2 (u16 (rd r 2 2 + 1)) := by
      rw [slice_take_eq _ _ 120 2 2 ht (by norm_num),
        slice_patch_outside _ _ _ 2 2 (by rw [length_le_bytes, h1]; norm_num)
          (Or.inl (by norm_num)) (by rw [h1]; norm_num)]
      have := slice_patch r 2 (le_bytes 2 (u16 (rd r 2 2 + 1))) (by rw [h]; norm_num)
      rw [length_le_bytes] at this
      exact this
    show le_val (slice _ 2 2) = _
    rw [hs, le_val_le_bytes]
    exact Nat.mod_eq_of_lt (Nat.mod_lt _ (by norm_num))
  · have hs : slice (inode_crc_finalize (patch (patch r 2 (le_bytes 2 (u16 (rd r 2 2 + 1)))) 28
        (le_bytes 8 (u64 now)))) 28 8 = le_bytes 8 (u64 now) := by
      rw [slice_take_eq _ _ 120 28 8 ht (by norm_num)]
      have := slice_patch (patch r 2 (le_bytes 2 (u16 (rd r 2 2 + 1)))) 28
        (le_bytes 8 (u64 now)) (by rw [h1]; norm_num)
      rw [length_le_bytes] at this
      exact this
    show le_val (slice _ 28 8) = _
    rw [hs, le_val_le_bytes]
    exact Nat.mod_eq_of_lt (Nat.mod_lt _ (by norm_num))
  · have e : (inode_crc_finalize (patch (patch r 2 (le_bytes 2 (u16 (rd r 2 2 + 1)))) 28
        (le_bytes 8 (u64 now)))).getD i 0
        = (patch (patch r 2 (le_bytes 2 (u16 (rd r 2 2 + 1)))) 28
          (le_bytes 8 (u64 now))).getD i 0 := by
      rw [← getD_take _ 120 i hi, ht, getD_take _ 120 i hi]
    rw [e, getD_patch _ _ _ _ (by rw [h1]; norm_num), length_le_bytes, if_neg (by omega),
      getD_patch _ _ _ _ (by rw [h]; norm_num), length_le_bytes, if_neg (by omega)]

theorem fresh_root_links : rd (new_root_inode (List.replicate 128 0) 0) 2 2 = 1 := by
  decide!

/-- C19 (divergence in the last part): the root inode record.  For every run that passes
the checks on an image whose inode table starts past the superblock record (and whose
offsets fit `off_t`), the record in slot 0 of the inode table afterwards is the record read
from that slot with links incremented by one (as `uint16_t`), mtime the clock, and the
CRC32 of its first 120 bytes as checksum, every other byte below 120 unchanged.  On the
Builder's image the record read from slot 0 is all zero, so the root's links becomes 1,
not 3. -/
theorem root_inode_update :
    (∀ (image file name : List Nat) (env : AdderEnv) (p : Plan),
      (adder_prepare image file env).1 = .ok p →
      116 ≤ inode_off p.superblock ROOT_INO → inode_off p.superblock ROOT_INO < 2 ^ 63 →
      p.root_off < 2 ^ 63 →
      slice (adder_main image file name env).2 (inode_off p.superblock ROOT_INO) 128
        = new_root_inode p.root_inode env.now ∧
      rd (new_root_inode p.root_inode env.now) 2 2 = u16 (rd p.root_inode 2 2 + 1) ∧
      rd (new_root_inode p.root_inode env.now) 28 8 = u64 env.now ∧
      rd (new_root_inode p.root_inode env.now) 120 8
        = crc32 ((new_root_inode p.root_inode env.now).take 120) ∧
      (∀ i, i < 120 → ¬ (2 ≤ i ∧ i < 4) → ¬ (28 ≤ i ∧ i < 36) →
        (new_root_inode p.root_inode env.now).getD i 0 = p.root_inode.getD i 0)) ∧
    (builder_main 1024 128 ⟨0, 0, 0, 0, fun _ => 0⟩ = some fresh_image ∧
      rd (builder_root_record 1024 128 ⟨0, 0, 0, 0, fun _ => 0⟩) 2 2 = 2 ∧
      ∃ p, (adder_prepare fresh_image sample_file sample_env).1 = .ok p ∧
        (adder_main fresh_image sample_file [0x61] sample_env).1 = .success 1 ∧
        inode_off p.superblock ROOT_INO = 12288 ∧ p.root_inode = List.replicate 128 0 ∧
        rd (slice (adder_main fresh_image sample_file [0x61] sample_env).2 12288 128) 2 2
          = 1) := by
  constructor
  · intro image file name env p hp h1 h2 h3
    obtain ⟨_, s2, _, _, s5, s6, s7, _⟩ := prepare_shape image file env p hp
    obtain ⟨f1, f2, f3, f4⟩ := new_root_inode_fields p.root_inode env.now s5
    refine ⟨?_, f1, f2, f3, f4⟩
    rw [adder_main_success image file name env p hp]
    exact slice_root_inode_written p name env _ h3 h2 s2 s5 s6 s7 h1
  · obtain ⟨p, hp, h0, _, _, _, _, _, h6, _, _, h10, h11, _⟩ := fresh_run
    refine ⟨fresh_image_eq, by decide!, p, hp, h0, h10, h6, ?_⟩
    rw [h11]
    exact fresh_root_links

theorem root_inode_update_witness :
    ∃ p, (adder_prepare fresh_image sample_file sample_env).1 = .ok p ∧
      slice (adder_main fresh_image sample_file [0x61] sample_env).2
        (inode_off p.superblock ROOT_INO) 128 = new_root_inode p.root_inode sample_env.now ∧
      rd (new_root_inode p.root_inode sample_env.now) 28 8 = u64 sample_env.now := by
  obtain ⟨p, hp, _, _, _, _, h4, _, _, _, _, h10, _⟩ := fresh_run
  obtain ⟨a, _, c, _⟩ := root_inode_update.1 fresh_image sample_file [0x61] sample_env p hp
    (by rw [h10]; norm_num) (by rw [h10]; norm_num) (by rw [h4]; norm_num)
  exact ⟨p, hp, a, c⟩

/-! ### The write frame -/

theorem length_block_write_ge (fp : FILE) (off : Nat) (buffer : List Nat)
    (h : off < 2 ^ 63) (hl : buffer.length ≤ BS) :
    off + BS ≤ (if buffer.length < BS
      then fwrite (fwrite (fseek fp off) buffer) (List.replicate (BS - buffer.length) 0)
      else fwrite (fseek fp off) buffer).data.length := by
  split
  · rename_i hlt
    have hp := fwrite_fseek_pos fp off buffer h
    have hne : (List.replicate (BS - buffer.length) 0).length ≠ 0 := by
      rw [List.length_replicate]; omega
    have e : (fwrite (fwrite (fseek fp off) buffer)
        (List.replicate (BS - buffer.length) 0)).data
        = pwrite (fwrite (fseek fp off) buffer).data (fwrite (fseek fp off) buffer).pos
          (List.replicate (BS - buffer.length) 0) := by
      show (fwrite _ _).data = _
      unfold fwrite
      rw [if_neg hne]
    rw [e, length_pwrite, hp, List.length_replicate]
    omega
  · rename_i hge
    have : buffer.length = BS := by omega
    have hne : buffer.length ≠ 0 := by rw [this]; unfold BS; norm_num
    rw [length_fwrite_fseek fp off buffer h hne, this]
    exact le_max_right _ _

theorem length_write_payload_ge (sb blks : List Nat) (left i : Nat) (rest : List Nat)
    (fp : FILE) (t : Nat) (ht1 : i ≤ t) (ht2 : t < i + left)
    (hoff : ∀ u, i ≤ u → u < i + left → data_off sb (blks.getD u 0) < 2 ^ 63) :
    data_off sb (blks.getD t 0) + BS ≤ (write_payload sb blks left i rest fp).data.length := by
  induction left generalizing i rest fp with
  | zero => omega
  | succ left ih =>
    rw [write_payload_succ]
    by_cases e : t = i
    · subst e
      exact le_trans (length_block_write_ge fp _ _ (hoff t (le_refl _) (by omega))
        (by rw [List.length_take]; exact Nat.min_le_left _ _))
        (length_write_payload_le _ _ _ _ _ _)
    · exact ih (i + 1) _ _ (by omega) (by omega) (fun u h1 h2 => hoff u (by omega) (by omega))

theorem length_adder_main_ge (image file name : List Nat) (env : AdderEnv) (p : Plan)
    (hp : (adder_prepare image file env).1 = .ok p) :
    image.length ≤ (adder_main image file name env).2.length ∧
    (write_payload p.superblock p.data_blocks p.blocks_needed 0 file
      (commit_bitmaps p (p.free_inode - 1).toNat
        (commit_inode p env (adder_prepare image file env).2))).data.length
      ≤ (adder_main image file name env).2.length := by
  rw [adder_main_success image file name env p hp]
  refine ⟨?_, length_commit_metadata_le _ _ _ _⟩
  refine le_trans ?_ (length_commit_metadata_le _ _ _ _)
  refine le_trans ?_ (length_write_payload_le _ _ _ _ _ _)
  have h1 : (commit_inode p env (adder_prepare image file env).2).data.length
      ≤ (commit_bitmaps p (p.free_inode - 1).toNat
        (commit_inode p env (adder_prepare image file env).2)).data.length := by
    unfold commit_bitmaps
    dsimp only
    exact le_trans (length_fwrite_fseek_le _ _ _) (length_fwrite_fseek_le _ _ _)
  refine le_trans ?_ h1
  have := length_commit_inode_le p env (adder_prepare image file env).2
  rw [adder_prepare_data] at this
  exact this

theorem slice_new_superblock (sb : List Nat) (env : AdderEnv) (h : sb.length = 116) :
    slice (new_superblock sb env) 0 100 = slice sb 0 100 ∧
    slice (new_superblock sb env) 108 4 = slice sb 108 4 := by
  have h1 : (patch sb 100 (le_bytes 8 (u64 env.now))).length = 116 := by
    rw [length_patch _ _ _ (by rw [length_le_bytes, h]; omega), h]
  have h2 : (patch (patch sb 100 (le_bytes 8 (u64 env.now))) 112 (le_bytes 4 0)).length = 116 := by
    rw [length_patch _ _ _ (by rw [length_le_bytes, h1]), h1]
  have e1 : 100 + (le_bytes 8 (u64 env.now)).length ≤ sb.length := by
    rw [length_le_bytes, h]; omega
  have e2 : ∀ v, 112 + (le_bytes 4 v).length
      ≤ (patch sb 100 (le_bytes 8 (u64 env.now))).length := by
    intro v; rw [length_le_bytes, h1]
  have e3 : ∀ v, 112 + (le_bytes 4 v).length
      ≤ (patch (patch sb 100 (le_bytes 8 (u64 env.now))) 112 (le_bytes 4 0)).length := by
    intro v; rw [length_le_bytes, h2]
  unfold new_superblock superblock_crc_finalize
  dsimp only
  constructor
  · rw [slice_patch_outside _ _ _ 0 100 (e3 _) (Or.inl (by omega)) (by omega),
      slice_patch_outside _ _ _ 0 100 (e2 _) (Or.inl (by omega)) (by omega),
      slice_patch_outside _ _ _ 0 100 e1 (Or.inl (by omega)) (by omega)]
  · rw [slice_patch_outside _ _ _ 108 4 (e3 _) (Or.inl (by omega)) (by omega),
      slice_patch_outside _ _ _ 108 4 (e2 _) (Or.inl (by omega)) (by omega),
      slice_patch_outside _ _ _ 108 4 e1 (Or.inr (by rw [length_le_bytes])) (by omega)]

/-- The bytes of the image a successful run leaves alone: all those outside the superblock
record, the two bitmap blocks, the slot of the new inode, slot 0 of the inode table, the
root directory block and the blocks of the payload. -/
theorem adder_main_frame (image file name : List Nat) (env : AdderEnv) (p : Plan)
    (hp : (adder_prepare image file env).1 = .ok p)
    (hA : inode_off p.superblock p.free_inode < 2 ^ 63)
    (hB : u64 (sb_inode_bitmap_start p.superblock * BS) < 2 ^ 63)
    (hC : u64 (sb_data_bitmap_start p.superblock * BS) < 2 ^ 63)
    (hD : ∀ t, t < p.blocks_needed → data_off p.superblock (p.data_blocks.getD t 0) < 2 ^ 63)
    (hR : p.root_off < 2 ^ 63) (hI : inode_off p.superblock ROOT_INO < 2 ^ 63)
    (i : Nat) (h1 : ¬ i < 116)
    (h2 : ¬ (u64 (sb_inode_bitmap_start p.superblock * BS) ≤ i ∧
      i < u64 (sb_inode_bitmap_start p.superblock * BS) + 4096))
    (h3 : ¬ (u64 (sb_data_bitmap_start p.superblock * BS) ≤ i ∧
      i < u64 (sb_data_bitmap_start p.superblock * BS) + 4096))
    (h4 : ¬ (inode_off p.superblock p.free_inode ≤ i ∧
      i < inode_off p.superblock p.free_inode + 128))
    (h5 : ¬ (inode_off p.superblock ROOT_INO ≤ i ∧ i < inode_off p.superblock ROOT_INO + 128))
    (h6 : ¬ (p.root_off ≤ i ∧ i < p.root_off + 4096))
    (h7 : ∀ t, t < p.blocks_needed →
      ¬ (data_off p.superblock (p.data_blocks.getD t 0) ≤ i ∧
        i < data_off p.superblock (p.data_blocks.getD t 0) + 4096)) :
    (adder_main image file name env).2.getD i 0 = image.getD i 0 := by
  obtain ⟨_, s2, s3, s4, s5, s6, s7, _⟩ := prepare_shape image file env p hp
  rw [adder_main_success image file name env p hp]
  show (commit_metadata _ _ _ _).data.getD i 0 = _
  rw [getD_commit_metadata p name env _ i hR hI,
    if_neg (by rw [length_new_superblock _ _ s2]; omega),
    if_neg (by rw [length_new_root_inode _ _ s5]; exact h5),
    if_neg (by rw [length_new_root_entries _ _ s6 s7]; exact h6),
    getD_write_payload_frame _ _ _ _ _ _ i (fun t _ ht => hD t (by omega))
      (fun t _ ht => h7 t (by omega)),
    getD_commit_bitmaps p _ _ i hB hC, if_neg (by rw [s4]; exact h3),
    if_neg (by rw [length_set_bit, s3]; exact h2),
    getD_commit_inode p env _ i hA, if_neg (by rw [length_new_inode_record]; exact h4),
    adder_prepare_data]

theorem validArgs_24_32 : ValidArgs 24 32 := by
  unfold ValidArgs INODE_SIZE BS; norm_num

theorem small_image_eq :
    builder_main 24 32 ⟨0, 0, 0, 0, fun _ => 0⟩ = some small_image := by
  unfold small_image
  rw [builder_main_eq 24 32 _ validArgs_24_32]
  rfl

theorem small_image_length : small_image.length = 20596 := by
  obtain ⟨img, h1, h2, _⟩ := builder_image_layout 24 32 ⟨0, 0, 0, 0, fun _ => 0⟩ validArgs_24_32
  rw [small_image_eq] at h1
  have h1 := Option.some.inj h1
  have hb : (builder_superblock 24 32
      (BuilderEnv.t_sb ⟨0, 0, 0, 0, fun _ => 0⟩)).data_region_blocks = 2 := by decide
  rw [hb] at h2
  exact (congrArg List.length h1).trans h2

theorem small_image_fields :
    rd (small_image.take 116) 0 4 = 0x4D565346 ∧
    sb_inode_count (small_image.take 116) = 32 ∧
    sb_inode_bitmap_start (small_image.take 116) = 1 ∧
    sb_data_bitmap_start (small_image.take 116) = 2 ∧
    sb_inode_table_start (small_image.take 116) = 3 ∧
    sb_data_region_start (small_image.take 116) = 4 ∧
    sb_data_region_blocks (small_image.take 116) = 2 := by
  decide!

/-- The plan of the run that adds the 5000-byte file to `small_image`. -/
theorem small_prepare :
    ∃ p, (adder_prepare small_image sample_file sample_env).1 = .ok p ∧
      p.free_inode = 1 ∧ p.blocks_needed = 2 ∧
      p.data_blocks = [0, 1, 0, 0, 0, 0, 0, 0, 0, 0, 0, 0] ∧
      sb_data_region_start p.superblock = 4 := by
  obtain ⟨f0, f1, f2, f3, f4, f5, f6⟩ := small_image_fields
  have hz := builder_image_zeros 24 32 ⟨0, 0, 0, 0, fun _ => 0⟩ validArgs_24_32
    small_image small_image_eq
  have hl := small_image_length
  have hp := plan_on_zero_reads small_image sample_file sample_env 16384 32 2
    (by rw [hl]; norm_num) (by rw [hl]; norm_num) f0 f1 f2 f3 f4 (by rw [f5]) f6
    (by decide) (by decide) (by rw [hl]; norm_num) (by rw [hl]; norm_num)
    (hz 4096 (by norm_num) (by norm_num) (by norm_num) (by norm_num))
    (hz 8192 (by norm_num) (by norm_num) (by norm_num) (by norm_num))
    (fun i hi => hz _ (by omega) (by omega) (by omega) (by omega))
    (fun i hi => hz _ (by omega) (by omega) (by omega) (by omega))
    sample_file_blocks
  exact ⟨_, hp, rfl, rfl, rfl, f5⟩

theorem slice_slice_head (a : List Nat) (n off m : Nat) (h : off + m ≤ n) :
    slice (slice a 0 n) off m = slice a off m := by
  have e : slice a 0 n = a.take n := rfl
  rw [e]
  exact slice_take_eq _ _ n off m (by rw [List.take_take, Nat.min_self]) h

/-- C20 (divergence in the last part): the write frame.  For every run that passes the
checks (with offsets that fit `off_t`), every byte outside the superblock record, the two
bitmap blocks, the slot of the new inode, slot 0 of the inode table, the root directory
block and the blocks of the payload is unchanged, and so are the superblock's bytes 0..99
and 108..111, every field but `mtime_epoch` and `checksum`; the image never gets shorter.
It can get longer: the image of the Builder run with `--size-kib 24 --inodes 32` is 20596
bytes long and at least 24576 bytes long after the injection of a 5000-byte file. -/
theorem write_frame :
    (∀ (image file name : List Nat) (env : AdderEnv) (p : Plan),
      (adder_prepare image file env).1 = .ok p →
      inode_off p.superblock p.free_inode < 2 ^ 63 →
      u64 (sb_inode_bitmap_start p.superblock * BS) < 2 ^ 63 →
      u64 (sb_data_bitmap_start p.superblock * BS) < 2 ^ 63 →
      (∀ t, t < p.blocks_needed → data_off p.superblock (p.data_blocks.getD t 0) < 2 ^ 63) →
      p.root_off < 2 ^ 63 → inode_off p.superblock ROOT_INO < 2 ^ 63 →
      (∀ i, ¬ i < 116 →
        ¬ (u64 (sb_inode_bitmap_start p.superblock * BS) ≤ i ∧
          i < u64 (sb_inode_bitmap_start p.superblock * BS) + 4096) →
        ¬ (u64 (sb_data_bitmap_start p.superblock * BS) ≤ i ∧
          i < u64 (sb_data_bitmap_start p.superblock * BS) + 4096) →
        ¬ (inode_off p.superblock p.free_inode ≤ i ∧
          i < inode_off p.superblock p.free_inode + 128) →
        ¬ (inode_off p.superblock ROOT_INO ≤ i ∧ i < inode_off p.superblock ROOT_INO + 128) →
        ¬ (p.root_off ≤ i ∧ i < p.root_off + 4096) →
        (∀ t, t < p.blocks_needed →
          ¬ (data_off p.superblock (p.data_blocks.getD t 0) ≤ i ∧
            i < data_off p.superblock (p.data_blocks.getD t 0) + 4096)) →
        (adder_main image file name env).2.getD i 0 = image.getD i 0) ∧
      slice (adder_main image file name env).2 0 100 = slice image 0 100 ∧
      slice (adder_main image file name env).2 108 4 = slice image 108 4 ∧
      image.length ≤ (adder_main image file name env).2.length) ∧
    (builder_main 24 32 ⟨0, 0, 0, 0, fun _ => 0⟩ = some small_image ∧
      small_image.length = 20596 ∧
      (adder_main small_image sample_file [0x61] sample_env).1 = .success 1 ∧
      24576 ≤ (adder_main small_image sample_file [0x61] sample_env).2.length) := by
  constructor
  · intro image file name env p hp hA hB hC hD hR hI
    obtain ⟨s1, s2, _, _, s5, s6, s7, _⟩ := prepare_shape image file env p hp
    have hsb : slice (adder_main image file name env).2 0 116 = new_superblock p.superblock env := by
      rw [adder_main_success image file name env p hp]
      exact slice_superblock_written p name env _ hR hI s2 s5 s6 s7
    obtain ⟨n1, n2⟩ := slice_new_superblock p.superblock env s2
    have hp0 : p.superblock = slice image 0 116 := s1
    refine ⟨fun i h1 h2 h3 h4 h5 h6 h7 =>
      adder_main_frame image file name env p hp hA hB hC hD hR hI i h1 h2 h3 h4 h5 h6 h7,
      ?_, ?_, (length_adder_main_ge image file name env p hp).1⟩
    · rw [← slice_slice_head _ 116 0 100 (by norm_num), hsb, n1, hp0,
        slice_slice_head _ 116 0 100 (by norm_num)]
    · rw [← slice_slice_head _ 116 108 4 (by norm_num), hsb, n2, hp0,
        slice_slice_head _ 116 108 4 (by norm_num)]
  · obtain ⟨p, hp, h1, h2, h3, h4⟩ := small_prepare
    have hd : ∀ u, 0 ≤ u → u < 0 + p.blocks_needed →
        data_off p.superblock (p.data_blocks.getD u 0) < 2 ^ 63 := by
      intro u _ hu
      rw [h2] at hu
      unfold data_off
      rw [h4, h3]
      have : u = 0 ∨ u = 1 := by omega
      rcases this with c | c <;> subst c <;> decide
    have hlen := length_write_payload_ge p.superblock p.data_blocks p.blocks_needed 0
      sample_file (commit_bitmaps p (p.free_inode - 1).toNat
        (commit_inode p sample_env (adder_prepare small_image sample_file sample_env).2))
      1 (by norm_num) (by rw [h2]; norm_num) hd
    have e : data_off p.superblock (p.data_blocks.getD 1 0) + BS = 24576 := by
      unfold data_off
      rw [h4, h3]
      decide
    rw [e] at hlen
    refine ⟨small_image_eq, small_image_length, ?_,
      le_trans hlen (length_adder_main_ge small_image sample_file [0x61] sample_env p hp).2⟩
    rw [adder_main_success small_image sample_file [0x61] sample_env p hp, h1]

theorem write_frame_witness :
    ∃ p, (adder_prepare fresh_image sample_file sample_env).1 = .ok p ∧
      slice (adder_main fresh_image sample_file [0x61] sample_env).2 0 100
        = slice fresh_image 0 100 ∧
      fresh_image.length ≤ (adder_main fresh_image sample_file [0x61] sample_env).2.length := by
  obtain ⟨p, hp, h1, h2, h3, h4, _, _, _, h8, h9, h10, h11⟩ := fresh_prepare
  have hI : inode_off p.superblock ROOT_INO = 12288 := by
    unfold inode_off
    rw [h10]
    decide
  obtain ⟨_, a, _, c⟩ := write_frame.1 fresh_image sample_file [0x61] sample_env p hp
    (by rw [h1]; exact lt_of_eq_of_lt hI (by norm_num))
    (by rw [h8]; decide) (by rw [h9]; decide)
    (by
      intro t ht
      rw [h2] at ht
      unfold data_off
      rw [h11, h3]
      have : t = 0 ∨ t = 1 := by omega
      rcases this with c | c <;> subst c <;> decide)
    (by rw [h4]; norm_num) (by rw [hI]; norm_num)
  exact ⟨p, hp, a, c⟩

/-! ### Two successive injections -/

theorem data_off_bounds (sb : List Nat) (blk : Nat) (h : sb_data_region_start sb < 2 ^ 50) :
    sb_data_region_start sb * 4096 ≤ data_off sb blk ∧ data_off sb blk < 2 ^ 63 := by
  unfold data_off
  have h1 : u64 (sb_data_region_start sb * BS) = sb_data_region_start sb * 4096 := by
    unfold BS
    exact u64_small _ (by omega)
  have h2 : u32 (blk * BS) < 2 ^ 32 := Nat.mod_lt _ (by norm_num)
  rw [h1, u64_small _ (by omega)]
  omega

theorem inode_off_root (sb : List Nat) (h : sb_inode_table_start sb < 2 ^ 50) :
    inode_off sb ROOT_INO = sb_inode_table_start sb * 4096 := by
  unfold inode_off
  have h1 : u64 (sb_inode_table_start sb * BS) = sb_inode_table_start sb * 4096 := by
    unfold BS
    exact u64_small _ (by omega)
  have h2 : u32 (int_to_u32 (((ROOT_INO : Nat) : Int) - 1) * INODE_SIZE) = 0 := by decide
  rw [h1, h2, Nat.add_zero, u64_small _ (by omega)]

theorem rd_take_eq (a b : List Nat) (h : slice a 0 100 = slice b 0 100) (off n : Nat)
    (hn : off + n ≤ 100) : rd (a.take 116) off n = rd (b.take 116) off n := by
  have e : ∀ c : List Nat, rd (c.take 116) off n = le_val (slice (slice c 0 100) off n) := by
    intro c
    rw [slice_slice_head c 100 off n hn]
    show le_val (slice (slice c 0 116) off n) = _
    rw [slice_slice_head c 116 off n (by omega)]
  rw [e a, e b, h]

/-- What the image holds in the two bitmap blocks after a successful run, when the later
writes land elsewhere: the buffers `inode_bitmap` and `data_bitmap` as they were written. -/
theorem written_bitmaps (image file name : List Nat) (env : AdderEnv) (p : Plan)
    (hp : (adder_prepare image file env).1 = .ok p)
    (hI1 : 1 ≤ sb_inode_bitmap_start p.superblock) (hD1 : 1 ≤ sb_data_bitmap_start p.superblock)
    (hID : sb_inode_bitmap_start p.superblock ≠ sb_data_bitmap_start p.superblock)
    (hTI : sb_inode_table_start p.superblock ≠ sb_inode_bitmap_start p.superblock)
    (hTD : sb_inode_table_start p.superblock ≠ sb_data_bitmap_start p.superblock)
    (hIR : sb_inode_bitmap_start p.superblock < sb_data_region_start p.superblock)
    (hDR : sb_data_bitmap_start p.superblock < sb_data_region_start p.superblock)
    (hT : sb_inode_table_start p.superblock < 2 ^ 50)
    (hR : sb_data_region_start p.superblock < 2 ^ 50) :
    sb_inode_bitmap_start p.superblock * 4096 + 4096
      ≤ (adder_main image file name env).2.length ∧
    sb_data_bitmap_start p.superblock * 4096 + 4096
      ≤ (adder_main image file name env).2.length ∧
    slice (adder_main image file name env).2 (sb_inode_bitmap_start p.superblock * 4096) 4096
      = set_bit p.inode_bitmap (p.free_inode - 1).toNat ∧
    slice (adder_main image file name env).2 (sb_data_bitmap_start p.superblock * 4096) 4096
      = p.data_bitmap := by
  obtain ⟨_, s2, s3, s4, s5, s6, s7, _, _, _, _, s12, _, _⟩ := prepare_shape image file env p hp
  have eB : u64 (sb_inode_bitmap_start p.superblock * BS)
      = sb_inode_bitmap_start p.superblock * 4096 := by
    unfold BS; exact u64_small _ (by omega)
  have eC : u64 (sb_data_bitmap_start p.superblock * BS)
      = sb_data_bitmap_start p.superblock * 4096 := by
    unfold BS; exact u64_small _ (by omega)
  have hB : u64 (sb_inode_bitmap_start p.superblock * BS) < 2 ^ 63 := by rw [eB]; omega
  have hC : u64 (sb_data_bitmap_start p.superblock * BS) < 2 ^ 63 := by rw [eC]; omega
  have eI := inode_off_root p.superblock hT
  have hI : inode_off p.superblock ROOT_INO < 2 ^ 63 := by rw [eI]; omega
  have hD : ∀ b, sb_data_region_start p.superblock * 4096 ≤ data_off p.superblock b ∧
      data_off p.superblock b < 2 ^ 63 := fun b => data_off_bounds p.superblock b hR
  have hRo : sb_data_region_start p.superblock * 4096 ≤ p.root_off ∧ p.root_off < 2 ^ 63 := by
    rw [s12]; exact hD _
  have hlen := length_commit_bitmaps p (p.free_inode - 1).toNat
    (commit_inode p env (adder_prepare image file env).2) hB hC s3 s4
  rw [eB, eC] at hlen
  have hge := (length_adder_main_ge image file name env p hp).2
  have hge2 := le_trans (length_write_payload_le p.superblock p.data_blocks p.blocks_needed 0
    file (commit_bitmaps p (p.free_inode - 1).toNat
      (commit_inode p env (adder_prepare image file env).2))) hge
  have l1 : sb_inode_bitmap_start p.superblock * 4096 + 4096
      ≤ (adder_main image file name env).2.length := by omega
  have l2 : sb_data_bitmap_start p.superblock * 4096 + 4096
      ≤ (adder_main image file name env).2.length := by omega
  have key : ∀ j, j < sb_data_region_start p.superblock * 4096 → 116 ≤ j →
      ¬ (sb_inode_table_start p.superblock * 4096 ≤ j ∧
        j < sb_inode_table_start p.superblock * 4096 + 128) →
      (adder_main image file name env).2.getD j 0 =
        (commit_bitmaps p (p.free_inode - 1).toNat
          (commit_inode p env (adder_prepare image file env).2)).data.getD j 0 := by
    intro j hj1 hj2 hj3
    rw [adder_main_success image file name env p hp]
    show (commit_metadata _ _ _ _).data.getD j 0 = _
    rw [getD_commit_metadata p name env _ j hRo.2 hI,
      if_neg (by rw [length_new_superblock _ _ s2]; omega),
      if_neg (by rw [length_new_root_inode _ _ s5, eI]; exact hj3),
      if_neg (by rw [length_new_root_entries _ _ s6 s7]; omega),
      getD_write_payload_frame _ _ _ _ _ _ j (fun t _ _ => (hD _).2)
        (fun t _ _ => by have := (hD (p.data_blocks.getD t 0)).1; unfold BS; omega)]
  refine ⟨l1, l2, ?_, ?_⟩
  · refine (slice_eq_of_getD _ (set_bit p.inode_bitmap (p.free_inode - 1).toNat) _ 0 4096 l1
      (by rw [length_set_bit, s3]) (fun i hi => ?_)).trans (slice_full _ _ (by rw [length_set_bit, s3]))
    rw [key _ (by omega) (by omega) (by omega),
      getD_commit_bitmaps p _ _ _ hB hC, if_neg (by rw [eC, s4]; omega),
      if_pos (by rw [eB, length_set_bit, s3]; omega), eB]
    congr 1
    omega
  · refine (slice_eq_of_getD _ p.data_bitmap _ 0 4096 l2
      (by rw [s4]) (fun i hi => ?_)).trans (slice_full _ _ s4)
    rw [key _ (by omega) (by omega) (by omega),
      getD_commit_bitmaps p _ _ _ hB hC, if_pos (by rw [eC, s4]; omega), eC]
    congr 1
    omega

/-- A successful run leaves bytes 0..99 of the superblock record as they were. -/
theorem superblock_head_kept (image file name : List Nat) (env : AdderEnv) (p : Plan)
    (hp : (adder_prepare image file env).1 = .ok p)
    (hT : sb_inode_table_start p.superblock < 2 ^ 50)
    (hR : sb_data_region_start p.superblock < 2 ^ 50) :
    slice (adder_main image file name env).2 0 100 = slice image 0 100 := by
  obtain ⟨s1, s2, _, _, s5, s6, s7, _, _, _, _, s12, _, _⟩ := prepare_shape image file env p hp
  have hI : inode_off p.superblock ROOT_INO < 2 ^ 63 := by
    rw [inode_off_root p.superblock hT]; omega
  have hRo : p.root_off < 2 ^ 63 := by rw [s12]; exact (data_off_bounds _ _ hR).2
  have hsb : slice (adder_main image file name env).2 0 116 = new_superblock p.superblock env := by
    rw [adder_main_success image file name env p hp]
    exact slice_superblock_written p name env _ hRo hI s2 s5 s6 s7
  have hp0 : p.superblock = slice image 0 116 := s1
  rw [← slice_slice_head _ 116 0 100 (by norm_num), hsb, (slice_new_superblock p.superblock env s2).1,
    hp0, slice_slice_head _ 116 0 100 (by norm_num)]

/-- The next run on the image a successful run leaves behind reads the two bitmaps that run
wrote, when the later writes of that run land elsewhere. -/
theorem reload_bitmaps (image file name : List Nat) (env : AdderEnv) (p : Plan)
    (hp : (adder_prepare image file env).1 = .ok p)
    (hI1 : 1 ≤ sb_inode_bitmap_start p.superblock) (hD1 : 1 ≤ sb_data_bitmap_start p.superblock)
    (hID : sb_inode_bitmap_start p.superblock ≠ sb_data_bitmap_start p.superblock)
    (hTI : sb_inode_table_start p.superblock ≠ sb_inode_bitmap_start p.superblock)
    (hTD : sb_inode_table_start p.superblock ≠ sb_data_bitmap_start p.superblock)
    (hIR : sb_inode_bitmap_start p.superblock < sb_data_region_start p.superblock)
    (hDR : sb_data_bitmap_start p.superblock < sb_data_region_start p.superblock)
    (hT : sb_inode_table_start p.superblock < 2 ^ 50)
    (hR : sb_data_region_start p.superblock < 2 ^ 50)
    (env2 : AdderEnv) (l2 : Loaded)
    (h : (adder_load (adder_main image file name env).2 env2).1 = .ok l2) :
    l2.inode_bitmap = set_bit p.inode_bitmap (p.free_inode - 1).toNat ∧
    l2.data_bitmap = p.data_bitmap := by
  obtain ⟨s1, _⟩ := prepare_shape image file env p hp
  obtain ⟨w1, w2, w3, w4⟩ := written_bitmaps image file name env p hp hI1 hD1 hID hTI hTD hIR hDR
    hT hR
  have hk := superblock_head_kept image file name env p hp hT hR
  obtain ⟨_, _, h3⟩ := adder_load_ok_inv _ env2 l2 h
  have eI : sb_inode_bitmap_start ((adder_main image file name env).2.take 116)
      = sb_inode_bitmap_start p.superblock := by
    rw [s1]; exact rd_take_eq _ _ hk 28 8 (by norm_num)
  have eD : sb_data_bitmap_start ((adder_main image file name env).2.take 116)
      = sb_data_bitmap_start p.superblock := by
    rw [s1]; exact rd_take_eq _ _ hk 44 8 (by norm_num)
  have eB : u64 (sb_inode_bitmap_start p.superblock * BS)
      = sb_inode_bitmap_start p.superblock * 4096 := by
    unfold BS; exact u64_small _ (by omega)
  have eC : u64 (sb_data_bitmap_start p.superblock * BS)
      = sb_data_bitmap_start p.superblock * 4096 := by
    unfold BS; exact u64_small _ (by omega)
  have e1 : l2.inode_bitmap = fread_object
      (fseek (fread_next ⟨(adder_main image file name env).2, 0⟩ 116)
        (u64 (sb_inode_bitmap_start ((adder_main image file name env).2.take 116) * BS)))
      BS env2.junk_inode_bitmap := by rw [h3]
  have e2 : l2.data_bitmap = fread_object
      (fseek (fread_next (fseek (fread_next ⟨(adder_main image file name env).2, 0⟩ 116)
        (u64 (sb_inode_bitmap_start ((adder_main image file name env).2.take 116) * BS))) BS)
        (u64 (sb_data_bitmap_start ((adder_main image file name env).2.take 116) * BS)))
      BS env2.junk_data_bitmap := by rw [h3]
  constructor
  · rw [e1, eI, eB, fseek_eq _ _ (by omega), fread_object_eq_slice _ _ _ w1]
    exact w3
  · rw [e2, eI, eD, eB, eC, fseek_eq _ _ (by omega), fseek_eq _ _ (by omega),
      fread_object_eq_slice _ _ _ w2]
    exact w4

/-- What one successful run allocates, against the bitmaps it read. -/
theorem allocation_of_run (image file : List Nat) (env : AdderEnv) (p : Plan)
    (hp : (adder_prepare image file env).1 = .ok p) :
    ∃ (l : Loaded) (k : Nat), (adder_load image env).1 = .ok l ∧
      p.inode_bitmap = l.inode_bitmap ∧
      p.free_inode = (k : Int) + 1 ∧ k / 8 < p.inode_bitmap.length ∧
      bit_set l.inode_bitmap k = false ∧
      (∀ t u, t < u → u < p.blocks_needed →
        p.data_blocks.getD t 0 < p.data_blocks.getD u 0) ∧
      (∀ t, t < p.blocks_needed → bit_set l.data_bitmap (p.data_blocks.getD t 0) = false) ∧
      (∀ m, bit_set p.data_bitmap m = true ↔
        (bit_set l.data_bitmap m = true ∨
          ∃ t, t < p.blocks_needed ∧ p.data_blocks.getD t 0 = m)) := by
  obtain ⟨l, n, db, blks, k, hl, h2, h3, h4, h5, h6, hq⟩ := prepare_ok_inv image file env p hp
  obtain ⟨_, _, l3, l4⟩ := loaded_lengths image env l hl
  have hbn : blocks_needed file ≤ 12 := by unfold DIRECT_MAX at h4; omega
  have hrep : 0 + blocks_needed file ≤ (List.replicate DIRECT_MAX 0).length := by
    rw [List.length_replicate]; unfold DIRECT_MAX; omega
  have hbm : l.data_bitmap.length ≤ 2 ^ 27 := by rw [l4]; norm_num
  obtain ⟨_, _, _, a4, a5, a6, _⟩ := alloc_loop_ok (sb_data_region_blocks l.superblock)
    (blocks_needed file) 0 l.data_bitmap (List.replicate DIRECT_MAX 0) db blks hbm hrep h5
  have e2 : p.inode_bitmap = l.inode_bitmap := by rw [hq]
  have e3 : p.data_bitmap = db := by rw [hq]
  have e8 : p.blocks_needed = blocks_needed file := by rw [hq]
  have e9 : p.data_blocks = blks := by rw [hq]
  have e11 : p.free_inode = n := by rw [hq]
  rcases find_free_inode_found _ _ n (by rw [l3]; norm_num) h2 with c | ⟨j, c1, c2, c3, _⟩
  · exact absurd c h3
  · refine ⟨l, j, hl, e2, by rw [e11, c1], by rw [e2]; exact c2, c3, ?_, ?_, ?_⟩
    · intro t u htu hu
      rw [e9]
      exact a5 t u (Nat.zero_le _) htu (by rw [e8] at hu; omega)
    · intro t ht
      rw [e9]
      exact (a4 t (Nat.zero_le _) (by rw [e8] at ht; omega)).2
    · intro m
      rw [e3, e9, e8, a6 m]
      constructor
      · rintro (c | ⟨t, _, ht, hm⟩)
        · exact Or.inl c
        · exact Or.inr ⟨t, by omega, hm⟩
      · rintro (c | ⟨t, ht, hm⟩)
        · exact Or.inl c
        · exact Or.inr ⟨t, Nat.zero_le _, by omega, hm⟩

/-- C14: monotonic allocation.  In a successful run of the Injector the data indices it
allocates are strictly increasing, so pairwise distinct, and each was clear in the data
bitmap read from the image, as was the bit of the new inode in the inode bitmap.  The two
bitmaps the run writes have every bit set that was set when they were read, the bit of the
new inode, the bit of each allocated block, and no other.  When the superblock places the
bitmap blocks after block 0, apart from each other, apart from the first block of the inode
table and before the data region (as in the layout the Builder computes: blocks 1, 2, 3 and
a later data region), the image holds these two bitmaps after the run, and every successful
run on the resulting image returns another inode number and allocates data indices that
the first run did not allocate. -/
theorem monotonic_allocation (image f1 name1 : List Nat) (e1 : AdderEnv) (a : Int)
    (h1 : (adder_main image f1 name1 e1).1 = .success a) :
    ∃ l p, (adder_load image e1).1 = .ok l ∧ (adder_prepare image f1 e1).1 = .ok p ∧
      p.free_inode = a ∧ 1 ≤ a ∧ p.inode_bitmap = l.inode_bitmap ∧
      (∀ t u, t < u → u < p.blocks_needed →
        p.data_blocks.getD t 0 < p.data_blocks.getD u 0) ∧
      (∀ t, t < p.blocks_needed → bit_set l.data_bitmap (p.data_blocks.getD t 0) = false) ∧
      bit_set l.inode_bitmap (a - 1).toNat = false ∧
      (adder_main image f1 name1 e1).2 =
        (commit_metadata p name1 e1
          (write_payload p.superblock p.data_blocks p.blocks_needed 0 f1
            (commit_bitmaps p (a - 1).toNat
              (commit_inode p e1 (adder_prepare image f1 e1).2)))).data ∧
      (∀ m, bit_set (set_bit p.inode_bitmap (a - 1).toNat) m = true ↔
        (bit_set l.inode_bitmap m = true ∨ m = (a - 1).toNat)) ∧
      (∀ m, bit_set p.data_bitmap m = true ↔
        (bit_set l.data_bitmap m = true ∨
          ∃ t, t < p.blocks_needed ∧ p.data_blocks.getD t 0 = m)) ∧
      (1 ≤ sb_inode_bitmap_start (image.take 116) →
        1 ≤ sb_data_bitmap_start (image.take 116) →
        sb_inode_bitmap_start (image.take 116) ≠ sb_data_bitmap_start (image.take 116) →
        sb_inode_table_start (image.take 116) ≠ sb_inode_bitmap_start (image.take 116) →
        sb_inode_table_start (image.take 116) ≠ sb_data_bitmap_start (image.take 116) →
        sb_inode_bitmap_start (image.take 116) < sb_data_region_start (image.take 116) →
        sb_data_bitmap_start (image.take 116) < sb_data_region_start (image.take 116) →
        sb_inode_table_start (image.take 116) < 2 ^ 50 →
        sb_data_region_start (image.take 116) < 2 ^ 50 →
        slice (adder_main image f1 name1 e1).2
            (sb_inode_bitmap_start (image.take 116) * 4096) 4096
          = set_bit p.inode_bitmap (a - 1).toNat ∧
        slice (adder_main image f1 name1 e1).2
            (sb_data_bitmap_start (image.take 116) * 4096) 4096
          = p.data_bitmap ∧
        ∀ (f2 name2 : List Nat) (e2 : AdderEnv) (b : Int),
          (adder_main (adder_main image f1 name1 e1).2 f2 name2 e2).1 = .success b →
          b ≠ a ∧
          ∃ p2, (adder_prepare (adder_main image f1 name1 e1).2 f2 e2).1 = .ok p2 ∧
            p2.free_inode = b ∧
            ∀ t u, t < p.blocks_needed → u < p2.blocks_needed →
              p2.data_blocks.getD u 0 ≠ p.data_blocks.getD t 0) := by
  obtain ⟨p, hp, hpa⟩ := adder_main_success_inv image f1 name1 e1 a h1
  obtain ⟨l, k, hl, b2, b3, b4, b5, b6, b7, b8⟩ := allocation_of_run image f1 e1 p hp
  obtain ⟨s1, _⟩ := prepare_shape image f1 e1 p hp
  have ha : a = (k : Int) + 1 := by rw [← hpa, b3]
  have hk : (a - 1).toNat = k := by rw [ha]; simp
  have hbits : ∀ m, bit_set (set_bit p.inode_bitmap k) m = true ↔
      (bit_set l.inode_bitmap m = true ∨ m = k) := by
    intro m
    rw [bit_set_set_bit p.inode_bitmap k m b4, b2, Bool.or_eq_true, decide_eq_true_eq]
  refine ⟨l, p, hl, hp, hpa, by omega, b2, b6, b7, by rw [hk]; exact b5, ?_,
    by rw [hk]; exact hbits, b8, ?_⟩
  · rw [adder_main_success image f1 name1 e1 p hp, hpa]
  · rw [← s1]
    intro hI1 hD1 hID hTI hTD hIR hDR hT hR
    obtain ⟨_, _, w3, w4⟩ := written_bitmaps image f1 name1 e1 p hp hI1 hD1 hID hTI hTD hIR hDR
      hT hR
    rw [hpa] at w3
    refine ⟨w3, w4, ?_⟩
    intro f2 name2 e2 b h2
    obtain ⟨p2, hp2, hpb⟩ := adder_main_success_inv _ f2 name2 e2 b h2
    obtain ⟨l2, k2, hl2, c2, c3, c4, c5, _, c7, _⟩ := allocation_of_run _ f2 e2 p2 hp2
    obtain ⟨r1, r2⟩ := reload_bitmaps image f1 name1 e1 p hp hI1 hD1 hID hTI hTD hIR hDR hT hR
      e2 l2 hl2
    rw [hpa, hk] at r1
    have hne : k2 ≠ k := by
      intro c
      have := (hbits k).2 (Or.inr rfl)
      rw [← r1, ← c, c5] at this
      cases this
    refine ⟨?_, p2, hp2, hpb, ?_⟩
    · rw [← hpb, c3, ha]
      intro c
      exact hne (by omega)
    · intro t u ht hu c
      have x1 := c7 u hu
      rw [r2, c] at x1
      have x2 := (b8 (p.data_blocks.getD t 0)).2 (Or.inr ⟨t, ht, rfl⟩)
      rw [x1] at x2
      cases x2

/-- The plan of a run on `sample_image` that adds a file of one block, by its fields. -/
theorem sample_plan_fields (file : List Nat) (env : AdderEnv) (hbn : blocks_needed file = 1) :
    ∃ p, (adder_prepare sample_image file env).1 = .ok p ∧
      p.superblock = sample_image.take 116 ∧
      p.inode_bitmap = 0x01 :: List.replicate 4095 0 ∧
      p.data_bitmap = set_bit (0x01 :: List.replicate 4095 0) 1 ∧
      p.free_inode = 2 ∧ p.blocks_needed = 1 ∧
      p.data_blocks = [1, 0, 0, 0, 0, 0, 0, 0, 0, 0, 0, 0] ∧
      p.root_inode = inode_bytes sample_root_inode ∧ p.root_off = 16384 ∧
      p.root_entries = builder_data_block ∧ p.free_entry = 2 :=
  ⟨_, sample_plan file env hbn, rfl, rfl, rfl, rfl, rfl, rfl, rfl, rfl, rfl, rfl⟩

/-- Two images with the same first 100 bytes have the same superblock fields up to
`data_region_blocks`. -/
theorem fields_kept (a b : List Nat) (h : slice a 0 100 = slice b 0 100) :
    rd (a.take 116) 0 4 = rd (b.take 116) 0 4 ∧
    sb_inode_count (a.take 116) = sb_inode_count (b.take 116) ∧
    sb_inode_bitmap_start (a.take 116) = sb_inode_bitmap_start (b.take 116) ∧
    sb_data_bitmap_start (a.take 116) = sb_data_bitmap_start (b.take 116) ∧
    sb_inode_table_start (a.take 116) = sb_inode_table_start (b.take 116) ∧
    sb_data_region_start (a.take 116) = sb_data_region_start (b.take 116) ∧
    sb_data_region_blocks (a.take 116) = sb_data_region_blocks (b.take 116) :=
  ⟨rd_take_eq a b h 0 4 (by norm_num), rd_take_eq a b h 20 8 (by norm_num),
    rd_take_eq a b h 28 8 (by norm_num), rd_take_eq a b h 44 8 (by norm_num),
    rd_take_eq a b h 60 8 (by norm_num), rd_take_eq a b h 76 8 (by norm_num),
    rd_take_eq a b h 84 8 (by norm_num)⟩

/-- The plan of a second run on `sample_image`, after the run that added a one-block file
as inode 2: it takes inode 3, data index 2 and slot 3 of the root directory. -/
theorem sample_second_plan :
    ∃ p2, (adder_prepare (adder_main sample_image [0x41] [0x61] sample_env).2 [0x42]
        sample_env).1 = .ok p2 ∧
      p2.free_inode = 3 ∧ p2.blocks_needed = 1 ∧
      p2.data_blocks = [2, 0, 0, 0, 0, 0, 0, 0, 0, 0, 0, 0] ∧ p2.free_entry = 3 := by
  obtain ⟨f0, f1, f2, f3, f4, f5, f6⟩ := sample_image_fields
  obtain ⟨p, hp, e1, e2, e3, e4, e5, e6, e7, e8, e9, e10⟩ :=
    sample_plan_fields [0x41] sample_env (by decide)
  have hT : sb_inode_table_start p.superblock < 2 ^ 50 := by rw [e1, f4]; norm_num
  have hR : sb_data_region_start p.superblock < 2 ^ 50 := by rw [e1, f5]; norm_num
  obtain ⟨w1, w2, w3, w4⟩ := written_bitmaps sample_image [0x41] [0x61] sample_env p hp
    (by rw [e1, f2]) (by rw [e1, f3]; norm_num) (by rw [e1, f2, f3]; norm_num)
    (by rw [e1, f2, f4]; norm_num) (by rw [e1, f3, f4]; norm_num)
    (by rw [e1, f2, f5]; norm_num) (by rw [e1, f3, f5]; norm_num) hT hR
  rw [e1, f2, e2, e4] at w3
  rw [e1, f3, e3] at w4
  have hk := superblock_head_kept sample_image [0x41] [0x61] sample_env p hp hT hR
  have hge := (length_adder_main_ge sample_image [0x41] [0x61] sample_env p hp).1
  rw [sample_image_length] at hge
  have hI : inode_off p.superblock ROOT_INO = 12288 :=
    inode_off_root_eq _ 12288 (by rw [e1, f4]) (by norm_num)
  have l1 : p.superblock.length = 116 := by
    rw [e1, List.length_take, sample_image_length]; norm_num
  have l2 : p.root_inode.length = 128 := by rw [e7]; exact length_inode_bytes _
  have l3 : p.root_entries.length = 4096 := by rw [e9]; exact length_builder_data_block
  have hri : slice (adder_main sample_image [0x41] [0x61] sample_env).2 12288 128
      = new_root_inode (inode_bytes sample_root_inode) 0 := by
    rw [adder_main_success sample_image [0x41] [0x61] sample_env p hp]
    have := slice_root_inode_written p [0x61] sample_env
      (write_payload p.superblock p.data_blocks p.blocks_needed 0 [0x41]
        (commit_bitmaps p (p.free_inode - 1).toNat
          (commit_inode p sample_env (adder_prepare sample_image [0x41] sample_env).2)))
      (by rw [e8]; norm_num) (by rw [hI]; norm_num) l1 l2 l3 (by rw [e10]; norm_num)
      (by rw [hI]; norm_num)
    rw [hI, e7] at this
    exact this
  have hre : slice (adder_main sample_image [0x41] [0x61] sample_env).2 16384 4096
      = new_root_entries p [0x61] := by
    rw [adder_main_success sample_image [0x41] [0x61] sample_env p hp]
    have := slice_root_block_written p [0x61] sample_env
      (write_payload p.superblock p.data_blocks p.blocks_needed 0 [0x41]
        (commit_bitmaps p (p.free_inode - 1).toNat
          (commit_inode p sample_env (adder_prepare sample_image [0x41] sample_env).2)))
      (by rw [e8]; norm_num) (by rw [hI]; norm_num) l1 l2 l3 (by rw [e10]; norm_num)
      (by rw [e8]; norm_num) (Or.inl (by rw [hI, e8]; norm_num))
    rw [e8] at this
    exact this
  have hne : new_root_entries p [0x61]
      = patch builder_data_block 128
          (new_dirent (slice builder_data_block 128 64) 2 [0x61]) := by
    unfold new_root_entries
    rw [e9, e10, e4]
  rw [hne] at hre
  obtain ⟨k0, k1, k2, k3, k4, k5, k6⟩ := fields_kept _ _ hk
  have hbn : blocks_needed [0x42] = 1 := by decide
  have hfd : find_free_data_block (set_bit (0x01 :: List.replicate 4095 0) 1) 3
      = some ((2 : Nat) : Int) := by
    decide!
  have ha : alloc_loop 3 (0 + 1) 0 (set_bit (0x01 :: List.replicate 4095 0) 1)
      (List.replicate 12 0)
      = .ok (set_bit (set_bit (0x01 :: List.replicate 4095 0) 1) 2,
          [2, 0, 0, 0, 0, 0, 0, 0, 0, 0, 0, 0]) := by
    rw [alloc_loop_succ 3 0 0 _ _ 2 hfd
      (by rw [length_set_bit, List.length_cons, List.length_replicate]; norm_num)]
    rfl
  have h := prepare_of_reads (adder_main sample_image [0x41] [0x61] sample_env).2 [0x42]
    sample_env 4096 8192 12288 16384 0 16384 3
    (set_bit (set_bit (0x01 :: List.replicate 4095 0) 1) 2)
    [2, 0, 0, 0, 0, 0, 0, 0, 0, 0, 0, 0] 3
    (by omega) (k0.trans f0) (by rw [k2, f2]) (by rw [k3, f3]) (by rw [k4, f4])
    (by rw [k5, f5])
    (by norm_num) (by norm_num) (by norm_num) (by norm_num)
    (by omega) (by omega) (by omega)
    (by rw [w3, k1, f1]; decide!)
    (by decide) (by rw [hbn]; norm_num)
    (by rw [w4, k6, f6, hbn]; exact ha)
    (by rw [hri]; decide!) (by norm_num) (by norm_num) (by omega)
    (by rw [hre]; decide!)
  exact ⟨_, h, rfl, hbn, rfl, rfl⟩

theorem sample_second_run :
    (adder_main (adder_main sample_image [0x41] [0x61] sample_env).2 [0x42] [0x62]
      sample_env).1 = .success 3 := by
  obtain ⟨p2, hp2, h1, _⟩ := sample_second_plan
  have h5 := (prepare_shape _ [0x42] sample_env p2 hp2).2.2.1
  have := run_of_plan _ [0x42] [0x62] sample_env p2 hp2 (by rw [h1]; norm_num)
    (by rw [h1, h5]; norm_num)
  rw [h1] at this
  exact this

theorem monotonic_allocation_witness :
    (adder_main sample_image [0x41] [0x61] sample_env).1 = .success 2 ∧
    (adder_main (adder_main sample_image [0x41] [0x61] sample_env).2 [0x42] [0x62]
      sample_env).1 = .success 3 ∧
    ∃ p p2, (adder_prepare sample_image [0x41] sample_env).1 = .ok p ∧
      (adder_prepare (adder_main sample_image [0x41] [0x61] sample_env).2 [0x42]
        sample_env).1 = .ok p2 ∧
      p.free_inode = 2 ∧ p2.free_inode = 3 ∧
      ∀ t u, t < p.blocks_needed → u < p2.blocks_needed →
        p2.data_blocks.getD u 0 ≠ p.data_blocks.getD t 0 := by
  obtain ⟨_, p, _, hp, ha, _, _, _, _, _, _, _, _, hc⟩ :=
    monotonic_allocation sample_image [0x41] [0x61] sample_env 2 sample_run_outcome
  obtain ⟨_, _, r1, r2, r3, r4, _⟩ := sample_image_fields
  rw [r1, r2, r3, r4] at hc
  obtain ⟨_, _, h⟩ := hc (by norm_num) (by norm_num) (by norm_num) (by norm_num) (by norm_num)
    (by norm_num) (by norm_num) (by norm_num) (by norm_num)
  obtain ⟨_, p2, hp2, hb, hd⟩ := h [0x42] [0x62] sample_env 3 sample_second_run
  exact ⟨sample_run_outcome, sample_second_run, p, p2, hp, hp2, ha, hb, hd⟩

end MiniVSFS
